import Mathlib

/-!
Verification of the in-memory filesystem backend (`fs/memoryfs.py` of the
pyfilesystem trunk).  The Python classes `MemoryFile`, `DirEntry` and
`MemoryFS` are embedded shallowly: byte strings become `List Char`, paths
become lists of already-normalized components (the path utilities
`normpath` / `pathsplit` / `iteratepath` are external collaborators of the
module; a path string `/a/b` is the component list `["a", "b"]` and the
root path is `[]`, `pathsplit` returning the leading components and the
last name).  Node objects live in an arena indexed by `Nat` so that Python
object identity and in-place mutation are represented faithfully; every
operation returns the (possibly partially mutated) state together with an
`Except` value, an `Except.error` standing for a raised Python exception.
-/

/-- Bytes of a file, Python `str` of this Python-2 code base. -/
abbrev Str := List Char

/-- A path, as its list of normalized components; `[]` is the root path. -/
abbrev FPath := List String

/-- Identifier of a `DirEntry` object in the node arena. -/
abbrev NodeId := Nat

/-- Identifier of a `MemoryFile` object in the handle arena. -/
abbrev HandleId := Nat

/-- The exceptions the embedded code can raise.  The first seven are the
typed filesystem errors from `fs.errors`; the last five model raw Python
exceptions escaping from buggy paths (`None` attribute access, item
access on `None`, `dict` deletion of a missing key, `list.remove` of a
missing element / operations on a closed file, and a failing `assert`). -/
inductive Err where
  | resourceNotFound
  | resourceInvalid
  | resourceLocked
  | destinationExists
  | parentDirectoryMissing
  | directoryNotEmpty
  | pathError
  | attributeError
  | typeError
  | keyError
  | valueError
  | assertionError
deriving DecidableEq

deriving instance DecidableEq for Except

/-- `pathsplit`: all but the last component, and the last component
(empty for the root path), as the external `fs.path.pathsplit` does. -/
def lastName (p : FPath) : String := p.getLast?.getD ""

/-- Python `dict` lookup `d.get(k)` on an association list. -/
def lookupA {α : Type} (k : String) : List (String × α) → Option α
  | [] => none
  | (k', v) :: rest => if k = k' then some v else lookupA k rest

/-- Python `dict` assignment `d[k] = v`. -/
def setA {α : Type} (k : String) (v : α) (l : List (String × α)) : List (String × α) :=
  (k, v) :: l.filter (fun kv => kv.1 != k)

/-- Python `dict` deletion `del d[k]` once the key is known present. -/
def delA {α : Type} (k : String) (l : List (String × α)) : List (String × α) :=
  l.filter (fun kv => kv.1 != k)

/-- Python `del d[k]`, raising `KeyError` when the key is absent. -/
def delDict {α : Type} (k : String) (l : List (String × α)) : Except Err (List (String × α)) :=
  match lookupA k l with
  | none => .error .keyError
  | some _ => .ok (delA k l)

/-- `_check_mode(mode, mode_chars)`: every character of `mode_chars`
occurs in `mode`. -/
def check_mode (mode mode_chars : Str) : Bool :=
  mode_chars.all (fun c => mode.contains c)

/-- A `StringIO` buffer: its characters, the current position, and the
closed flag (operations on a closed buffer raise `ValueError`). -/
structure Sio where
  chars : Str
  pos : Nat
  closed : Bool
deriving DecidableEq

/-- `StringIO.write`: overwrite at the current position, extending (and
null-padding, as `cStringIO` does after a seek past the end) as needed. -/
def Sio.write (f : Sio) (data : Str) : Except Err Sio :=
  if f.closed then .error .valueError
  else
    let padded := f.chars ++ List.replicate (f.pos - f.chars.length) (Char.ofNat 0)
    .ok { f with
          chars := padded.take f.pos ++ data ++ padded.drop (f.pos + data.length),
          pos := f.pos + data.length }

/-- `StringIO.getvalue`. -/
def Sio.getvalue (f : Sio) : Except Err Str :=
  if f.closed then .error .valueError else .ok f.chars

/-- `StringIO.read()` with no size: the rest of the buffer. -/
def Sio.readToEnd (f : Sio) : Except Err (Str × Sio) :=
  if f.closed then .error .valueError
  else .ok (f.chars.drop f.pos, { f with pos := f.chars.length })

/-- `StringIO.seek(n)` (absolute). -/
def Sio.seekTo (f : Sio) (n : Nat) : Except Err Sio :=
  if f.closed then .error .valueError else .ok { f with pos := n }

/-- `StringIO.truncate()` at the current position. -/
def Sio.truncateHere (f : Sio) : Except Err Sio :=
  if f.closed then .error .valueError else .ok { f with chars := f.chars.take f.pos }

/-- `StringIO.close`. -/
def Sio.closeIt (f : Sio) : Sio := { f with closed := true }

/-- The `MemoryFile` object: closed flag, the path it was opened against
(mutable, repointed by `rename`), the mode, and the `StringIO` buffer. -/
structure MemoryFile where
  closed : Bool
  path : FPath
  mode : Str
  mem_file : Sio
deriving DecidableEq

/-- `MemoryFile.__init__`: seed the buffer from the node's stored value
according to the open mode, exactly following the branch chain of the
source (`'+' in mode`, then `_check_mode` on `"wa"`, `"w"`, `"ra"`,
`"r"`, `"a"`, else the raw value). -/
def MemoryFile.init (path : FPath) (value? : Option Str) (mode : Str) : MemoryFile :=
  let value := value?.getD []
  let mf : Sio :=
    if mode.contains '+' then ⟨value, 0, false⟩
    else if check_mode mode ['w', 'a'] then ⟨value, value.length, false⟩
    else if check_mode mode ['w'] then ⟨[], 0, false⟩
    else if check_mode mode ['r', 'a'] then ⟨value, value.length, false⟩
    else if check_mode mode ['r'] then ⟨value, 0, false⟩
    else if check_mode mode ['a'] then ⟨value, value.length, false⟩
    else ⟨value, 0, false⟩
  ⟨false, path, mode, mf⟩

/-- The tag of a `DirEntry`. -/
inductive NodeKind where
  | dir
  | file
deriving DecidableEq

/-- The `DirEntry` node object: kind tag, stored name, children mapping
(`none` for files, as in the source where `contents` is `None`), the open
handle list, file data, lock count, timestamps and extended attributes.
Timestamps are drawn from a logical clock in the filesystem state. -/
structure DirEntry where
  kind : NodeKind
  name : String
  contents : Option (List (String × NodeId))
  open_files : List HandleId
  data : Option Str
  locks : Int
  created_time : Nat
  modified_time : Nat
  accessed_time : Nat
  xattrs : List (String × Str)
deriving DecidableEq

/-- `DirEntry.__init__` with the default `contents=None` argument. -/
def make_dir_entry (kind : NodeKind) (name : String) (now : Nat) : DirEntry :=
  { kind := kind
    name := name
    contents := match kind with | .dir => some [] | .file => none
    open_files := []
    data := none
    locks := 0
    created_time := now
    modified_time := now
    accessed_time := now
    xattrs := [] }

/-- `DirEntry.islocked`. -/
def DirEntry.islocked (e : DirEntry) : Prop := e.locks > 0

instance (e : DirEntry) : Decidable e.islocked := by
  unfold DirEntry.islocked; infer_instance

/-- `DirEntry.lock`. -/
def DirEntry.lockE (e : DirEntry) : DirEntry := { e with locks := e.locks + 1 }

/-- The whole `MemoryFS` state: the node arena, the root node id, the
handle arena, fresh-id counters and the logical clock used for
timestamps. -/
structure FSState where
  nodes : List (NodeId × DirEntry)
  root : NodeId
  handles : List (HandleId × MemoryFile)
  nextNode : NodeId
  nextHandle : HandleId
  clock : Nat
deriving DecidableEq

/-- Read the logical clock (`datetime.datetime.now()`) and advance it. -/
def tick (s : FSState) : Nat × FSState := (s.clock, { s with clock := s.clock + 1 })

/-- Lookup by id in an arena. -/
def findVal {β : Type} (l : List (Nat × β)) (i : Nat) : Option β :=
  match l.find? (fun pr => pr.1 == i) with
  | some pr => some pr.2
  | none => none

/-- Dereference a node id. -/
def getNode (s : FSState) (i : NodeId) : Option DirEntry :=
  findVal s.nodes i

/-- In-place mutation of one node object. -/
def mapMod (i : NodeId) (f : DirEntry → DirEntry) (l : List (NodeId × DirEntry)) :
    List (NodeId × DirEntry) :=
  l.map (fun pr => if pr.1 = i then (pr.1, f pr.2) else pr)

/-- Mutate the node `i` of the arena. -/
def modifyNode (s : FSState) (i : NodeId) (f : DirEntry → DirEntry) : FSState :=
  { s with nodes := mapMod i f s.nodes }

/-- Allocate a fresh node object. -/
def addNode (s : FSState) (e : DirEntry) : NodeId × FSState :=
  (s.nextNode, { s with nodes := (s.nextNode, e) :: s.nodes, nextNode := s.nextNode + 1 })

/-- Dereference a handle id. -/
def getHandle (s : FSState) (h : HandleId) : Option MemoryFile :=
  findVal s.handles h

/-- Mutate the handle `h` of the arena. -/
def modifyHandle (s : FSState) (h : HandleId) (f : MemoryFile → MemoryFile) : FSState :=
  { s with handles := s.handles.map (fun pr => if pr.1 = h then (pr.1, f pr.2) else pr) }

/-- Allocate a fresh handle object. -/
def addHandle (s : FSState) (mf : MemoryFile) : HandleId × FSState :=
  (s.nextHandle,
   { s with handles := (s.nextHandle, mf) :: s.handles, nextHandle := s.nextHandle + 1 })

/-- One step of path resolution: child `c` of node `i`, following the
source's `current_dir.contents is None` check then `contents.get`. -/
def stepN (s : FSState) (i : NodeId) (c : String) : Option NodeId :=
  match getNode s i with
  | none => none
  | some e =>
    match e.contents with
    | none => none
    | some cs => lookupA c cs

/-- The walking loop of `MemoryFS._get_dir_entry`, from node `cur`. -/
def resolveFrom (s : FSState) (cur : NodeId) : FPath → Option NodeId
  | [] => some cur
  | c :: rest =>
    match stepN s cur c with
    | none => none
    | some child => resolveFrom s child rest

/-- `MemoryFS._get_dir_entry`: resolve a path from the root, `none` when
resolution fails. -/
def Fs.get_dir_entry (s : FSState) (p : FPath) : Option NodeId :=
  resolveFrom s s.root p

/-- `MemoryFS.__init__`: a fresh filesystem with just the root directory. -/
def new_fs : FSState :=
  { nodes := [(0, make_dir_entry .dir "root" 0)]
    root := 0
    handles := []
    nextNode := 1
    nextHandle := 0
    clock := 1 }

/-- `MemoryFS.isdir`. -/
def Fs.isdir (s : FSState) (p : FPath) : Bool :=
  match Fs.get_dir_entry s p with
  | none => false
  | some i =>
    match getNode s i with
    | none => false
    | some e => match e.kind with | .dir => true | .file => false

/-- `MemoryFS.isfile`. -/
def Fs.isfile (s : FSState) (p : FPath) : Bool :=
  match Fs.get_dir_entry s p with
  | none => false
  | some i =>
    match getNode s i with
    | none => false
    | some e => match e.kind with | .dir => false | .file => true

/-- `MemoryFS.exists`. -/
def Fs.existsPath (s : FSState) (p : FPath) : Bool :=
  (Fs.get_dir_entry s p).isSome

/-- `MemoryFS._lock_dir_entry` (attribute access on `None` raises if the
path does not resolve). -/
def Fs.lock_dir_entry (s : FSState) (p : FPath) : Except Err Unit × FSState :=
  match Fs.get_dir_entry s p with
  | none => (.error .attributeError, s)
  | some i => (.ok (), modifyNode s i DirEntry.lockE)

/-- `MemoryFS._unlock_dir_entry`: decrement, then the `assert locks >= 0`
of `DirEntry.unlock`. -/
def Fs.unlock_dir_entry (s : FSState) (p : FPath) : Except Err Unit × FSState :=
  match Fs.get_dir_entry s p with
  | none => (.error .attributeError, s)
  | some i =>
    let s' := modifyNode s i (fun e => { e with locks := e.locks - 1 })
    match getNode s' i with
    | none => (.ok (), s')
    | some e' => if e'.locks < 0 then (.error .assertionError, s') else (.ok (), s')

/-- `MemoryFS._on_flush_memory_file`: store the buffer value in the
node's `data` (attribute assignment on `None` raises when the handle's
path no longer resolves). -/
def Fs.on_flush_memory_file (s : FSState) (p : FPath) (value : Str) : Except Err Unit × FSState :=
  match Fs.get_dir_entry s p with
  | none => (.error .attributeError, s)
  | some i => (.ok (), modifyNode s i (fun e => { e with data := some value }))

/-- `MemoryFS._on_modify_memory_file`: refresh the modified timestamp. -/
def Fs.on_modify_memory_file (s : FSState) (p : FPath) : Except Err Unit × FSState :=
  match Fs.get_dir_entry s p with
  | none => (.error .attributeError, s)
  | some i =>
    let (t, s1) := tick s
    (.ok (), modifyNode s1 i (fun e => { e with modified_time := t }))

/-- `MemoryFS._on_close_memory_file`: when the path resolves and the
value is not `None`, commit the data, remove the handle from the node's
`open_files` (Python `list.remove`, `ValueError` when absent), and
unlock. -/
def Fs.on_close_memory_file (s : FSState) (h : HandleId) (p : FPath) (value? : Option Str) :
    Except Err Unit × FSState :=
  match Fs.get_dir_entry s p with
  | none => (.ok (), s)
  | some i =>
    match value? with
    | none => (.ok (), s)
    | some v =>
      let s1 := modifyNode s i (fun e => { e with data := some v })
      match getNode s1 i with
      | none => (.ok (), s1)
      | some e =>
        if h ∈ e.open_files then
          let s2 := modifyNode s1 i (fun e' => { e' with open_files := e'.open_files.erase h })
          Fs.unlock_dir_entry s2 p
        else (.error .valueError, s1)

/-- `MemoryFile.close`: a no-op when already closed, otherwise get the
buffer value, notify the filesystem, then close the buffer and mark the
handle closed. -/
def Fs.file_close (s : FSState) (h : HandleId) : Except Err Unit × FSState :=
  match getHandle s h with
  | none => (.error .attributeError, s)
  | some mf =>
    if mf.closed then (.ok (), s)
    else
      match mf.mem_file.getvalue with
      | .error e => (.error e, s)
      | .ok v =>
        match Fs.on_close_memory_file s h mf.path (some v) with
        | (.error e, s1) => (.error e, s1)
        | (.ok _, s1) =>
          (.ok (),
           modifyHandle s1 h (fun m => { m with closed := true, mem_file := m.mem_file.closeIt }))

/-- `MemoryFile.flush`. -/
def Fs.file_flush (s : FSState) (h : HandleId) : Except Err Unit × FSState :=
  match getHandle s h with
  | none => (.error .attributeError, s)
  | some mf =>
    match mf.mem_file.getvalue with
    | .error e => (.error e, s)
    | .ok v => Fs.on_flush_memory_file s mf.path v

/-- `MemoryFile.write`: notify the filesystem (refreshing the modified
timestamp), then write into the buffer. -/
def Fs.file_write (s : FSState) (h : HandleId) (data : Str) : Except Err Unit × FSState :=
  match getHandle s h with
  | none => (.error .attributeError, s)
  | some mf =>
    match Fs.on_modify_memory_file s mf.path with
    | (.error e, s1) => (.error e, s1)
    | (.ok _, s1) =>
      match mf.mem_file.write data with
      | .error e => (.error e, s1)
      | .ok sio' => (.ok (), modifyHandle s1 h (fun m => { m with mem_file := sio' }))

/-- `MemoryFile.read()` to the end of the buffer. -/
def Fs.file_readToEnd (s : FSState) (h : HandleId) : Except Err Str × FSState :=
  match getHandle s h with
  | none => (.error .attributeError, s)
  | some mf =>
    match mf.mem_file.readToEnd with
    | .error e => (.error e, s)
    | .ok (out, sio') => (.ok out, modifyHandle s h (fun m => { m with mem_file := sio' }))

/-- `MemoryFile.seek` (absolute). -/
def Fs.file_seek (s : FSState) (h : HandleId) (n : Nat) : Except Err Unit × FSState :=
  match getHandle s h with
  | none => (.error .attributeError, s)
  | some mf =>
    match mf.mem_file.seekTo n with
    | .error e => (.error e, s)
    | .ok sio' => (.ok (), modifyHandle s h (fun m => { m with mem_file := sio' }))

/-- `MemoryFile.truncate` at the current position. -/
def Fs.file_truncate (s : FSState) (h : HandleId) : Except Err Unit × FSState :=
  match getHandle s h with
  | none => (.error .attributeError, s)
  | some mf =>
    match mf.mem_file.truncateHere with
    | .error e => (.error e, s)
    | .ok sio' => (.ok (), modifyHandle s h (fun m => { m with mem_file := sio' }))

/-- The tail of the write branch of `MemoryFS.open`, from the lock check
onward, shared by the leaf-exists and leaf-created cases (`fid` is the
file node, already present in the tree). -/
def openWTail (s : FSState) (path : FPath) (mode : Str) (fid : NodeId) :
    Except Err (Option HandleId) × FSState :=
  match getNode s fid with
  | none => (.error .attributeError, s)
  | some fe =>
    if fe.locks > 0 then (.error .resourceLocked, s)
    else
      let (t, s1) := tick s
      let s2 := modifyNode s1 fid (fun e => { e with accessed_time := t })
      match Fs.lock_dir_entry s2 path with
      | (.error e, s3) => (.error e, s3)
      | (.ok _, s3) =>
        let mf := MemoryFile.init path none mode
        let (h, s4) := addHandle s3 mf
        let s5 := modifyNode s4 fid (fun e => { e with open_files := e.open_files ++ [h] })
        (.ok (some h), s5)

/-- `MemoryFS.open`: returns `some` handle id on the normal paths and
`none` when the mode names none of read/write/append (the source then
falls off the end of the function and returns Python `None`). -/
def Fs.openPath (s : FSState) (path : FPath) (mode : Str) : Except Err (Option HandleId) × FSState :=
  let filepath := path.dropLast
  let filename := lastName path
  match Fs.get_dir_entry s filepath with
  | none => (.error .resourceNotFound, s)
  | some pid =>
    match getNode s pid with
    | none => (.error .resourceNotFound, s)
    | some pe =>
      if pe.kind = .dir then
        if mode.contains 'r' || mode.contains 'a' then
          match pe.contents with
          | none => (.error .typeError, s)
          | some cs =>
            match lookupA filename cs with
            | none => (.error .resourceNotFound, s)
            | some fid =>
              match getNode s fid with
              | none => (.error .attributeError, s)
              | some fe =>
                if mode.contains 'a' ∧ fe.locks > 0 then (.error .resourceLocked, s)
                else
                  let (t, s1) := tick s
                  let s2 := modifyNode s1 fid (fun e => { e with accessed_time := t })
                  match Fs.lock_dir_entry s2 path with
                  | (.error e, s3) => (.error e, s3)
                  | (.ok _, s3) =>
                    let dataNow := match getNode s3 fid with | some e => e.data | none => none
                    let mf := MemoryFile.init path dataNow mode
                    let (h, s4) := addHandle s3 mf
                    let s5 := modifyNode s4 fid (fun e => { e with open_files := e.open_files ++ [h] })
                    (.ok (some h), s5)
        else if mode.contains 'w' then
          match pe.contents with
          | none => (.error .typeError, s)
          | some cs =>
            let fs1 : NodeId × FSState :=
              match lookupA filename cs with
              | none =>
                let (t, s1) := tick s
                let (nid, s2) := addNode s1 (make_dir_entry .file filename t)
                let s3 := modifyNode s2 pid (fun en =>
                  match en.contents with
                  | some cs2 => { en with contents := some (setA filename nid cs2) }
                  | none => en)
                (nid, s3)
              | some fid => (fid, s)
            openWTail fs1.2 path mode fs1.1
        else (.ok none, s)
      else (.error .resourceNotFound, s)

/-- The intermediate-component check loop of the recursive `makedir`
branch (`for path_component in iteratepath(dirpath)[:-1]`): break on the
first missing component, fail `ResourceInvalid` on a non-directory. -/
def makedirCheckLoop (s : FSState) (cur : NodeId) : List String → Except Err Unit
  | [] => .ok ()
  | c :: rest =>
    match getNode s cur with
    | none => .error .attributeError
    | some e =>
      match e.contents with
      | none => .error .attributeError
      | some cs =>
        match lookupA c cs with
        | none => .ok ()
        | some child =>
          match getNode s child with
          | none => .error .attributeError
          | some ce =>
            match ce.kind with
            | .dir => makedirCheckLoop s child rest
            | .file => .error .resourceInvalid

/-- The creation loop of the recursive `makedir` branch: walk the parent
chain, creating each missing directory, and return the final node. -/
def makedirCreateLoop (s : FSState) (cur : NodeId) : List String → Except Err NodeId × FSState
  | [] => (.ok cur, s)
  | c :: rest =>
    match getNode s cur with
    | none => (.error .attributeError, s)
    | some e =>
      match e.contents with
      | none => (.error .attributeError, s)
      | some cs =>
        match lookupA c cs with
        | none =>
          let (t, s1) := tick s
          let (nid, s2) := addNode s1 (make_dir_entry .dir c t)
          let s3 := modifyNode s2 cur (fun en =>
            match en.contents with
            | some cs2 => { en with contents := some (setA c nid cs2) }
            | none => en)
          makedirCreateLoop s3 nid rest
        | some child => makedirCreateLoop s child rest

/-- The shared leaf-creation part of `makedir` (lines 298-307 of the
source): note that when the parent node is a `File`, its `contents` is
`None` and the `contents.get` raises `AttributeError`. -/
def makedirLeaf (s : FSState) (pid : NodeId) (dname : String) (allow_recreate : Bool) :
    Except Err Unit × FSState :=
  match getNode s pid with
  | none => (.error .attributeError, s)
  | some pe =>
    match pe.contents with
    | none => (.error .attributeError, s)
    | some cs =>
      match lookupA dname cs with
      | some did =>
        match getNode s did with
        | none => (.error .attributeError, s)
        | some de =>
          match de.kind with
          | .dir => if allow_recreate then (.ok (), s) else (.error .destinationExists, s)
          | .file => (.error .resourceInvalid, s)
      | none =>
        let (t, s1) := tick s
        let (nid, s2) := addNode s1 (make_dir_entry .dir dname t)
        (.ok (),
         modifyNode s2 pid (fun en =>
           match en.contents with
           | some cs2 => { en with contents := some (setA dname nid cs2) }
           | none => en))

/-- `MemoryFS.makedir`. -/
def Fs.makedir (s : FSState) (dirname0 : FPath) (recursive allow_recreate : Bool) :
    Except Err Unit × FSState :=
  if dirname0 = [] then (.error .pathError, s)
  else
    let dirpath := dirname0.dropLast
    let dname := lastName dirname0
    if recursive then
      let pre : Except Err Unit :=
        match Fs.get_dir_entry s dirpath with
        | none => .ok ()
        | some pid =>
          match getNode s pid with
          | none => .ok ()
          | some pe =>
            match pe.kind with
            | .file => .error .resourceInvalid
            | .dir =>
              if allow_recreate then .ok ()
              else
                match pe.contents with
                | none => .error .typeError
                | some cs =>
                  match lookupA dname cs with
                  | some _ => .error .destinationExists
                  | none => .ok ()
      match pre with
      | .error e => (.error e, s)
      | .ok _ =>
        match makedirCheckLoop s s.root dirpath.dropLast with
        | .error e => (.error e, s)
        | .ok _ =>
          match makedirCreateLoop s s.root dirpath with
          | (.error e, s') => (.error e, s')
          | (.ok pid, s1) => makedirLeaf s1 pid dname allow_recreate
    else
      match Fs.get_dir_entry s dirpath with
      | none => (.error .parentDirectoryMissing, s)
      | some pid => makedirLeaf s pid dname allow_recreate

/-- The loop of `MemoryFS._orphan_files`: close every handle of the
snapshot list in order (an exception escaping a close aborts the loop). -/
def orphanLoop (s : FSState) : List HandleId → Except Err Unit × FSState
  | [] => (.ok (), s)
  | h :: rest =>
    match Fs.file_close s h with
    | (.error e, s1) => (.error e, s1)
    | (.ok _, s1) => orphanLoop s1 rest

/-- `MemoryFS._orphan_files` on the node `i` (iterates over a copy of
the node's `open_files`). -/
def Fs.orphan_files (s : FSState) (i : NodeId) : Except Err Unit × FSState :=
  match getNode s i with
  | none => (.error .attributeError, s)
  | some e => orphanLoop s e.open_files

/-- `MemoryFS.remove`: not-found when absent; when locked, force-close
every open handle instead of failing (the `ResourceLockedError` raise is
commented out in the source); directories are `ResourceInvalid`; finally
delete the entry from its parent's children mapping. -/
def Fs.remove (s : FSState) (p : FPath) : Except Err Unit × FSState :=
  match Fs.get_dir_entry s p with
  | none => (.error .resourceNotFound, s)
  | some i =>
    match getNode s i with
    | none => (.error .resourceNotFound, s)
    | some e =>
      match (if e.islocked then Fs.orphan_files s i else (.ok (), s)) with
      | (.error er, s1) => (.error er, s1)
      | (.ok _, s1) =>
        match getNode s1 i with
        | none => (.error .attributeError, s1)
        | some e1 =>
          match e1.kind with
          | .dir => (.error .resourceInvalid, s1)
          | .file =>
            let pathname := p.dropLast
            let dirname := lastName p
            match Fs.get_dir_entry s1 pathname with
            | none => (.error .attributeError, s1)
            | some par =>
              match getNode s1 par with
              | none => (.error .attributeError, s1)
              | some pe =>
                match pe.contents with
                | none => (.error .typeError, s1)
                | some cs =>
                  match delDict dirname cs with
                  | .error er => (.error er, s1)
                  | .ok _ =>
                    (.ok (),
                     modifyNode s1 par (fun en =>
                       match en.contents with
                       | some cs2 => { en with contents := some (delA dirname cs2) }
                       | none => en))

/-- The upward deletion loop of the recursive `removedir` branch
(`while rpathname: rpathname, dirname = pathsplit(rpathname); del ...`),
processing the path components from the last to the first; the argument
is the reversed remaining path, so that the recursion is structural. -/
def removedirLoopRev (s : FSState) : List String → Except Err Unit × FSState
  | [] => (.ok (), s)
  | dn :: restRev =>
    let rp := restRev.reverse
    match Fs.get_dir_entry s rp with
    | none => (.error .attributeError, s)
    | some pid =>
      match getNode s pid with
      | none => (.error .attributeError, s)
      | some pe =>
        match pe.contents with
        | none => (.error .typeError, s)
        | some cs =>
          match delDict dn cs with
          | .error er => (.error er, s)
          | .ok _ =>
            removedirLoopRev
              (modifyNode s pid (fun en =>
                match en.contents with
                | some cs2 => { en with contents := some (delA dn cs2) }
                | none => en))
              restRev

/-- The upward deletion loop of the recursive `removedir` branch, on the
path as given. -/
def removedirLoop (s : FSState) (p : FPath) : Except Err Unit × FSState :=
  removedirLoopRev s p.reverse

/-- `MemoryFS.removedir`. -/
def Fs.removedir (s : FSState) (p : FPath) (recursive force : Bool) : Except Err Unit × FSState :=
  match Fs.get_dir_entry s p with
  | none => (.error .resourceNotFound, s)
  | some i =>
    match getNode s i with
    | none => (.error .resourceNotFound, s)
    | some e =>
      if e.islocked then (.error .resourceLocked, s)
      else
        match e.kind with
        | .file => (.error .resourceInvalid, s)
        | .dir =>
          if (match e.contents with | some cs => !cs.isEmpty | none => false) && !force then
            (.error .directoryNotEmpty, s)
          else
            if recursive then removedirLoop s p
            else
              let pathname := p.dropLast
              let dirname := lastName p
              match Fs.get_dir_entry s pathname with
              | none => (.error .attributeError, s)
              | some par =>
                match getNode s par with
                | none => (.error .attributeError, s)
                | some pe =>
                  match pe.contents with
                  | none => (.error .typeError, s)
                  | some cs =>
                    match delDict dirname cs with
                    | .error er => (.error er, s)
                    | .ok _ =>
                      (.ok (),
                       modifyNode s par (fun en =>
                         match en.contents with
                         | some cs2 => { en with contents := some (delA dirname cs2) }
                         | none => en))

/-- `dict.update`: fold the source mapping's assignments into the
destination mapping, the source overwriting on key conflicts. -/
def updateX (d src : List (String × Str)) : List (String × Str) :=
  src.foldl (fun acc kv => setA kv.1 kv.2 acc) d

/-- The flush-and-repoint loop of `MemoryFS.rename`: flush every open
handle of the source node, then set its recorded path to `dst`. -/
def renameFlushLoop (s : FSState) (dst : FPath) : List HandleId → Except Err Unit × FSState
  | [] => (.ok (), s)
  | h :: rest =>
    match Fs.file_flush s h with
    | (.error e, s1) => (.error e, s1)
    | (.ok _, s1) =>
      renameFlushLoop (modifyHandle s1 h (fun m => { m with path := dst })) dst rest

/-- `MemoryFS.rename`. -/
def Fs.rename (s : FSState) (src dst : FPath) : Except Err Unit × FSState :=
  let src_dir := src.dropLast
  let src_name := lastName src
  match Fs.get_dir_entry s src with
  | none => (.error .resourceNotFound, s)
  | some srcId =>
    match getNode s srcId with
    | none => (.error .resourceNotFound, s)
    | some se =>
      match renameFlushLoop s dst se.open_files with
      | (.error e, s1) => (.error e, s1)
      | (.ok _, s1) =>
        let dst_dir := dst.dropLast
        let dst_name := lastName dst
        match Fs.get_dir_entry s1 dst with
        | some _ => (.error .destinationExists, s1)
        | none =>
          match Fs.get_dir_entry s1 src_dir with
          | none => (.error .attributeError, s1)
          | some spId =>
            match getNode s1 spId with
            | none => (.error .attributeError, s1)
            | some spe =>
              let src_xattrs := spe.xattrs
              match Fs.get_dir_entry s1 dst_dir with
              | none => (.error .parentDirectoryMissing, s1)
              | some pdId =>
                match getNode s1 pdId with
                | none => (.error .parentDirectoryMissing, s1)
                | some pde =>
                  match spe.contents with
                  | none => (.error .typeError, s1)
                  | some scs =>
                    match lookupA src_name scs with
                    | none => (.error .keyError, s1)
                    | some childId =>
                      match pde.contents with
                      | none => (.error .typeError, s1)
                      | some _ =>
                        let s2 := modifyNode s1 pdId (fun en =>
                          match en.contents with
                          | some cs2 => { en with contents := some (setA dst_name childId cs2) }
                          | none => en)
                        match stepN s2 pdId dst_name with
                        | none => (.error .keyError, s2)
                        | some cid2 =>
                          let s3 := modifyNode s2 cid2 (fun en => { en with name := dst_name })
                          let s4 := modifyNode s3 pdId (fun en =>
                            { en with xattrs := updateX en.xattrs src_xattrs })
                          match getNode s4 spId with
                          | none => (.error .attributeError, s4)
                          | some spe4 =>
                            match spe4.contents with
                            | none => (.error .typeError, s4)
                            | some scs4 =>
                              match delDict src_name scs4 with
                              | .error er => (.error er, s4)
                              | .ok _ =>
                                (.ok (),
                                 modifyNode s4 spId (fun en =>
                                   match en.contents with
                                   | some cs2 => { en with contents := some (delA src_name cs2) }
                                   | none => en))

/-- `MemoryFS.settimes`. -/
def Fs.settimes (s : FSState) (p : FPath) (accessed? modified? : Option Nat) :
    Except Err Bool × FSState :=
  let (t, s1) := tick s
  match Fs.get_dir_entry s1 p with
  | none => (.ok false, s1)
  | some i =>
    (.ok true,
     modifyNode s1 i (fun e =>
       { e with accessed_time := accessed?.getD t, modified_time := modified?.getD t }))

/-- `MemoryFS.setxattr` (via `_dir_entry`, which raises not-found). -/
def Fs.setxattr (s : FSState) (p : FPath) (k : String) (v : Str) : Except Err Unit × FSState :=
  match Fs.get_dir_entry s p with
  | none => (.error .resourceNotFound, s)
  | some i => (.ok (), modifyNode s i (fun e => { e with xattrs := setA k v e.xattrs }))

/-- `MemoryFS.getxattr`. -/
def Fs.getxattr (s : FSState) (p : FPath) (k : String) : Except Err (Option Str) :=
  match Fs.get_dir_entry s p with
  | none => .error .resourceNotFound
  | some i =>
    match getNode s i with
    | none => .error .resourceNotFound
    | some e => .ok (lookupA k e.xattrs)

/-- `MemoryFS.delxattr`: deletion of a missing key is swallowed by the
`try`/`except KeyError` of the source. -/
def Fs.delxattr (s : FSState) (p : FPath) (k : String) : Except Err Unit × FSState :=
  match Fs.get_dir_entry s p with
  | none => (.error .resourceNotFound, s)
  | some i => (.ok (), modifyNode s i (fun e => { e with xattrs := delA k e.xattrs }))

/-- States reachable from a fresh filesystem by the public operations of
the module together with the handle operations (write, flush, close,
read, seek, truncate).  Every constructor takes the post-state of the
operation whether it succeeded or raised, since a raised operation still
leaves its partial mutations behind.  The directory/file copy and move
helpers are compositions of these primitives (the byte copy is delegated
to the generic external algorithm built from open/read/write/close) plus
xattr merges, which `msetxattr`/`mdelxattr` cover. -/
inductive Reach : FSState → Prop where
  | init : Reach new_fs
  | mopen (s : FSState) (p : FPath) (mode : Str) : Reach s → Reach (Fs.openPath s p mode).2
  | mmakedir (s : FSState) (p : FPath) (r a : Bool) : Reach s → Reach (Fs.makedir s p r a).2
  | mremove (s : FSState) (p : FPath) : Reach s → Reach (Fs.remove s p).2
  | mremovedir (s : FSState) (p : FPath) (r f : Bool) : Reach s → Reach (Fs.removedir s p r f).2
  | mrename (s : FSState) (src dst : FPath) : Reach s → Reach (Fs.rename s src dst).2
  | msettimes (s : FSState) (p : FPath) (a m : Option Nat) :
      Reach s → Reach (Fs.settimes s p a m).2
  | msetxattr (s : FSState) (p : FPath) (k : String) (v : Str) :
      Reach s → Reach (Fs.setxattr s p k v).2
  | mdelxattr (s : FSState) (p : FPath) (k : String) : Reach s → Reach (Fs.delxattr s p k).2
  | mwrite (s : FSState) (h : HandleId) (data : Str) : Reach s → Reach (Fs.file_write s h data).2
  | mflush (s : FSState) (h : HandleId) : Reach s → Reach (Fs.file_flush s h).2
  | mclose (s : FSState) (h : HandleId) : Reach s → Reach (Fs.file_close s h).2
  | mread (s : FSState) (h : HandleId) : Reach s → Reach (Fs.file_readToEnd s h).2
  | mseek (s : FSState) (h : HandleId) (n : Nat) : Reach s → Reach (Fs.file_seek s h n).2
  | mtruncate (s : FSState) (h : HandleId) : Reach s → Reach (Fs.file_truncate s h).2

/-- Reachability restricted to sequences that never call `open` on the
degenerate root/empty path (for which `pathsplit` yields an empty leaf
name, so that the node locked — the node the whole path resolves to —
differs from the node the handle is registered on). -/
inductive ReachNE : FSState → Prop where
  | init : ReachNE new_fs
  | mopen (s : FSState) (p : FPath) (mode : Str) :
      p ≠ [] → ReachNE s → ReachNE (Fs.openPath s p mode).2
  | mmakedir (s : FSState) (p : FPath) (r a : Bool) : ReachNE s → ReachNE (Fs.makedir s p r a).2
  | mremove (s : FSState) (p : FPath) : ReachNE s → ReachNE (Fs.remove s p).2
  | mremovedir (s : FSState) (p : FPath) (r f : Bool) :
      ReachNE s → ReachNE (Fs.removedir s p r f).2
  | mrename (s : FSState) (src dst : FPath) : ReachNE s → ReachNE (Fs.rename s src dst).2
  | msettimes (s : FSState) (p : FPath) (a m : Option Nat) :
      ReachNE s → ReachNE (Fs.settimes s p a m).2
  | msetxattr (s : FSState) (p : FPath) (k : String) (v : Str) :
      ReachNE s → ReachNE (Fs.setxattr s p k v).2
  | mdelxattr (s : FSState) (p : FPath) (k : String) : ReachNE s → ReachNE (Fs.delxattr s p k).2
  | mwrite (s : FSState) (h : HandleId) (data : Str) :
      ReachNE s → ReachNE (Fs.file_write s h data).2
  | mflush (s : FSState) (h : HandleId) : ReachNE s → ReachNE (Fs.file_flush s h).2
  | mclose (s : FSState) (h : HandleId) : ReachNE s → ReachNE (Fs.file_close s h).2
  | mread (s : FSState) (h : HandleId) : ReachNE s → ReachNE (Fs.file_readToEnd s h).2
  | mseek (s : FSState) (h : HandleId) (n : Nat) : ReachNE s → ReachNE (Fs.file_seek s h n).2
  | mtruncate (s : FSState) (h : HandleId) : ReachNE s → ReachNE (Fs.file_truncate s h).2

/-! ### Association-list lemmas -/

/-- A path `a` leads to (is an initial segment of) the path `b`. -/
def pathLe (a b : FPath) : Prop := ∃ t, a ++ t = b

instance pathLe_decidable (a b : FPath) : Decidable (pathLe a b) := by
  unfold pathLe
  induction a generalizing b with
  | nil => exact isTrue ⟨b, rfl⟩
  | cons x xs ih =>
    cases b with
    | nil => exact isFalse (by rintro ⟨t, ht⟩; simp at ht)
    | cons y ys =>
      by_cases hxy : x = y
      · subst hxy
        cases ih ys with
        | isTrue h => exact isTrue (by obtain ⟨t, ht⟩ := h; exact ⟨t, by simp [ht]⟩)
        | isFalse h =>
          exact isFalse (by
            rintro ⟨t, ht⟩
            simp only [List.cons_append, List.cons.injEq] at ht
            exact h ⟨t, ht.2⟩)
      · exact isFalse (by
          rintro ⟨t, ht⟩
          simp only [List.cons_append, List.cons.injEq] at ht
          exact hxy ht.1)

/-- Concatenation of a list of lists. -/
def concatAll {α : Type} : List (List α) → List α
  | [] => []
  | l :: ls => l ++ concatAll ls

/-- All parent-edge triples (parent id, child name, child id) of the
arena. -/
def stepTriples (s : FSState) : List (NodeId × String × NodeId) :=
  concatAll (s.nodes.map (fun pr =>
    match pr.2.contents with
    | some cs => cs.map (fun kv => (pr.1, kv.1, kv.2))
    | none => []))

/-- The arena is tree-shaped: every node id occurs at most once as a
child anywhere in the arena, and the root is nobody's child.  This is
the standing shape of every filesystem built by the public operations
(fresh ids are used for every created node, and `rename` moves a child
from one parent to another). -/
def UniqueTree (s : FSState) : Prop :=
  ((stepTriples s).map (fun t => t.2.2)).Nodup ∧ s.root ∉ (stepTriples s).map (fun t => t.2.2)

instance (s : FSState) : Decidable (UniqueTree s) := by
  unfold UniqueTree; infer_instance

/-- A fresh filesystem after `open("/f", "w")`: the file `f` exists with
handle 0 open on it. -/
def exW : FSState := (Fs.openPath new_fs ["f"] ['w']).2

/-- `exW` after closing handle 0: the file `f` exists, unlocked, with
empty committed data. -/
def exWClosed : FSState := (Fs.file_close exW 0).2

/-- A fresh filesystem after `makedir("/d")`. -/
def exDir : FSState := (Fs.makedir new_fs ["d"] false false).2

/-- A fresh filesystem after `makedir("/a/b", recursive=True)`. -/
def exAB : FSState := (Fs.makedir new_fs ["a", "b"] true false).2

/-- The common post-state shape of a successful `open`: refresh the
accessed time, lock the node, register a fresh handle and append it to
the node's open list. -/
def postOpen (s : FSState) (fid : NodeId) (mf : MemoryFile) : FSState :=
  modifyNode
    (addHandle
      (modifyNode
        (modifyNode { s with clock := s.clock + 1 } fid
          (fun e => { e with accessed_time := s.clock }))
        fid DirEntry.lockE)
      mf).2
    fid (fun e => { e with open_files := e.open_files ++ [s.nextHandle] })

/-- The view of the tree needed to open the file at `p`: the parent
resolves to a Directory whose children mapping sends the leaf name to
`fid`. -/
def ParentView (s : FSState) (p : FPath) (fid : NodeId) : Prop :=
  ∃ pid pe cs, Fs.get_dir_entry s p.dropLast = some pid ∧ getNode s pid = some pe
    ∧ pe.kind = .dir ∧ pe.contents = some cs ∧ lookupA (lastName p) cs = some fid

/-- A closed, unlocked node at `p` with committed data `d`, whose stale
open-list entries all predate the next fresh handle id. -/
def FileReady (s : FSState) (p : FPath) (fid : NodeId) (d : Option Str) : Prop :=
  p ≠ [] ∧ ParentView s p fid ∧
  ∃ e, getNode s fid = some e ∧ e.data = d ∧ e.locks = 0
    ∧ ∀ g, g ∈ e.open_files → g < s.nextHandle

/-- A single live handle `h` on the node `fid` at `p`, with buffer `buf`
at position `pos`; `prev` are the other (stale) entries of the node's
open list. -/
def HandleOpen (s : FSState) (p : FPath) (fid : NodeId) (h : HandleId) (mode buf : Str)
    (pos : Nat) (prev : List HandleId) : Prop :=
  p ≠ [] ∧ h < s.nextHandle ∧ ParentView s p fid ∧ Fs.get_dir_entry s p = some fid ∧
  getHandle s h = some ⟨false, p, mode, ⟨buf, pos, false⟩⟩ ∧
  ∃ e, getNode s fid = some e ∧ e.open_files = prev ++ [h] ∧ h ∉ prev
    ∧ (∀ g, g ∈ prev → g < s.nextHandle) ∧ e.locks = 1

/-- The post-state shape of a successful handle write: refresh the
node's modified time and replace the handle's buffer. -/
def postWrite (s : FSState) (fid : NodeId) (h : HandleId) (sio : Sio) : FSState :=
  modifyHandle
    (modifyNode { s with clock := s.clock + 1 } fid
      (fun e => { e with modified_time := s.clock }))
    h (fun m => { m with mem_file := sio })

/-- The post-state shape of a successful handle close: commit the value,
drop the handle from the open list, unlock, and mark the handle closed. -/
def postClose (s : FSState) (fid : NodeId) (h : HandleId) (v : Str) : FSState :=
  modifyHandle
    (modifyNode
      (modifyNode
        (modifyNode s fid (fun en => { en with data := some v }))
        fid (fun en => { en with open_files := en.open_files.erase h }))
      fid (fun en => { en with locks := en.locks - 1 }))
    h (fun m => { m with closed := true, mem_file := m.mem_file.closeIt })

/-- The base state after `open` in write mode creates a missing leaf
node and links it into the parent's children mapping, before the shared
open tail runs. -/
def wNewBase (s : FSState) (p : FPath) (pid : NodeId) : FSState :=
  modifyNode
    { s with
      nodes := (s.nextNode, make_dir_entry .file (lastName p) s.clock) :: s.nodes
      nextNode := s.nextNode + 1
      clock := s.clock + 1 }
    pid (fun en =>
      match en.contents with
      | some cs2 => { en with contents := some (setA (lastName p) s.nextNode cs2) }
      | none => en)

/-- `exW` after `makedir("/g")` and a failed `rename("/f", "/g")`: the
failed rename has already flushed handle 0 and repointed its recorded
path to `/g`. -/
def exC2 : FSState := (Fs.rename (Fs.makedir exW ["g"] false false).2 ["f"] ["g"]).2

/-- The per-handle state shape of the rename flush loop: commit the
buffer into the node and repoint the handle's path. -/
def postFlush (s : FSState) (n : NodeId) (h : HandleId) (dst : FPath) (v : Str) : FSState :=
  modifyHandle (modifyNode s n (fun e => { e with data := some v })) h
    (fun m => { m with path := dst })

/-- `exW` after writing `'z'` through handle 0 and creating `/g`: both
`/f` and `/g` resolve, and handle 0 is open on `/f` with an uncommitted
buffer. -/
def exC10 : FSState := (Fs.makedir (Fs.file_write exW 0 ['z']).2 ["g"] false false).2

/-- The four-stage state of a successful `rename`: link the node under
the destination name, rename it, merge the source parent's xattrs into
the destination parent, and unlink the source name. -/
def renFinal (s : FSState) (src dst : FPath) (n sp dp : NodeId)
    (sx : List (String × Str)) : FSState :=
  modifyNode
    (modifyNode
      (modifyNode
        (modifyNode s dp (fun en =>
          match en.contents with
          | some cs2 => { en with contents := some (setA (lastName dst) n cs2) }
          | none => en))
        n (fun en => { en with name := lastName dst }))
      dp (fun en => { en with xattrs := updateX en.xattrs sx }))
    sp (fun en =>
      match en.contents with
      | some cs2 => { en with contents := some (delA (lastName src) cs2) }
      | none => en)

/-- A fresh filesystem after `makedir("/a")`. -/
def exC7 : FSState := (Fs.makedir new_fs ["a"] false false).2

/-- `exWClosed` after `makedir("/d")`: the closed file `/f` and the
directory `/d` both exist. -/
def exC7W : FSState := (Fs.makedir exWClosed ["d"] false false).2

/-- A filesystem with directories `/p` (xattr k1=a, containing `x`) and
`/q` (xattrs k1=b, k2=c). -/
def exC8 : FSState :=
  (Fs.makedir
    (Fs.setxattr
      (Fs.setxattr
        (Fs.setxattr
          (Fs.makedir (Fs.makedir new_fs ["p"] false false).2 ["q"] false false).2
          ["p"] "k1" ['a']).2
        ["q"] "k1" ['b']).2
      ["q"] "k2" ['c']).2
    ["p", "x"] false false).2

/-- Every node in the arena carries exactly one lock per entry of its
open-handle list. -/
def InvL (s : FSState) : Prop :=
  ∀ i e, getNode s i = some e → e.locks = (e.open_files.length : Int)

/-- Every node id in the arena is below the fresh-id counter. -/
def Fresh (s : FSState) : Prop := ∀ pr, pr ∈ s.nodes → pr.1 < s.nextNode

theorem lookupA_setA_self {α : Type} (k : String) (v : α) (l : List (String × α)) :
    lookupA k (setA k v l) = some v := by
  simp [setA, lookupA]

theorem lookupA_filter_ne {α : Type} (k k' : String) (l : List (String × α)) (h : k' ≠ k) :
    lookupA k' (l.filter (fun kv => kv.1 != k)) = lookupA k' l := by
  induction l with
  | nil => rfl
  | cons kv rest ih =>
    rcases kv with ⟨a, b⟩
    by_cases hk : a = k
    · subst hk
      rw [List.filter_cons_of_neg (by simp)]
      rw [ih]
      show lookupA k' rest = if k' = a then some b else lookupA k' rest
      rw [if_neg h]
    · rw [List.filter_cons_of_pos (by simp [hk])]
      show (if k' = a then some b else lookupA k' (List.filter (fun kv => kv.1 != k) rest))
        = if k' = a then some b else lookupA k' rest
      by_cases hk2 : k' = a
      · rw [if_pos hk2, if_pos hk2]
      · rw [if_neg hk2, if_neg hk2, ih]

theorem lookupA_setA_ne {α : Type} (k k' : String) (v : α) (l : List (String × α)) (h : k' ≠ k) :
    lookupA k' (setA k v l) = lookupA k' l := by
  unfold setA
  show (if k' = k then some v else lookupA k' (l.filter (fun kv => kv.1 != k))) = lookupA k' l
  rw [if_neg h, lookupA_filter_ne _ _ _ h]

theorem lookupA_delA_self {α : Type} (k : String) (l : List (String × α)) :
    lookupA k (delA k l) = none := by
  unfold delA
  induction l with
  | nil => rfl
  | cons kv rest ih =>
    rcases kv with ⟨a, b⟩
    by_cases hk : a = k
    · subst hk
      rw [List.filter_cons_of_neg (by simp)]
      exact ih
    · rw [List.filter_cons_of_pos (by simp [hk])]
      show (if k = a then some b else lookupA k (List.filter (fun kv => kv.1 != k) rest)) = none
      rw [if_neg (fun hh => hk hh.symm)]
      exact ih

theorem lookupA_delA_ne {α : Type} (k k' : String) (l : List (String × α)) (h : k' ≠ k) :
    lookupA k' (delA k l) = lookupA k' l :=
  lookupA_filter_ne _ _ _ h

/-! ### Arena accessor lemmas -/

theorem findVal_mapIf_self {β : Type} (i : Nat) (f : β → β) (l : List (Nat × β)) :
    findVal (l.map (fun pr => if pr.1 = i then (pr.1, f pr.2) else pr)) i
      = (findVal l i).map f := by
  induction l with
  | nil => rfl
  | cons pr rest ih =>
    rcases pr with ⟨a, e⟩
    unfold findVal at ih ⊢
    by_cases h : a = i
    · subst h
      simp only [List.map_cons, if_pos rfl]
      rw [List.find?_cons_of_pos _ (by simp), List.find?_cons_of_pos _ (by simp)]
      simp
    · simp only [List.map_cons, if_neg h]
      rw [List.find?_cons_of_neg _ (by simp [h]), List.find?_cons_of_neg _ (by simp [h])]
      exact ih

theorem findVal_mapIf_ne {β : Type} (i j : Nat) (f : β → β) (l : List (Nat × β)) (h : j ≠ i) :
    findVal (l.map (fun pr => if pr.1 = i then (pr.1, f pr.2) else pr)) j = findVal l j := by
  induction l with
  | nil => rfl
  | cons pr rest ih =>
    rcases pr with ⟨a, e⟩
    unfold findVal at ih ⊢
    by_cases hp : a = i
    · subst hp
      simp only [List.map_cons, if_pos rfl]
      rw [List.find?_cons_of_neg _ (by simp; exact fun hh => h hh.symm),
          List.find?_cons_of_neg _ (by simp; exact fun hh => h hh.symm)]
      exact ih
    · simp only [List.map_cons, if_neg hp]
      by_cases hq : a = j
      · subst hq
        rw [List.find?_cons_of_pos _ (by simp), List.find?_cons_of_pos _ (by simp)]
      · rw [List.find?_cons_of_neg _ (by simp [hq]), List.find?_cons_of_neg _ (by simp [hq])]
        exact ih

theorem findVal_cons_self {β : Type} (i : Nat) (e : β) (l : List (Nat × β)) :
    findVal ((i, e) :: l) i = some e := by
  unfold findVal
  rw [List.find?_cons_of_pos _ (by simp)]

theorem findVal_cons_ne {β : Type} (i j : Nat) (e : β) (l : List (Nat × β)) (h : j ≠ i) :
    findVal ((i, e) :: l) j = findVal l j := by
  unfold findVal
  rw [List.find?_cons_of_neg _ (by simp; exact fun hh => h hh.symm)]

@[simp] theorem modifyNode_nodes (s : FSState) (i : NodeId) (f : DirEntry → DirEntry) :
    (modifyNode s i f).nodes = mapMod i f s.nodes := rfl

@[simp] theorem addNode_nodes (s : FSState) (e : DirEntry) :
    (addNode s e).2.nodes = (s.nextNode, e) :: s.nodes := rfl

@[simp] theorem addNode_fst (s : FSState) (e : DirEntry) : (addNode s e).1 = s.nextNode := rfl

@[simp] theorem modifyHandle_handles (s : FSState) (h : HandleId) (f : MemoryFile → MemoryFile) :
    (modifyHandle s h f).handles
      = s.handles.map (fun pr => if pr.1 = h then (pr.1, f pr.2) else pr) := rfl

@[simp] theorem addHandle_handles (s : FSState) (mf : MemoryFile) :
    (addHandle s mf).2.handles = (s.nextHandle, mf) :: s.handles := rfl

@[simp] theorem addHandle_fst (s : FSState) (mf : MemoryFile) :
    (addHandle s mf).1 = s.nextHandle := rfl

theorem getNode_modifyNode_self (s : FSState) (i : NodeId) (f : DirEntry → DirEntry) :
    getNode (modifyNode s i f) i = (getNode s i).map f := by
  unfold getNode
  rw [modifyNode_nodes]
  exact findVal_mapIf_self i f s.nodes

theorem getNode_modifyNode_ne (s : FSState) (i j : NodeId) (f : DirEntry → DirEntry)
    (h : j ≠ i) : getNode (modifyNode s i f) j = getNode s j := by
  unfold getNode
  rw [modifyNode_nodes]
  exact findVal_mapIf_ne i j f s.nodes h

theorem getNode_addNode_self (s : FSState) (e : DirEntry) :
    getNode (addNode s e).2 s.nextNode = some e := by
  unfold getNode
  rw [addNode_nodes]
  exact findVal_cons_self s.nextNode e s.nodes

theorem getNode_addNode_ne (s : FSState) (e : DirEntry) (j : NodeId) (h : j ≠ s.nextNode) :
    getNode (addNode s e).2 j = getNode s j := by
  unfold getNode
  rw [addNode_nodes]
  exact findVal_cons_ne s.nextNode j e s.nodes h

theorem getHandle_modifyHandle_self (s : FSState) (h : HandleId) (f : MemoryFile → MemoryFile) :
    getHandle (modifyHandle s h f) h = (getHandle s h).map f := by
  unfold getHandle
  rw [modifyHandle_handles]
  exact findVal_mapIf_self h f s.handles

theorem getHandle_modifyHandle_ne (s : FSState) (h g : HandleId) (f : MemoryFile → MemoryFile)
    (hne : g ≠ h) : getHandle (modifyHandle s h f) g = getHandle s g := by
  unfold getHandle
  rw [modifyHandle_handles]
  exact findVal_mapIf_ne h g f s.handles hne

theorem getHandle_addHandle_self (s : FSState) (mf : MemoryFile) :
    getHandle (addHandle s mf).2 s.nextHandle = some mf := by
  unfold getHandle
  rw [addHandle_handles]
  exact findVal_cons_self s.nextHandle mf s.handles

theorem getHandle_addHandle_ne (s : FSState) (mf : MemoryFile) (g : HandleId)
    (h : g ≠ s.nextHandle) : getHandle (addHandle s mf).2 g = getHandle s g := by
  unfold getHandle
  rw [addHandle_handles]
  exact findVal_cons_ne s.nextHandle g mf s.handles h

@[simp] theorem modifyNode_root (s : FSState) (i : NodeId) (f : DirEntry → DirEntry) :
    (modifyNode s i f).root = s.root := rfl

@[simp] theorem modifyNode_handles (s : FSState) (i : NodeId) (f : DirEntry → DirEntry) :
    (modifyNode s i f).handles = s.handles := rfl

@[simp] theorem modifyNode_nextNode (s : FSState) (i : NodeId) (f : DirEntry → DirEntry) :
    (modifyNode s i f).nextNode = s.nextNode := rfl

@[simp] theorem modifyNode_nextHandle (s : FSState) (i : NodeId) (f : DirEntry → DirEntry) :
    (modifyNode s i f).nextHandle = s.nextHandle := rfl

@[simp] theorem addNode_root (s : FSState) (e : DirEntry) : (addNode s e).2.root = s.root := rfl

@[simp] theorem addNode_handles (s : FSState) (e : DirEntry) :
    (addNode s e).2.handles = s.handles := rfl

@[simp] theorem addHandle_nodes (s : FSState) (mf : MemoryFile) :
    (addHandle s mf).2.nodes = s.nodes := rfl

@[simp] theorem addHandle_root (s : FSState) (mf : MemoryFile) :
    (addHandle s mf).2.root = s.root := rfl

@[simp] theorem modifyHandle_nodes (s : FSState) (h : HandleId) (f : MemoryFile → MemoryFile) :
    (modifyHandle s h f).nodes = s.nodes := rfl

@[simp] theorem modifyHandle_root (s : FSState) (h : HandleId) (f : MemoryFile → MemoryFile) :
    (modifyHandle s h f).root = s.root := rfl

@[simp] theorem tick_nodes (s : FSState) : (tick s).2.nodes = s.nodes := rfl

@[simp] theorem tick_root (s : FSState) : (tick s).2.root = s.root := rfl

@[simp] theorem tick_handles (s : FSState) : (tick s).2.handles = s.handles := rfl

theorem getNode_nodes_eq (s s' : FSState) (h : s'.nodes = s.nodes) (i : NodeId) :
    getNode s' i = getNode s i := by
  unfold getNode; rw [h]

theorem getHandle_handles_eq (s s' : FSState) (h : s'.handles = s.handles) (g : HandleId) :
    getHandle s' g = getHandle s g := by
  unfold getHandle; rw [h]

/-! ### Resolution lemmas -/

theorem stepN_nodes_eq (s s' : FSState) (h : s'.nodes = s.nodes) (i : NodeId) (c : String) :
    stepN s' i c = stepN s i c := by
  unfold stepN; rw [getNode_nodes_eq s s' h]

theorem stepN_modifyNode_keep (s : FSState) (i : NodeId) (f : DirEntry → DirEntry)
    (hf : ∀ e, (f e).contents = e.contents) (j : NodeId) (c : String) :
    stepN (modifyNode s i f) j c = stepN s j c := by
  unfold stepN
  by_cases h : j = i
  · subst h
    rw [getNode_modifyNode_self]
    cases getNode s j with
    | none => rfl
    | some e => simp [hf e]
  · rw [getNode_modifyNode_ne s i j f h]

theorem resolveFrom_nil (s : FSState) (cur : NodeId) : resolveFrom s cur [] = some cur := rfl

theorem resolveFrom_cons (s : FSState) (cur : NodeId) (c : String) (rest : FPath) :
    resolveFrom s cur (c :: rest)
      = (match stepN s cur c with
         | none => none
         | some child => resolveFrom s child rest) := rfl

theorem resolveFrom_congr (s s' : FSState)
    (h : ∀ j c, stepN s' j c = stepN s j c) (cur : NodeId) (p : FPath) :
    resolveFrom s' cur p = resolveFrom s cur p := by
  induction p generalizing cur with
  | nil => rfl
  | cons c rest ih =>
    rw [resolveFrom_cons, resolveFrom_cons, h cur c]
    cases stepN s cur c with
    | none => rfl
    | some child => exact ih child

theorem get_dir_entry_congr (s s' : FSState) (hr : s'.root = s.root)
    (h : ∀ j c, stepN s' j c = stepN s j c) (p : FPath) :
    Fs.get_dir_entry s' p = Fs.get_dir_entry s p := by
  unfold Fs.get_dir_entry
  rw [hr, resolveFrom_congr s s' h]

theorem resolveFrom_append (s : FSState) (cur : NodeId) (p q : FPath) :
    resolveFrom s cur (p ++ q)
      = (resolveFrom s cur p).bind (fun x => resolveFrom s x q) := by
  induction p generalizing cur with
  | nil => rfl
  | cons c rest ih =>
    rw [List.cons_append, resolveFrom_cons, resolveFrom_cons]
    cases stepN s cur c with
    | none => rfl
    | some child => exact ih child

theorem resolveFrom_single (s : FSState) (cur : NodeId) (c : String) :
    resolveFrom s cur [c] = stepN s cur c := by
  rw [resolveFrom_cons]
  cases stepN s cur c with
  | none => rfl
  | some child => rfl

theorem get_dir_entry_concat (s : FSState) (p : FPath) (c : String) :
    Fs.get_dir_entry s (p ++ [c])
      = (Fs.get_dir_entry s p).bind (fun u => stepN s u c) := by
  unfold Fs.get_dir_entry
  rw [resolveFrom_append]
  cases resolveFrom s s.root p with
  | none => rfl
  | some u => simp [resolveFrom_single]

theorem get_dir_entry_split (s : FSState) (p : FPath) (hp : p ≠ []) :
    Fs.get_dir_entry s p
      = (Fs.get_dir_entry s p.dropLast).bind (fun u => stepN s u (lastName p)) := by
  have h1 : p.dropLast ++ [p.getLast hp] = p := List.dropLast_append_getLast hp
  have h2 : lastName p = p.getLast hp := by
    unfold lastName
    rw [List.getLast?_eq_getLast p hp]
    rfl
  rw [h2]
  conv_lhs => rw [← h1]
  exact get_dir_entry_concat s p.dropLast (p.getLast hp)

theorem resolveFrom_mono (s s' : FSState)
    (hm : ∀ j c w, stepN s j c = some w → stepN s' j c = some w)
    (cur : NodeId) (p : FPath) (x : NodeId) :
    resolveFrom s cur p = some x → resolveFrom s' cur p = some x := by
  induction p generalizing cur with
  | nil => intro h; exact h
  | cons c rest ih =>
    intro h
    rw [resolveFrom_cons] at h ⊢
    cases hs : stepN s cur c with
    | none => rw [hs] at h; exact absurd h (by simp)
    | some child =>
      rw [hs] at h
      rw [hm cur c child hs]
      exact ih child h

theorem get_dir_entry_mono (s s' : FSState) (hr : s'.root = s.root)
    (hm : ∀ j c w, stepN s j c = some w → stepN s' j c = some w)
    (p : FPath) (x : NodeId) :
    Fs.get_dir_entry s p = some x → Fs.get_dir_entry s' p = some x := by
  unfold Fs.get_dir_entry
  rw [hr]
  exact resolveFrom_mono s s' hm s.root p x

theorem pathLe_refl (a : FPath) : pathLe a a := ⟨[], by simp⟩

theorem pathLe_of_concat_le (a b : FPath) (c : String) (h : pathLe (a ++ [c]) b) :
    pathLe a b := by
  obtain ⟨t, ht⟩ := h
  exact ⟨[c] ++ t, by rw [← ht]; simp⟩

theorem pathLe_dropLast (p : FPath) : pathLe p.dropLast p := by
  cases hp : p with
  | nil => exact ⟨[], by simp⟩
  | cons c rest =>
    refine ⟨[(c :: rest).getLast (by simp)], ?_⟩
    exact List.dropLast_append_getLast (by simp)

theorem pathLe_trans (a b c : FPath) (h1 : pathLe a b) (h2 : pathLe b c) : pathLe a c := by
  obtain ⟨t1, ht1⟩ := h1
  obtain ⟨t2, ht2⟩ := h2
  exact ⟨t1 ++ t2, by rw [← ht2, ← ht1]; simp⟩

theorem get_dir_entry_frame (s s' : FSState) (bad : NodeId → String → Prop) (q : FPath)
    (hroot : s'.root = s.root)
    (hs : ∀ i c w, stepN s i c = some w → ¬ bad i c → stepN s' i c = some w)
    (hb : ∀ pre c u, pathLe (pre ++ [c]) q → Fs.get_dir_entry s pre = some u → ¬ bad u c) :
    ∀ w, Fs.get_dir_entry s q = some w → Fs.get_dir_entry s' q = some w := by
  induction q using List.reverseRecOn with
  | nil =>
    intro w h
    unfold Fs.get_dir_entry resolveFrom at h ⊢
    rw [hroot]; exact h
  | append_singleton q' c0 ih =>
    intro w h
    rw [get_dir_entry_concat] at h ⊢
    cases hq : Fs.get_dir_entry s q' with
    | none => rw [hq] at h; exact absurd h (by simp)
    | some u =>
      rw [hq] at h
      simp only [Option.some_bind] at h
      have hb0 : ¬ bad u c0 := hb q' c0 u (pathLe_refl _) hq
      have hq' : Fs.get_dir_entry s' q' = some u := by
        refine ih (fun pre c u2 hle hres => hb pre c u2 ?_ hres) u hq
        exact pathLe_trans _ _ _ hle ⟨[c0], rfl⟩
      rw [hq']
      simp only [Option.some_bind]
      exact hs u c0 w h hb0

/-! ### Tree-shaped states and uniqueness of resolution -/

theorem mem_concatAll {α : Type} (a : α) (L : List (List α)) :
    a ∈ concatAll L ↔ ∃ l ∈ L, a ∈ l := by
  induction L with
  | nil => simp [concatAll]
  | cons l ls ih => simp [concatAll, ih]

theorem find_pair_mem {β : Type} (l : List (Nat × β)) (i : Nat) (e : β)
    (h : findVal l i = some e) : (i, e) ∈ l := by
  unfold findVal at h
  cases hf : l.find? (fun pr => pr.1 == i) with
  | none => rw [hf] at h; exact absurd h (by simp)
  | some pr =>
    rw [hf] at h
    simp only [Option.some.injEq] at h
    have hmem := List.mem_of_find?_eq_some hf
    have hp := List.find?_some hf
    have h1 : pr.1 = i := by simpa using hp
    have h2 : pr = (i, e) := by
      rcases pr with ⟨a, b⟩
      simp only at h h1
      rw [h1, h]
    rw [← h2]; exact hmem

theorem lookupA_mem {α : Type} (c : String) (cs : List (String × α)) (x : α)
    (h : lookupA c cs = some x) : ∃ kv ∈ cs, kv.1 = c ∧ kv.2 = x := by
  induction cs with
  | nil => exact absurd h (by simp [lookupA])
  | cons kv rest ih =>
    rcases kv with ⟨a, b⟩
    by_cases hk : c = a
    · have h2 : some b = some x := by rw [← h]; unfold lookupA; rw [if_pos hk]
      simp only [Option.some.injEq] at h2
      exact ⟨(a, b), by simp, hk.symm, h2⟩
    · have h2 : lookupA c rest = some x := by
        rw [← h]
        conv_rhs => unfold lookupA
        rw [if_neg hk]
      obtain ⟨kv2, hm, hk2, hx2⟩ := ih h2
      exact ⟨kv2, by simp [hm], hk2, hx2⟩

theorem stepN_parts (s : FSState) (i : NodeId) (c : String) (x : NodeId)
    (h : stepN s i c = some x) :
    ∃ e cs, getNode s i = some e ∧ e.contents = some cs ∧ lookupA c cs = some x := by
  unfold stepN at h
  cases hg : getNode s i with
  | none => rw [hg] at h; exact absurd h (by simp)
  | some e =>
    rw [hg] at h
    have h2 : (match e.contents with
               | none => none
               | some cs => lookupA c cs) = some x := h
    cases hc : e.contents with
    | none => rw [hc] at h2; exact absurd h2 (by simp)
    | some cs =>
      rw [hc] at h2
      exact ⟨e, cs, rfl, hc, h2⟩

theorem stepTriple_of_stepN (s : FSState) (i : NodeId) (c : String) (x : NodeId)
    (h : stepN s i c = some x) : (i, c, x) ∈ stepTriples s := by
  obtain ⟨e, cs, hg, hc, hl⟩ := stepN_parts s i c x h
  have hpair : (i, e) ∈ s.nodes := find_pair_mem s.nodes i e hg
  obtain ⟨kv, hkvmem, hk1, hk2⟩ := lookupA_mem c cs x hl
  unfold stepTriples
  rw [mem_concatAll]
  refine ⟨cs.map (fun kv => (i, kv.1, kv.2)), ?_, ?_⟩
  · rw [List.mem_map]
    exact ⟨(i, e), hpair, by rw [hc]⟩
  · rw [List.mem_map]
    exact ⟨kv, hkvmem, by rw [hk1, hk2]⟩

theorem stepN_inj_of_uniqueTree (s : FSState) (hu : UniqueTree s)
    (i j : NodeId) (c b : String) (x : NodeId)
    (hi : stepN s i c = some x) (hj : stepN s j b = some x) : i = j ∧ c = b := by
  have t1 := stepTriple_of_stepN s i c x hi
  have t2 := stepTriple_of_stepN s j b x hj
  have := List.inj_on_of_nodup_map hu.1 t1 t2 (by rfl)
  exact ⟨congrArg Prod.fst this, by
    have := congrArg Prod.snd this
    exact congrArg Prod.fst this⟩

theorem stepN_ne_root_of_uniqueTree (s : FSState) (hu : UniqueTree s)
    (i : NodeId) (c : String) (h : stepN s i c = some s.root) : False := by
  have t := stepTriple_of_stepN s i c s.root h
  exact hu.2 (by rw [List.mem_map]; exact ⟨(i, c, s.root), t, rfl⟩)

theorem get_dir_entry_nil (s : FSState) : Fs.get_dir_entry s [] = some s.root := rfl

theorem resolve_unique (s : FSState) (hu : UniqueTree s) (p : FPath) :
    ∀ (q : FPath) (x : NodeId),
      Fs.get_dir_entry s p = some x → Fs.get_dir_entry s q = some x → p = q := by
  induction p using List.reverseRecOn with
  | nil =>
    intro q x hp hq
    have hx : x = s.root := by
      rw [get_dir_entry_nil] at hp
      simp only [Option.some.injEq] at hp
      exact hp.symm
    subst hx
    rcases q.eq_nil_or_concat with h | ⟨q', c, hc⟩
    · exact h.symm
    · rw [List.concat_eq_append] at hc
      subst hc
      rw [get_dir_entry_concat] at hq
      cases hqq : Fs.get_dir_entry s q' with
      | none => rw [hqq] at hq; exact absurd hq (by simp)
      | some u =>
        rw [hqq] at hq
        simp only [Option.some_bind] at hq
        exact absurd hq (fun hh => stepN_ne_root_of_uniqueTree s hu u c hh)
  | append_singleton p' a ih =>
    intro q x hp hq
    rw [get_dir_entry_concat] at hp
    cases hpp : Fs.get_dir_entry s p' with
    | none => rw [hpp] at hp; exact absurd hp (by simp)
    | some u =>
      rw [hpp] at hp
      simp only [Option.some_bind] at hp
      rcases q.eq_nil_or_concat with h | ⟨q', b, hc⟩
      · subst h
        have hx : x = s.root := by
          rw [get_dir_entry_nil] at hq
          simp only [Option.some.injEq] at hq
          exact hq.symm
        subst hx
        exact absurd hp (fun hh => stepN_ne_root_of_uniqueTree s hu u a hh)
      · rw [List.concat_eq_append] at hc
        subst hc
        rw [get_dir_entry_concat] at hq
        cases hqq : Fs.get_dir_entry s q' with
        | none => rw [hqq] at hq; exact absurd hq (by simp)
        | some v =>
          rw [hqq] at hq
          simp only [Option.some_bind] at hq
          obtain ⟨huv, hab⟩ := stepN_inj_of_uniqueTree s hu u v a b x hp hq
          subst huv hab
          rw [ih q' u hpp hqq]

/-! ### Operation spec lemmas -/

theorem stepN_of_parts (s : FSState) (i : NodeId) (c : String) (x : NodeId)
    (e : DirEntry) (cs : List (String × NodeId))
    (he : getNode s i = some e) (hc : e.contents = some cs) (hl : lookupA c cs = some x) :
    stepN s i c = some x := by
  simp only [stepN, he, hc, hl]

theorem tick_pair (s : FSState) : tick s = (s.clock, { s with clock := s.clock + 1 }) := rfl

theorem clock_nodes (s : FSState) : ({ s with clock := s.clock + 1 } : FSState).nodes = s.nodes :=
  rfl

/-- Success of `open` in pure-read mode on an existing leaf (of any
kind). -/

theorem openPath_r_spec (s : FSState) (p : FPath) (pid fid : NodeId)
    (pe fe : DirEntry) (cs : List (String × NodeId))
    (hp : p ≠ [])
    (hpar : Fs.get_dir_entry s p.dropLast = some pid)
    (hpe : getNode s pid = some pe)
    (hkind : pe.kind = .dir)
    (hcs : pe.contents = some cs)
    (hfid : lookupA (lastName p) cs = some fid)
    (hfe : getNode s fid = some fe) :
    Fs.openPath s p ['r']
      = (.ok (some s.nextHandle),
         modifyNode
           (addHandle
             (modifyNode
               (modifyNode (tick s).2 fid (fun e => { e with accessed_time := s.clock }))
               fid DirEntry.lockE)
             ⟨false, p, ['r'], ⟨fe.data.getD [], 0, false⟩⟩).2
           fid (fun e => { e with open_files := e.open_files ++ [s.nextHandle] })) := by
  have hstep : stepN s pid (lastName p) = some fid := stepN_of_parts s pid _ fid pe cs hpe hcs hfid
  have hres : Fs.get_dir_entry s p = some fid := by
    rw [get_dir_entry_split s p hp, hpar, Option.some_bind]
    exact hstep
  have hstep2 : ∀ j c,
      stepN (modifyNode { s with clock := s.clock + 1 } fid
              (fun e => { e with accessed_time := s.clock })) j c = stepN s j c := by
    intro j c
    rw [stepN_modifyNode_keep _ fid (fun e => { e with accessed_time := s.clock })
          (fun e => rfl),
        stepN_nodes_eq _ _ (clock_nodes s)]
  have hres2 : Fs.get_dir_entry
      (modifyNode { s with clock := s.clock + 1 } fid
        (fun e => { e with accessed_time := s.clock })) p = some fid := by
    rw [get_dir_entry_congr _ _ (by rfl) hstep2]
    exact hres
  have hdata : getNode
      (modifyNode (modifyNode { s with clock := s.clock + 1 } fid
          (fun e => { e with accessed_time := s.clock }))
        fid DirEntry.lockE) fid
      = some (DirEntry.lockE { fe with accessed_time := s.clock }) := by
    rw [getNode_modifyNode_self, getNode_modifyNode_self, getNode_nodes_eq _ _ (clock_nodes s),
        hfe]
    rfl
  have hm1 : ((['r'] : Str).contains 'r' || (['r'] : Str).contains 'a') = true := by decide
  have hm2 : ((['r'] : Str).contains 'a') = false := by decide
  simp only [Fs.openPath, Fs.lock_dir_entry, tick_pair, hpar, hpe, hkind, hcs, hfid, hfe, hm1,
    hm2, hres2, hdata, DirEntry.lockE, MemoryFile.init, check_mode, if_true, Bool.false_eq_true,
    false_and, if_false, reduceCtorEq]
  simp [MemoryFile.init, check_mode]

theorem addNode_pair (s : FSState) (e : DirEntry) :
    addNode s e
      = (s.nextNode, { s with nodes := (s.nextNode, e) :: s.nodes, nextNode := s.nextNode + 1 }) :=
  rfl

theorem addHandle_pair (s : FSState) (mf : MemoryFile) :
    addHandle s mf
      = (s.nextHandle,
         { s with handles := (s.nextHandle, mf) :: s.handles, nextHandle := s.nextHandle + 1 }) :=
  rfl

/-- Success of the shared write-branch tail of `open`. -/

theorem openWTail_spec (s : FSState) (path : FPath) (mode : Str) (fid : NodeId) (fe : DirEntry)
    (hfe : getNode s fid = some fe)
    (hlock : ¬ fe.locks > 0)
    (hres : Fs.get_dir_entry
        (modifyNode { s with clock := s.clock + 1 } fid
          (fun e => { e with accessed_time := s.clock })) path = some fid) :
    openWTail s path mode fid
      = (.ok (some s.nextHandle),
         modifyNode
           (addHandle
             (modifyNode
               (modifyNode { s with clock := s.clock + 1 } fid
                 (fun e => { e with accessed_time := s.clock }))
               fid DirEntry.lockE)
             (MemoryFile.init path none mode)).2
           fid (fun e => { e with open_files := e.open_files ++ [s.nextHandle] })) := by
  simp only [openWTail, Fs.lock_dir_entry, tick_pair, hfe, hlock, hres, if_false]
  simp [addHandle_pair]

/-- Success of `open` in pure-append mode on an existing unlocked leaf. -/

theorem openPath_a_spec (s : FSState) (p : FPath) (pid fid : NodeId)
    (pe fe : DirEntry) (cs : List (String × NodeId))
    (hp : p ≠ [])
    (hpar : Fs.get_dir_entry s p.dropLast = some pid)
    (hpe : getNode s pid = some pe)
    (hkind : pe.kind = .dir)
    (hcs : pe.contents = some cs)
    (hfid : lookupA (lastName p) cs = some fid)
    (hfe : getNode s fid = some fe)
    (hlock : ¬ fe.locks > 0) :
    Fs.openPath s p ['a']
      = (.ok (some s.nextHandle),
         modifyNode
           (addHandle
             (modifyNode
               (modifyNode { s with clock := s.clock + 1 } fid
                 (fun e => { e with accessed_time := s.clock }))
               fid DirEntry.lockE)
             ⟨false, p, ['a'], ⟨fe.data.getD [], (fe.data.getD []).length, false⟩⟩).2
           fid (fun e => { e with open_files := e.open_files ++ [s.nextHandle] })) := by
  have hstep : stepN s pid (lastName p) = some fid := stepN_of_parts s pid _ fid pe cs hpe hcs hfid
  have hres : Fs.get_dir_entry s p = some fid := by
    rw [get_dir_entry_split s p hp, hpar, Option.some_bind]
    exact hstep
  have hstep2 : ∀ j c,
      stepN (modifyNode { s with clock := s.clock + 1 } fid
              (fun e => { e with accessed_time := s.clock })) j c = stepN s j c := by
    intro j c
    rw [stepN_modifyNode_keep _ fid (fun e => { e with accessed_time := s.clock })
          (fun e => rfl),
        stepN_nodes_eq _ _ (clock_nodes s)]
  have hres2 : Fs.get_dir_entry
      (modifyNode { s with clock := s.clock + 1 } fid
        (fun e => { e with accessed_time := s.clock })) p = some fid := by
    rw [get_dir_entry_congr _ _ (by rfl) hstep2]
    exact hres
  have hdata : getNode
      (modifyNode (modifyNode { s with clock := s.clock + 1 } fid
          (fun e => { e with accessed_time := s.clock }))
        fid DirEntry.lockE) fid
      = some (DirEntry.lockE { fe with accessed_time := s.clock }) := by
    rw [getNode_modifyNode_self, getNode_modifyNode_self, getNode_nodes_eq _ _ (clock_nodes s),
        hfe]
    rfl
  have hm1 : ((['a'] : Str).contains 'r' || (['a'] : Str).contains 'a') = true := by decide
  have hm2 : ((['a'] : Str).contains 'a') = true := by decide
  simp only [Fs.openPath, Fs.lock_dir_entry, tick_pair, hpar, hpe, hkind, hcs, hfid, hfe, hm1,
    hm2, hlock, hres2, hdata, DirEntry.lockE, MemoryFile.init, check_mode, if_true,
    Bool.false_eq_true, false_and, true_and, and_false, if_false, reduceCtorEq]
  simp [MemoryFile.init, check_mode]

/-- Success of `open` in pure-write mode on an existing unlocked leaf. -/

theorem openPath_w_old_spec (s : FSState) (p : FPath) (pid fid : NodeId)
    (pe fe : DirEntry) (cs : List (String × NodeId))
    (hp : p ≠ [])
    (hpar : Fs.get_dir_entry s p.dropLast = some pid)
    (hpe : getNode s pid = some pe)
    (hkind : pe.kind = .dir)
    (hcs : pe.contents = some cs)
    (hfid : lookupA (lastName p) cs = some fid)
    (hfe : getNode s fid = some fe)
    (hlock : ¬ fe.locks > 0) :
    Fs.openPath s p ['w']
      = (.ok (some s.nextHandle),
         modifyNode
           (addHandle
             (modifyNode
               (modifyNode { s with clock := s.clock + 1 } fid
                 (fun e => { e with accessed_time := s.clock }))
               fid DirEntry.lockE)
             ⟨false, p, ['w'], ⟨[], 0, false⟩⟩).2
           fid (fun e => { e with open_files := e.open_files ++ [s.nextHandle] })) := by
  have hstep : stepN s pid (lastName p) = some fid := stepN_of_parts s pid _ fid pe cs hpe hcs hfid
  have hres : Fs.get_dir_entry s p = some fid := by
    rw [get_dir_entry_split s p hp, hpar, Option.some_bind]
    exact hstep
  have hstep2 : ∀ j c,
      stepN (modifyNode { s with clock := s.clock + 1 } fid
              (fun e => { e with accessed_time := s.clock })) j c = stepN s j c := by
    intro j c
    rw [stepN_modifyNode_keep _ fid (fun e => { e with accessed_time := s.clock })
          (fun e => rfl),
        stepN_nodes_eq _ _ (clock_nodes s)]
  have hres2 : Fs.get_dir_entry
      (modifyNode { s with clock := s.clock + 1 } fid
        (fun e => { e with accessed_time := s.clock })) p = some fid := by
    rw [get_dir_entry_congr _ _ (by rfl) hstep2]
    exact hres
  have hm1 : ((['w'] : Str).contains 'r' || (['w'] : Str).contains 'a') = false := by decide
  have hm2 : ((['w'] : Str).contains 'w') = true := by decide
  simp only [Fs.openPath, hpar, hpe, hkind, hcs, hfid, hm1, hm2, Bool.false_eq_true, if_false,
    reduceCtorEq]
  exact openWTail_spec s p ['w'] fid fe hfe hlock hres2

theorem stepN_modifyNode_ne_node (s : FSState) (i j : NodeId) (c : String)
    (f : DirEntry → DirEntry) (h : j ≠ i) : stepN (modifyNode s i f) j c = stepN s j c := by
  unfold stepN
  rw [getNode_modifyNode_ne s i j f h]

theorem option_map_some {α β : Type} (f : α → β) (a : α) :
    Option.map f (some a) = some (f a) := rfl

/-- The effect of a children-mapping assignment on resolution steps. -/

theorem stepN_modify_setA (s : FSState) (pid nid : NodeId) (nm : String)
    (pe : DirEntry) (cs : List (String × NodeId))
    (hpe : getNode s pid = some pe) (hcs : pe.contents = some cs) :
    ∀ j c, stepN (modifyNode s pid (fun en =>
        match en.contents with
        | some cs2 => { en with contents := some (setA nm nid cs2) }
        | none => en)) j c
      = if j = pid ∧ c = nm then some nid else stepN s j c := by
  intro j c
  have happ : (match pe.contents with
      | some cs2 => { pe with contents := some (setA nm nid cs2) }
      | none => pe) = { pe with contents := some (setA nm nid cs) } := by
    simp only [hcs]
  by_cases hj : j = pid
  · have hget : getNode (modifyNode s pid (fun en =>
        match en.contents with
        | some cs2 => { en with contents := some (setA nm nid cs2) }
        | none => en)) j = some { pe with contents := some (setA nm nid cs) } := by
      rw [hj, getNode_modifyNode_self, hpe, option_map_some, happ]
    unfold stepN
    rw [hget]
    show lookupA c (setA nm nid cs) = if j = pid ∧ c = nm then some nid else stepN s j c
    by_cases hc : c = nm
    · rw [if_pos ⟨hj, hc⟩, hc]
      exact lookupA_setA_self nm nid cs
    · rw [if_neg (fun hh => hc hh.2), lookupA_setA_ne nm c nid cs hc, hj]
      unfold stepN
      rw [hpe]
      simp only [hcs]
  · rw [if_neg (fun hh => hj hh.1), stepN_modifyNode_ne_node _ pid j c _ hj]

/-- The effect of a children-mapping deletion on resolution steps. -/

theorem stepN_modify_delA (s : FSState) (pid : NodeId) (nm : String)
    (pe : DirEntry) (cs : List (String × NodeId))
    (hpe : getNode s pid = some pe) (hcs : pe.contents = some cs) :
    ∀ j c, stepN (modifyNode s pid (fun en =>
        match en.contents with
        | some cs2 => { en with contents := some (delA nm cs2) }
        | none => en)) j c
      = if j = pid ∧ c = nm then none else stepN s j c := by
  intro j c
  have happ : (match pe.contents with
      | some cs2 => { pe with contents := some (delA nm cs2) }
      | none => pe) = { pe with contents := some (delA nm cs) } := by
    simp only [hcs]
  by_cases hj : j = pid
  · have hget : getNode (modifyNode s pid (fun en =>
        match en.contents with
        | some cs2 => { en with contents := some (delA nm cs2) }
        | none => en)) j = some { pe with contents := some (delA nm cs) } := by
      rw [hj, getNode_modifyNode_self, hpe, option_map_some, happ]
    unfold stepN
    rw [hget]
    show lookupA c (delA nm cs) = if j = pid ∧ c = nm then none else stepN s j c
    by_cases hc : c = nm
    · rw [if_pos ⟨hj, hc⟩, hc]
      exact lookupA_delA_self nm cs
    · rw [if_neg (fun hh => hc hh.2), lookupA_delA_ne nm c cs hc, hj]
      unfold stepN
      rw [hpe]
      simp only [hcs]
  · rw [if_neg (fun hh => hj hh.1), stepN_modifyNode_ne_node _ pid j c _ hj]

/-- Success of `open` in pure-write mode on an absent leaf: the file node
is created first. -/

theorem openPath_w_new_spec (s : FSState) (p : FPath) (pid : NodeId)
    (pe : DirEntry) (cs : List (String × NodeId))
    (hp : p ≠ [])
    (hpar : Fs.get_dir_entry s p.dropLast = some pid)
    (hpe : getNode s pid = some pe)
    (hkind : pe.kind = .dir)
    (hcs : pe.contents = some cs)
    (habs : lookupA (lastName p) cs = none)
    (hpidne : pid ≠ s.nextNode)
    (hfresh : getNode s s.nextNode = none) :
    Fs.openPath s p ['w']
      = (.ok (some s.nextHandle),
         modifyNode
           (addHandle
             (modifyNode
               (modifyNode
                 { (modifyNode
                     { s with
                       nodes := (s.nextNode, make_dir_entry .file (lastName p) s.clock) :: s.nodes,
                       nextNode := s.nextNode + 1,
                       clock := s.clock + 1 }
                     pid (fun en =>
                       match en.contents with
                       | some cs2 =>
                         { en with contents := some (setA (lastName p) s.nextNode cs2) }
                       | none => en)) with
                   clock := s.clock + 1 + 1 }
                 s.nextNode (fun e => { e with accessed_time := s.clock + 1 }))
               s.nextNode DirEntry.lockE)
             ⟨false, p, ['w'], ⟨[], 0, false⟩⟩).2
           s.nextNode (fun e => { e with open_files := e.open_files ++ [s.nextHandle] })) := by
  have hm1 : ((['w'] : Str).contains 'r' || (['w'] : Str).contains 'a') = false := by decide
  have hm2 : ((['w'] : Str).contains 'w') = true := by decide
  have hgetS2pid : getNode
      { s with
        nodes := (s.nextNode, make_dir_entry .file (lastName p) s.clock) :: s.nodes,
        nextNode := s.nextNode + 1,
        clock := s.clock + 1 } pid = some pe := by
    unfold getNode
    show findVal ((s.nextNode, make_dir_entry .file (lastName p) s.clock) :: s.nodes) pid = some pe
    rw [findVal_cons_ne _ _ _ _ hpidne]
    exact hpe
  have hnew : getNode
      (modifyNode
        { s with
          nodes := (s.nextNode, make_dir_entry .file (lastName p) s.clock) :: s.nodes,
          nextNode := s.nextNode + 1,
          clock := s.clock + 1 }
        pid (fun en =>
          match en.contents with
          | some cs2 => { en with contents := some (setA (lastName p) s.nextNode cs2) }
          | none => en)) s.nextNode
      = some (make_dir_entry .file (lastName p) s.clock) := by
    rw [getNode_modifyNode_ne _ _ _ _ (fun hh => hpidne hh.symm)]
    unfold getNode
    show findVal ((s.nextNode, make_dir_entry .file (lastName p) s.clock) :: s.nodes) s.nextNode
      = _
    exact findVal_cons_self _ _ _
  have hstepS2 : ∀ j c w, stepN s j c = some w →
      stepN { s with
        nodes := (s.nextNode, make_dir_entry .file (lastName p) s.clock) :: s.nodes,
        nextNode := s.nextNode + 1,
        clock := s.clock + 1 } j c = some w := by
    intro j c w hw
    by_cases hj : j = s.nextNode
    · subst hj
      exact absurd hw (by unfold stepN; rw [hfresh]; simp)
    · have hg : getNode { s with
          nodes := (s.nextNode, make_dir_entry .file (lastName p) s.clock) :: s.nodes,
          nextNode := s.nextNode + 1,
          clock := s.clock + 1 } j = getNode s j := by
        unfold getNode
        show findVal ((s.nextNode, make_dir_entry .file (lastName p) s.clock) :: s.nodes) j = _
        rw [findVal_cons_ne _ _ _ _ hj]
      unfold stepN at hw ⊢
      rw [hg]
      exact hw
  have hstepS3 := stepN_modify_setA
    { s with
      nodes := (s.nextNode, make_dir_entry .file (lastName p) s.clock) :: s.nodes,
      nextNode := s.nextNode + 1,
      clock := s.clock + 1 } pid s.nextNode (lastName p) pe cs hgetS2pid hcs
  have hmono : ∀ j c w, stepN s j c = some w →
      stepN (modifyNode
        { s with
          nodes := (s.nextNode, make_dir_entry .file (lastName p) s.clock) :: s.nodes,
          nextNode := s.nextNode + 1,
          clock := s.clock + 1 }
        pid (fun en =>
          match en.contents with
          | some cs2 => { en with contents := some (setA (lastName p) s.nextNode cs2) }
          | none => en)) j c = some w := by
    intro j c w hw
    rw [hstepS3 j c]
    by_cases hcase : j = pid ∧ c = lastName p
    · exact absurd hw (by
        obtain ⟨hj1, hc1⟩ := hcase
        subst hj1 hc1
        unfold stepN
        rw [hpe]
        simp only [hcs]
        rw [habs]
        simp)
    · rw [if_neg hcase]
      exact hstepS2 j c w hw
  have hresS3 : Fs.get_dir_entry (modifyNode
      { s with
        nodes := (s.nextNode, make_dir_entry .file (lastName p) s.clock) :: s.nodes,
        nextNode := s.nextNode + 1,
        clock := s.clock + 1 }
      pid (fun en =>
        match en.contents with
        | some cs2 => { en with contents := some (setA (lastName p) s.nextNode cs2) }
        | none => en)) p.dropLast = some pid :=
    get_dir_entry_mono s _ (by rfl) hmono p.dropLast pid hpar
  have hstepS5 : ∀ j c, stepN
      (modifyNode
        { (modifyNode
            { s with
              nodes := (s.nextNode, make_dir_entry .file (lastName p) s.clock) :: s.nodes,
              nextNode := s.nextNode + 1,
              clock := s.clock + 1 }
            pid (fun en =>
              match en.contents with
              | some cs2 => { en with contents := some (setA (lastName p) s.nextNode cs2) }
              | none => en)) with
          clock := s.clock + 1 + 1 }
        s.nextNode (fun e => { e with accessed_time := s.clock + 1 })) j c
      = stepN (modifyNode
        { s with
          nodes := (s.nextNode, make_dir_entry .file (lastName p) s.clock) :: s.nodes,
          nextNode := s.nextNode + 1,
          clock := s.clock + 1 }
        pid (fun en =>
          match en.contents with
          | some cs2 => { en with contents := some (setA (lastName p) s.nextNode cs2) }
          | none => en)) j c := by
    intro j c
    rw [stepN_modifyNode_keep _ s.nextNode (fun e => { e with accessed_time := s.clock + 1 })
          (fun e => rfl)]
    exact stepN_nodes_eq _ _ rfl j c
  have hresS5 : Fs.get_dir_entry
      (modifyNode
        { (modifyNode
            { s with
              nodes := (s.nextNode, make_dir_entry .file (lastName p) s.clock) :: s.nodes,
              nextNode := s.nextNode + 1,
              clock := s.clock + 1 }
            pid (fun en =>
              match en.contents with
              | some cs2 => { en with contents := some (setA (lastName p) s.nextNode cs2) }
              | none => en)) with
          clock := s.clock + 1 + 1 }
        s.nextNode (fun e => { e with accessed_time := s.clock + 1 })) p = some s.nextNode := by
    have hcongr := get_dir_entry_congr _ _ (by rfl) hstepS5
    rw [get_dir_entry_split _ p hp]
    rw [hcongr]
    rw [hresS3, Option.some_bind, hstepS5]
    rw [hstepS3]
    rw [if_pos ⟨rfl, rfl⟩]
  simp only [Fs.openPath, hpar, hpe, hkind, hcs, habs, hm1, hm2, tick_pair, addNode_pair,
    Bool.false_eq_true, if_false, reduceCtorEq]
  exact openWTail_spec _ p ['w'] s.nextNode (make_dir_entry .file (lastName p) s.clock)
    hnew (by simp [make_dir_entry]) hresS5

/-- Success of a handle write: the modified timestamp is refreshed and
the buffer is replaced. -/

theorem file_write_spec (s : FSState) (h : HandleId) (data : Str) (mf : MemoryFile)
    (i : NodeId) (sio' : Sio)
    (hh : getHandle s h = some mf)
    (hres : Fs.get_dir_entry s mf.path = some i)
    (hw : mf.mem_file.write data = .ok sio') :
    Fs.file_write s h data
      = (.ok (), modifyHandle
          (modifyNode { s with clock := s.clock + 1 } i
            (fun e => { e with modified_time := s.clock })) h
          (fun m => { m with mem_file := sio' })) := by
  simp only [Fs.file_write, Fs.on_modify_memory_file, tick_pair, hh, hres, hw]

/-- Success of a handle close: the buffer value is committed, the handle
is removed from the node's open list, the node is unlocked, and the
handle object is marked closed. -/

theorem file_close_spec (s : FSState) (h : HandleId) (mf : MemoryFile)
    (i : NodeId) (e : DirEntry)
    (hh : getHandle s h = some mf)
    (hnc : mf.closed = false)
    (hsio : mf.mem_file.closed = false)
    (hres : Fs.get_dir_entry s mf.path = some i)
    (he : getNode s i = some e)
    (hmem : h ∈ e.open_files)
    (hlk : ¬ e.locks - 1 < 0) :
    Fs.file_close s h
      = (.ok (), modifyHandle
          (modifyNode
            (modifyNode
              (modifyNode s i (fun en => { en with data := some mf.mem_file.chars }))
              i (fun en => { en with open_files := en.open_files.erase h }))
            i (fun en => { en with locks := en.locks - 1 }))
          h (fun m => { m with closed := true, mem_file := m.mem_file.closeIt })) := by
  have hval : mf.mem_file.getvalue = .ok mf.mem_file.chars := by
    unfold Sio.getvalue
    rw [hsio]
    rfl
  have hstep1 : ∀ j c,
      stepN (modifyNode
        (modifyNode s i (fun en => { en with data := some mf.mem_file.chars }))
        i (fun en => { en with open_files := en.open_files.erase h })) j c = stepN s j c := by
    intro j c
    rw [stepN_modifyNode_keep _ i (fun en => { en with open_files := en.open_files.erase h })
          (fun en => rfl),
        stepN_modifyNode_keep _ i (fun en => { en with data := some mf.mem_file.chars })
          (fun en => rfl)]
  have hres2 : Fs.get_dir_entry
      (modifyNode
        (modifyNode s i (fun en => { en with data := some mf.mem_file.chars }))
        i (fun en => { en with open_files := en.open_files.erase h })) mf.path = some i := by
    rw [get_dir_entry_congr _ _ (by rfl) hstep1]
    exact hres
  have hget1 : getNode
      (modifyNode s i (fun en => { en with data := some mf.mem_file.chars })) i
      = some { e with data := some mf.mem_file.chars } := by
    rw [getNode_modifyNode_self, he]
    rfl
  have hget3 : getNode
      (modifyNode
        (modifyNode
          (modifyNode s i (fun en => { en with data := some mf.mem_file.chars }))
          i (fun en => { en with open_files := en.open_files.erase h }))
        i (fun en => { en with locks := en.locks - 1 })) i
      = some { e with
               data := some mf.mem_file.chars,
               open_files := e.open_files.erase h,
               locks := e.locks - 1 } := by
    rw [getNode_modifyNode_self, getNode_modifyNode_self, hget1]
    rfl
  simp only [Fs.file_close, Fs.on_close_memory_file, Fs.unlock_dir_entry, hh, hnc, hval, hres,
    hres2, hget1, hget3, hmem, hlk, Bool.false_eq_true, if_false, if_true, reduceCtorEq]

/-- A read to the end of a handle's buffer. -/

theorem file_readToEnd_spec (s : FSState) (h : HandleId) (mf : MemoryFile)
    (hh : getHandle s h = some mf)
    (hsio : mf.mem_file.closed = false) :
    Fs.file_readToEnd s h
      = (.ok (mf.mem_file.chars.drop mf.mem_file.pos),
         modifyHandle s h (fun m =>
           { m with mem_file :=
               ⟨mf.mem_file.chars, mf.mem_file.chars.length, mf.mem_file.closed⟩ })) := by
  have hrd : mf.mem_file.readToEnd
      = .ok (mf.mem_file.chars.drop mf.mem_file.pos,
             ⟨mf.mem_file.chars, mf.mem_file.chars.length, mf.mem_file.closed⟩) := by
    simp [Sio.readToEnd, hsio]
  simp only [Fs.file_readToEnd, hh, hrd]

/-! ### Concrete example states -/

/-! ### C1 -/

/-- C1 is false on the code: after `makedir("/d")`, the path `/d`
resolves to a Directory node, yet `open("/d", "r")` returns a handle
rather than failing — read/append modes check only that the leaf exists,
never its type. -/

theorem C1_counterexample :
    Fs.isdir exDir ["d"] = true ∧ (Fs.openPath exDir ["d"] ['r']).1 = .ok (some 0) :=
  ⟨by decide, by decide⟩

/-- C1 (amended): for every path whose parent resolves to a Directory
and whose leaf exists in the parent's children mapping — even when the
leaf is itself a Directory — `open` in read mode succeeds and returns a
fresh Handle; the leaf's type is never checked. -/

theorem C1_open_dir_returns_handle (s : FSState) (p : FPath) (pid fid : NodeId)
    (pe fe : DirEntry) (cs : List (String × NodeId))
    (hp : p ≠ [])
    (hpar : Fs.get_dir_entry s p.dropLast = some pid)
    (hpe : getNode s pid = some pe)
    (hkind : pe.kind = .dir)
    (hcs : pe.contents = some cs)
    (hfid : lookupA (lastName p) cs = some fid)
    (hfe : getNode s fid = some fe)
    (_hfkind : fe.kind = .dir) :
    (Fs.openPath s p ['r']).1 = .ok (some s.nextHandle) := by
  rw [openPath_r_spec s p pid fid pe fe cs hp hpar hpe hkind hcs hfid hfe]

/-- Witness for the amended C1 at a concrete state. -/

theorem C1_witness :
    Fs.isdir exDir ["d"] = true ∧ (Fs.openPath exDir ["d"] ['r']).1 = .ok (some 0) :=
  ⟨by decide,
   C1_open_dir_returns_handle exDir ["d"] 0 1
     ⟨.dir, "root", some [("d", 1)], [], none, 0, 0, 0, 0, []⟩
     ⟨.dir, "d", some [], [], none, 0, 1, 1, 1, []⟩
     [("d", 1)]
     (by decide) (by decide) (by decide) (by decide) (by decide) (by decide) (by decide)
     (by decide)⟩

/-! ### C6 -/

/-- C6: the recursive branch of `makedir` does fail `ResourceInvalid`
when a component of the parent chain is a File, but the non-recursive
branch with a File as the immediate parent crashes with an
`AttributeError` (dereferencing the File's `None` children mapping at
line 298 of the source) instead of raising `ResourceInvalidError`; a
deeper File in the chain gives `ParentDirectoryMissing` instead. -/

theorem C6_theorem :
    Fs.isfile exWClosed ["f"] = true
    ∧ (Fs.makedir exWClosed ["f", "sub"] false false).1 = .error .attributeError
    ∧ (Fs.makedir exWClosed ["f", "sub"] true false).1 = .error .resourceInvalid
    ∧ (Fs.makedir exWClosed ["f", "a", "sub"] true false).1 = .error .resourceInvalid
    ∧ (Fs.makedir exWClosed ["f", "a", "sub"] false false).1
        = .error .parentDirectoryMissing :=
  ⟨by decide, by decide, by decide, by decide, by decide⟩

/-! ### C9 -/

theorem getLast_reverse_head (l : List String) (c : String) (h : l.head? = some c) :
    l.reverse.getLast? = some c := by
  rw [List.getLast?_reverse]
  exact h

/-- After a successful run of the upward deletion loop, the first
component of the processed path has been removed from the root's
children mapping. -/

theorem removedirLoopRev_last : ∀ (rev : List String) (s : FSState) (c0 : String),
    rev.getLast? = some c0 →
    (removedirLoopRev s rev).1 = .ok () →
    (removedirLoopRev s rev).2.root = s.root ∧
    stepN (removedirLoopRev s rev).2 s.root c0 = none := by
  intro rev
  induction rev with
  | nil =>
    intro s c0 hlast
    exact absurd hlast (by simp)
  | cons dn rest ih =>
    intro s c0 hlast hok
    cases hres : Fs.get_dir_entry s rest.reverse with
    | none => simp only [removedirLoopRev, hres, reduceCtorEq] at hok
    | some pid =>
      simp only [removedirLoopRev, hres] at hok
      cases hpe : getNode s pid with
      | none => simp only [hpe, reduceCtorEq] at hok
      | some pe =>
        simp only [hpe] at hok
        cases hcs : pe.contents with
        | none => simp only [hcs, reduceCtorEq] at hok
        | some cs =>
          simp only [hcs] at hok
          cases hdel : delDict dn cs with
          | error er => simp only [hdel, reduceCtorEq] at hok
          | ok cs2 =>
            simp only [hdel] at hok
            simp only [removedirLoopRev, hres, hpe, hcs, hdel]
            cases rest with
            | nil =>
              have hdn : dn = c0 := by
                simp only [List.getLast?_singleton, Option.some.injEq] at hlast
                exact hlast
              have hpid : pid = s.root := by
                simp only [List.reverse_nil, get_dir_entry_nil, Option.some.injEq] at hres
                exact hres.symm
              refine ⟨rfl, ?_⟩
              rw [← hdn]
              show stepN (modifyNode s pid (fun en =>
                  match en.contents with
                  | some cs2 => { en with contents := some (delA dn cs2) }
                  | none => en)) s.root dn = none
              rw [stepN_modify_delA s pid dn pe cs hpe hcs s.root dn]
              rw [if_pos ⟨hpid.symm, rfl⟩]
            | cons r1 r2 =>
              have hok2 : (removedirLoopRev (modifyNode s pid (fun en =>
                  match en.contents with
                  | some cs2 => { en with contents := some (delA dn cs2) }
                  | none => en)) (r1 :: r2)).1 = .ok () := hok
              have hlast2 : (r1 :: r2).getLast? = some c0 := by
                rw [← hlast]
                rfl
              have hmain := ih (modifyNode s pid (fun en =>
                  match en.contents with
                  | some cs2 => { en with contents := some (delA dn cs2) }
                  | none => en)) c0 hlast2 hok2
              exact ⟨hmain.1, hmain.2⟩

/-- C9: when `removedir(p, recursive=True, force)` succeeds, the loop
walks upward removing every ancestor entry from its own parent until the
component chain is exhausted; in particular the first component of `p`
is deleted from the root, so afterwards no nonempty leading portion of
`p` resolves (the whole chain is gone, not just the leaf). -/

theorem C9_removedir_recursive_chain (s : FSState) (p : FPath) (force : Bool)
    (hok : (Fs.removedir s p true force).1 = .ok ()) :
    ∀ q, q ≠ [] → pathLe q p →
      Fs.get_dir_entry (Fs.removedir s p true force).2 q = none := by
  intro q hq hle
  cases hres : Fs.get_dir_entry s p with
  | none => simp only [Fs.removedir, hres, reduceCtorEq] at hok
  | some i =>
    simp only [Fs.removedir, hres] at hok
    cases hie : getNode s i with
    | none => simp only [hie, reduceCtorEq] at hok
    | some e =>
      simp only [hie] at hok
      by_cases hl : e.islocked
      · rw [if_pos hl] at hok
        exact absurd hok (by simp)
      · rw [if_neg hl] at hok
        cases hk : e.kind with
        | file => simp only [hk, reduceCtorEq] at hok
        | dir =>
          simp only [hk] at hok
          by_cases hne : ((match e.contents with
              | some cs => !cs.isEmpty
              | none => false) && !force) = true
          · rw [if_pos hne] at hok
            exact absurd hok (by simp)
          · rw [if_neg hne] at hok
            simp only [if_true] at hok
            simp only [Fs.removedir, hres, hie, hk, if_neg hl, if_neg hne, eq_self_iff_true,
              if_true]
            obtain ⟨t, ht⟩ := hle
            rcases q with _ | ⟨q0, qrest⟩
            · exact absurd rfl hq
            · have hok2 : (removedirLoopRev s p.reverse).1 = .ok () := hok
              have hhead : p.head? = some q0 := by
                rw [← ht]
                rfl
              have hlast := getLast_reverse_head p q0 hhead
              have hmain := removedirLoopRev_last p.reverse s q0 hlast hok2
              show Fs.get_dir_entry (removedirLoopRev s p.reverse).2 (q0 :: qrest) = none
              unfold Fs.get_dir_entry
              rw [resolveFrom_cons]
              rw [hmain.1, hmain.2]

/-- Witness for C9 at a concrete state: after `makedir("/a/b",
recursive=True)`, `removedir("/a/b", recursive=True)` succeeds and both
`/a/b` and the emptied ancestor `/a` are gone. -/

theorem C9_witness :
    (Fs.removedir exAB ["a", "b"] true false).1 = .ok ()
    ∧ Fs.get_dir_entry (Fs.removedir exAB ["a", "b"] true false).2 ["a"] = none
    ∧ Fs.get_dir_entry (Fs.removedir exAB ["a", "b"] true false).2 ["a", "b"] = none :=
  ⟨by decide,
   C9_removedir_recursive_chain exAB ["a", "b"] false (by decide) ["a"] (by decide)
     ⟨["b"], rfl⟩,
   C9_removedir_recursive_chain exAB ["a", "b"] false (by decide) ["a", "b"] (by decide)
     ⟨[], rfl⟩⟩

/-! ### Run invariants for the round-trip claims -/

theorem parentView_transfer (s s' : FSState) (p : FPath) (fid : NodeId)
    (hroot : s'.root = s.root)
    (hstep : ∀ j c, stepN s' j c = stepN s j c)
    (hpres : ∀ i e, getNode s i = some e →
      ∃ e', getNode s' i = some e' ∧ e'.kind = e.kind ∧ e'.contents = e.contents)
    (hpv : ParentView s p fid) : ParentView s' p fid := by
  obtain ⟨pid, pe, cs, h1, h2, h3, h4, h5⟩ := hpv
  obtain ⟨pe', h2', hk', hc'⟩ := hpres pid pe h2
  exact ⟨pid, pe', cs, by rw [get_dir_entry_congr s s' hroot hstep]; exact h1,
    h2', by rw [hk']; exact h3, by rw [hc']; exact h4, h5⟩

theorem postOpen_root (s : FSState) (fid : NodeId) (mf : MemoryFile) :
    (postOpen s fid mf).root = s.root := rfl

theorem postOpen_nextHandle (s : FSState) (fid : NodeId) (mf : MemoryFile) :
    (postOpen s fid mf).nextHandle = s.nextHandle + 1 := rfl

theorem postOpen_nextNode (s : FSState) (fid : NodeId) (mf : MemoryFile) :
    (postOpen s fid mf).nextNode = s.nextNode := rfl

theorem stepN_addHandle (s : FSState) (mf : MemoryFile) (j : NodeId) (c : String) :
    stepN (addHandle s mf).2 j c = stepN s j c := rfl

theorem getNode_addHandle (s : FSState) (mf : MemoryFile) (j : NodeId) :
    getNode (addHandle s mf).2 j = getNode s j := rfl

theorem stepN_clockSet (s : FSState) (x : Nat) (j : NodeId) (c : String) :
    stepN { s with clock := x } j c = stepN s j c := rfl

theorem getNode_clockSet (s : FSState) (x : Nat) (j : NodeId) :
    getNode { s with clock := x } j = getNode s j := rfl

theorem postOpen_stepN (s : FSState) (fid : NodeId) (mf : MemoryFile) (j : NodeId) (c : String) :
    stepN (postOpen s fid mf) j c = stepN s j c := by
  unfold postOpen
  rw [stepN_modifyNode_keep _ fid
        (fun e => { e with open_files := e.open_files ++ [s.nextHandle] }) (fun e => rfl)]
  rw [stepN_addHandle]
  rw [stepN_modifyNode_keep _ fid DirEntry.lockE (fun e => rfl)]
  rw [stepN_modifyNode_keep _ fid (fun e => { e with accessed_time := s.clock }) (fun e => rfl)]
  exact stepN_clockSet s _ j c

theorem postOpen_getHandle (s : FSState) (fid : NodeId) (mf : MemoryFile) :
    getHandle (postOpen s fid mf) s.nextHandle = some mf := by
  unfold postOpen
  rw [getHandle_handles_eq _ _ rfl]
  exact getHandle_addHandle_self _ mf

theorem postOpen_getNode_self (s : FSState) (fid : NodeId) (mf : MemoryFile) (e : DirEntry)
    (he : getNode s fid = some e) :
    getNode (postOpen s fid mf) fid
      = some { e with
          accessed_time := s.clock
          locks := e.locks + 1
          open_files := e.open_files ++ [s.nextHandle] } := by
  unfold postOpen
  rw [getNode_modifyNode_self, getNode_addHandle, getNode_modifyNode_self,
      getNode_modifyNode_self, getNode_clockSet, he]
  rfl

theorem postOpen_getNode_ne (s : FSState) (fid : NodeId) (mf : MemoryFile) (j : NodeId)
    (hj : j ≠ fid) : getNode (postOpen s fid mf) j = getNode s j := by
  unfold postOpen
  rw [getNode_modifyNode_ne _ _ _ _ hj, getNode_addHandle,
      getNode_modifyNode_ne _ _ _ _ hj, getNode_modifyNode_ne _ _ _ _ hj]
  exact getNode_clockSet s _ j

/-- Writing at the end of a `StringIO` buffer appends. -/

theorem sio_write_at_end (buf data : Str) :
    Sio.write ⟨buf, buf.length, false⟩ data
      = .ok ⟨buf ++ data, buf.length + data.length, false⟩ := by
  unfold Sio.write
  simp only [Bool.false_eq_true, if_false, Nat.sub_self, List.replicate_zero, List.append_nil,
    List.take_length]
  rw [List.drop_eq_nil_of_le (by simp)]
  simp

/-- A successful `open` hands back a live-handle view of the state. -/

theorem postOpen_handleOpen (s : FSState) (p : FPath) (fid : NodeId) (fe : DirEntry)
    (mode buf : Str) (pos : Nat)
    (hp : p ≠ [])
    (hpv : ParentView s p fid)
    (hres : Fs.get_dir_entry s p = some fid)
    (hfe : getNode s fid = some fe)
    (hlk : fe.locks = 0)
    (hofr : ∀ g, g ∈ fe.open_files → g < s.nextHandle) :
    HandleOpen (postOpen s fid ⟨false, p, mode, ⟨buf, pos, false⟩⟩) p fid s.nextHandle mode buf
      pos fe.open_files := by
  refine ⟨hp, ?_, ?_, ?_, ?_, ?_⟩
  · rw [postOpen_nextHandle]
    exact Nat.lt_succ_self _
  · refine parentView_transfer s _ p fid (postOpen_root s fid _) (postOpen_stepN s fid _) ?_ hpv
    intro i e0 he0
    by_cases hi : i = fid
    · subst hi
      rw [postOpen_getNode_self s i _ e0 he0]
      exact ⟨_, rfl, rfl, rfl⟩
    · rw [postOpen_getNode_ne s fid _ i hi]
      exact ⟨e0, he0, rfl, rfl⟩
  · rw [get_dir_entry_congr s _ (postOpen_root s fid _) (postOpen_stepN s fid _)]
    exact hres
  · exact postOpen_getHandle s fid _
  · refine ⟨_, postOpen_getNode_self s fid _ fe hfe, rfl, ?_, ?_, ?_⟩
    · intro hmem
      exact Nat.lt_irrefl _ (hofr _ hmem)
    · intro g hg
      rw [postOpen_nextHandle]
      exact Nat.lt_succ_of_lt (hofr g hg)
    · show fe.locks + 1 = 1
      rw [hlk]
      decide

/-- `open` in read mode on a ready file hands back a live handle whose
buffer holds the committed data with the cursor at the start. -/

theorem fileReady_open_r (s : FSState) (p : FPath) (fid : NodeId) (d : Option Str)
    (fr : FileReady s p fid d) :
    (Fs.openPath s p ['r']).1 = .ok (some s.nextHandle)
    ∧ ∃ prev, HandleOpen (Fs.openPath s p ['r']).2 p fid s.nextHandle ['r'] (d.getD []) 0
        prev := by
  obtain ⟨hp, hpv, e, he, hd, hlk, hofr⟩ := fr
  subst hd
  obtain ⟨pid, pe, cs, hpar, hpe, hkind, hcs, hfid⟩ := hpv
  have hres : Fs.get_dir_entry s p = some fid := by
    rw [get_dir_entry_split s p hp, hpar, Option.some_bind]
    exact stepN_of_parts s pid _ fid pe cs hpe hcs hfid
  rw [openPath_r_spec s p pid fid pe e cs hp hpar hpe hkind hcs hfid he]
  exact ⟨rfl, e.open_files,
    postOpen_handleOpen s p fid e ['r'] (e.data.getD []) 0 hp
      ⟨pid, pe, cs, hpar, hpe, hkind, hcs, hfid⟩ hres he hlk hofr⟩

/-- `open` in append mode on a ready file hands back a live handle whose
buffer holds the committed data with the cursor at the end. -/

theorem fileReady_open_a (s : FSState) (p : FPath) (fid : NodeId) (d : Option Str)
    (fr : FileReady s p fid d) :
    (Fs.openPath s p ['a']).1 = .ok (some s.nextHandle)
    ∧ ∃ prev, HandleOpen (Fs.openPath s p ['a']).2 p fid s.nextHandle ['a'] (d.getD [])
        (d.getD []).length prev := by
  obtain ⟨hp, hpv, e, he, hd, hlk, hofr⟩ := fr
  subst hd
  obtain ⟨pid, pe, cs, hpar, hpe, hkind, hcs, hfid⟩ := hpv
  have hres : Fs.get_dir_entry s p = some fid := by
    rw [get_dir_entry_split s p hp, hpar, Option.some_bind]
    exact stepN_of_parts s pid _ fid pe cs hpe hcs hfid
  have hnl : ¬ e.locks > 0 := by
    rw [hlk]
    decide
  rw [openPath_a_spec s p pid fid pe e cs hp hpar hpe hkind hcs hfid he hnl]
  exact ⟨rfl, e.open_files,
    postOpen_handleOpen s p fid e ['a'] (e.data.getD []) (e.data.getD []).length hp
      ⟨pid, pe, cs, hpar, hpe, hkind, hcs, hfid⟩ hres he hlk hofr⟩

/-- `open` in write mode on a ready file hands back a live handle with
an empty buffer. -/

theorem fileReady_open_w (s : FSState) (p : FPath) (fid : NodeId) (d : Option Str)
    (fr : FileReady s p fid d) :
    (Fs.openPath s p ['w']).1 = .ok (some s.nextHandle)
    ∧ ∃ prev, HandleOpen (Fs.openPath s p ['w']).2 p fid s.nextHandle ['w'] [] 0 prev := by
  obtain ⟨hp, hpv, e, he, hd, hlk, hofr⟩ := fr
  obtain ⟨pid, pe, cs, hpar, hpe, hkind, hcs, hfid⟩ := hpv
  have hres : Fs.get_dir_entry s p = some fid := by
    rw [get_dir_entry_split s p hp, hpar, Option.some_bind]
    exact stepN_of_parts s pid _ fid pe cs hpe hcs hfid
  have hnl : ¬ e.locks > 0 := by
    rw [hlk]
    decide
  rw [openPath_w_old_spec s p pid fid pe e cs hp hpar hpe hkind hcs hfid he hnl]
  exact ⟨rfl, e.open_files,
    postOpen_handleOpen s p fid e ['w'] [] 0 hp
      ⟨pid, pe, cs, hpar, hpe, hkind, hcs, hfid⟩ hres he hlk hofr⟩

theorem stepN_modifyHandle (s : FSState) (h : HandleId) (f : MemoryFile → MemoryFile)
    (j : NodeId) (c : String) : stepN (modifyHandle s h f) j c = stepN s j c := rfl

theorem getNode_modifyHandle (s : FSState) (h : HandleId) (f : MemoryFile → MemoryFile)
    (j : NodeId) : getNode (modifyHandle s h f) j = getNode s j := rfl

theorem getHandle_modifyNode (s : FSState) (i : NodeId) (f : DirEntry → DirEntry)
    (g : HandleId) : getHandle (modifyNode s i f) g = getHandle s g := rfl

theorem getHandle_clockSet (s : FSState) (x : Nat) (g : HandleId) :
    getHandle { s with clock := x } g = getHandle s g := rfl

theorem postWrite_root (s : FSState) (fid : NodeId) (h : HandleId) (sio : Sio) :
    (postWrite s fid h sio).root = s.root := rfl

theorem postWrite_nextHandle (s : FSState) (fid : NodeId) (h : HandleId) (sio : Sio) :
    (postWrite s fid h sio).nextHandle = s.nextHandle := rfl

theorem postWrite_stepN (s : FSState) (fid : NodeId) (h : HandleId) (sio : Sio)
    (j : NodeId) (c : String) : stepN (postWrite s fid h sio) j c = stepN s j c := by
  unfold postWrite
  rw [stepN_modifyHandle,
      stepN_modifyNode_keep _ fid (fun e => { e with modified_time := s.clock }) (fun e => rfl)]
  exact stepN_clockSet s _ j c

theorem postWrite_getNode_self (s : FSState) (fid : NodeId) (h : HandleId) (sio : Sio)
    (e : DirEntry) (he : getNode s fid = some e) :
    getNode (postWrite s fid h sio) fid = some { e with modified_time := s.clock } := by
  unfold postWrite
  rw [getNode_modifyHandle, getNode_modifyNode_self, getNode_clockSet, he]
  rfl

theorem postWrite_getNode_ne (s : FSState) (fid : NodeId) (h : HandleId) (sio : Sio)
    (j : NodeId) (hj : j ≠ fid) : getNode (postWrite s fid h sio) j = getNode s j := by
  unfold postWrite
  rw [getNode_modifyHandle, getNode_modifyNode_ne _ _ _ _ hj]
  exact getNode_clockSet s _ j

theorem postWrite_getHandle_self (s : FSState) (fid : NodeId) (h : HandleId) (sio : Sio) :
    getHandle (postWrite s fid h sio) h
      = (getHandle s h).map (fun m => { m with mem_file := sio }) := by
  unfold postWrite
  rw [getHandle_modifyHandle_self, getHandle_modifyNode, getHandle_clockSet]

theorem postClose_root (s : FSState) (fid : NodeId) (h : HandleId) (v : Str) :
    (postClose s fid h v).root = s.root := rfl

theorem postClose_nextHandle (s : FSState) (fid : NodeId) (h : HandleId) (v : Str) :
    (postClose s fid h v).nextHandle = s.nextHandle := rfl

theorem postClose_stepN (s : FSState) (fid : NodeId) (h : HandleId) (v : Str)
    (j : NodeId) (c : String) : stepN (postClose s fid h v) j c = stepN s j c := by
  unfold postClose
  rw [stepN_modifyHandle,
      stepN_modifyNode_keep _ fid (fun en => { en with locks := en.locks - 1 }) (fun en => rfl),
      stepN_modifyNode_keep _ fid (fun en => { en with open_files := en.open_files.erase h })
        (fun en => rfl),
      stepN_modifyNode_keep _ fid (fun en => { en with data := some v }) (fun en => rfl)]

theorem postClose_getNode_self (s : FSState) (fid : NodeId) (h : HandleId) (v : Str)
    (e : DirEntry) (he : getNode s fid = some e) :
    getNode (postClose s fid h v) fid
      = some { e with
          data := some v
          open_files := e.open_files.erase h
          locks := e.locks - 1 } := by
  unfold postClose
  rw [getNode_modifyHandle, getNode_modifyNode_self, getNode_modifyNode_self,
      getNode_modifyNode_self, he]
  rfl

theorem postClose_getNode_ne (s : FSState) (fid : NodeId) (h : HandleId) (v : Str)
    (j : NodeId) (hj : j ≠ fid) : getNode (postClose s fid h v) j = getNode s j := by
  unfold postClose
  rw [getNode_modifyHandle, getNode_modifyNode_ne _ _ _ _ hj,
      getNode_modifyNode_ne _ _ _ _ hj, getNode_modifyNode_ne _ _ _ _ hj]

/-- A handle write at the end of the buffer appends to it and keeps the
live-handle view. -/

theorem handleOpen_write (s : FSState) (p : FPath) (fid : NodeId) (h : HandleId)
    (mode buf : Str) (prev : List HandleId) (data : Str)
    (ho : HandleOpen s p fid h mode buf buf.length prev) :
    (Fs.file_write s h data).1 = .ok ()
    ∧ HandleOpen (Fs.file_write s h data).2 p fid h mode (buf ++ data) (buf ++ data).length
        prev := by
  obtain ⟨hp, hfr, hpv, hres, hh, e, he, hof, hnm, hprev, hl1⟩ := ho
  rw [file_write_spec s h data ⟨false, p, mode, ⟨buf, buf.length, false⟩⟩ fid
    ⟨buf ++ data, buf.length + data.length, false⟩ hh hres (sio_write_at_end buf data)]
  refine ⟨rfl, hp, hfr, ?_, ?_, ?_, ?_⟩
  · refine parentView_transfer s
      (postWrite s fid h ⟨buf ++ data, buf.length + data.length, false⟩) p fid
      (postWrite_root s fid h _) (postWrite_stepN s fid h _) ?_ hpv
    intro i e0 he0
    by_cases hi : i = fid
    · subst hi
      rw [postWrite_getNode_self s i h _ e0 he0]
      exact ⟨_, rfl, rfl, rfl⟩
    · rw [postWrite_getNode_ne s fid h _ i hi]
      exact ⟨e0, he0, rfl, rfl⟩
  · show Fs.get_dir_entry
        (postWrite s fid h ⟨buf ++ data, buf.length + data.length, false⟩) p = some fid
    rw [get_dir_entry_congr s (postWrite s fid h ⟨buf ++ data, buf.length + data.length, false⟩)
        (postWrite_root s fid h _) (postWrite_stepN s fid h _)]
    exact hres
  · rw [List.length_append]
    show getHandle (postWrite s fid h ⟨buf ++ data, buf.length + data.length, false⟩) h
      = some ⟨false, p, mode, ⟨buf ++ data, buf.length + data.length, false⟩⟩
    rw [postWrite_getHandle_self s fid h _, hh]
    rfl
  · refine ⟨{ e with modified_time := s.clock },
      postWrite_getNode_self s fid h _ e he, hof, hnm, hprev, hl1⟩

/-- Closing a live handle commits its buffer into the node's data,
unlocks the node and restores the stale open list. -/

theorem handleOpen_close (s : FSState) (p : FPath) (fid : NodeId) (h : HandleId)
    (mode buf : Str) (pos : Nat) (prev : List HandleId)
    (ho : HandleOpen s p fid h mode buf pos prev) :
    (Fs.file_close s h).1 = .ok ()
    ∧ FileReady (Fs.file_close s h).2 p fid (some buf) := by
  obtain ⟨hp, hfr, hpv, hres, hh, e, he, hof, hnm, hprev, hl1⟩ := ho
  have hmem : h ∈ e.open_files := by
    rw [hof]
    exact List.mem_append_right _ (List.mem_singleton.mpr rfl)
  have hlkok : ¬ e.locks - 1 < 0 := by
    rw [hl1]
    decide
  rw [file_close_spec s h ⟨false, p, mode, ⟨buf, pos, false⟩⟩ fid e hh rfl rfl hres he hmem
    hlkok]
  refine ⟨rfl, hp, ?_, ?_⟩
  · refine parentView_transfer s (postClose s fid h buf) p fid (postClose_root s fid h _)
      (postClose_stepN s fid h _) ?_ hpv
    intro i e0 he0
    by_cases hi : i = fid
    · subst hi
      rw [postClose_getNode_self s i h _ e0 he0]
      exact ⟨_, rfl, rfl, rfl⟩
    · rw [postClose_getNode_ne s fid h _ i hi]
      exact ⟨e0, he0, rfl, rfl⟩
  · refine ⟨_, postClose_getNode_self s fid h buf e he, rfl, ?_, ?_⟩
    · show e.locks - 1 = 0
      rw [hl1]
      decide
    · show ∀ g, g ∈ e.open_files.erase h → g < (postClose s fid h buf).nextHandle
      rw [postClose_nextHandle, hof, List.erase_append_right _ hnm, List.erase_cons_head,
        List.append_nil]
      exact hprev

/-- Reading a live handle whose cursor is at the start returns the whole
buffer. -/

theorem handleOpen_read (s : FSState) (p : FPath) (fid : NodeId) (h : HandleId)
    (mode buf : Str) (prev : List HandleId)
    (ho : HandleOpen s p fid h mode buf 0 prev) :
    (Fs.file_readToEnd s h).1 = .ok buf := by
  obtain ⟨hp, hfr, hpv, hres, hh, e, he, hof, hnm, hprev, hl1⟩ := ho
  rw [file_readToEnd_spec s h ⟨false, p, mode, ⟨buf, 0, false⟩⟩ hh rfl]
  show Except.ok (buf.drop 0) = Except.ok buf
  rw [List.drop_zero]

/-- `open` in write mode on an absent leaf creates the file and hands
back a live handle with an empty buffer. -/

theorem open_w_new_handleOpen (s : FSState) (p : FPath) (pid : NodeId)
    (pe : DirEntry) (cs : List (String × NodeId))
    (hp : p ≠ [])
    (hpar : Fs.get_dir_entry s p.dropLast = some pid)
    (hpe : getNode s pid = some pe)
    (hkind : pe.kind = .dir)
    (hcs : pe.contents = some cs)
    (habs : lookupA (lastName p) cs = none)
    (hpidne : pid ≠ s.nextNode)
    (hfresh : getNode s s.nextNode = none) :
    (Fs.openPath s p ['w']).1 = .ok (some s.nextHandle)
    ∧ HandleOpen (Fs.openPath s p ['w']).2 p s.nextNode s.nextHandle ['w'] [] 0 [] := by
  have hgetS2pid : getNode
      { s with
        nodes := (s.nextNode, make_dir_entry .file (lastName p) s.clock) :: s.nodes
        nextNode := s.nextNode + 1
        clock := s.clock + 1 } pid = some pe := by
    unfold getNode
    show findVal ((s.nextNode, make_dir_entry .file (lastName p) s.clock) :: s.nodes) pid = some pe
    rw [findVal_cons_ne _ _ _ _ hpidne]
    exact hpe
  have hnew : getNode (wNewBase s p pid) s.nextNode
      = some (make_dir_entry .file (lastName p) s.clock) := by
    unfold wNewBase
    rw [getNode_modifyNode_ne _ _ _ _ (fun hh => hpidne hh.symm)]
    unfold getNode
    show findVal ((s.nextNode, make_dir_entry .file (lastName p) s.clock) :: s.nodes) s.nextNode
      = _
    exact findVal_cons_self _ _ _
  have hstepS2 : ∀ j c w, stepN s j c = some w →
      stepN { s with
        nodes := (s.nextNode, make_dir_entry .file (lastName p) s.clock) :: s.nodes
        nextNode := s.nextNode + 1
        clock := s.clock + 1 } j c = some w := by
    intro j c w hw
    by_cases hj : j = s.nextNode
    · subst hj
      exact absurd hw (by unfold stepN; rw [hfresh]; simp)
    · have hg : getNode { s with
          nodes := (s.nextNode, make_dir_entry .file (lastName p) s.clock) :: s.nodes
          nextNode := s.nextNode + 1
          clock := s.clock + 1 } j = getNode s j := by
        unfold getNode
        show findVal ((s.nextNode, make_dir_entry .file (lastName p) s.clock) :: s.nodes) j = _
        rw [findVal_cons_ne _ _ _ _ hj]
      unfold stepN at hw ⊢
      rw [hg]
      exact hw
  have hstepS3 : ∀ j c, stepN (wNewBase s p pid) j c
      = if j = pid ∧ c = lastName p then some s.nextNode
        else stepN { s with
          nodes := (s.nextNode, make_dir_entry .file (lastName p) s.clock) :: s.nodes
          nextNode := s.nextNode + 1
          clock := s.clock + 1 } j c :=
    stepN_modify_setA _ pid s.nextNode (lastName p) pe cs hgetS2pid hcs
  have hmono : ∀ j c w, stepN s j c = some w → stepN (wNewBase s p pid) j c = some w := by
    intro j c w hw
    rw [hstepS3 j c]
    by_cases hcase : j = pid ∧ c = lastName p
    · exact absurd hw (by
        obtain ⟨hj1, hc1⟩ := hcase
        subst hj1 hc1
        unfold stepN
        rw [hpe]
        simp only [hcs]
        rw [habs]
        simp)
    · rw [if_neg hcase]
      exact hstepS2 j c w hw
  have hparM : Fs.get_dir_entry (wNewBase s p pid) p.dropLast = some pid :=
    get_dir_entry_mono s _ (by rfl) hmono p.dropLast pid hpar
  have hgetMpid : getNode (wNewBase s p pid) pid
      = some { pe with contents := some (setA (lastName p) s.nextNode cs) } := by
    unfold wNewBase
    rw [getNode_modifyNode_self, hgetS2pid, option_map_some]
    simp only [hcs]
  have hpvM : ParentView (wNewBase s p pid) p s.nextNode :=
    ⟨pid, { pe with contents := some (setA (lastName p) s.nextNode cs) },
     setA (lastName p) s.nextNode cs, hparM, hgetMpid, hkind,
     rfl, lookupA_setA_self _ _ _⟩
  have hresM : Fs.get_dir_entry (wNewBase s p pid) p = some s.nextNode := by
    rw [get_dir_entry_split _ p hp, hparM, Option.some_bind, hstepS3]
    rw [if_pos ⟨rfl, rfl⟩]
  rw [openPath_w_new_spec s p pid pe cs hp hpar hpe hkind hcs habs hpidne hfresh]
  refine ⟨rfl, ?_⟩
  show HandleOpen (postOpen (wNewBase s p pid) s.nextNode ⟨false, p, ['w'], ⟨[], 0, false⟩⟩) p
    s.nextNode s.nextHandle ['w'] [] 0 []
  exact postOpen_handleOpen (wNewBase s p pid) p s.nextNode
    (make_dir_entry .file (lastName p) s.clock) ['w'] [] 0 hp hpvM hresM hnew rfl
    (fun g hg => absurd hg (List.not_mem_nil g))

/-! ### C4 -/

/-- C4 is false as stated: on a path whose parent directory exists but
whose leaf is an open (locked) file, the write-mode open fails with
"resource locked", so the write/close/read round-trip does not yield the
written bytes — the final read returns the stale empty content instead. -/

theorem C4_counterexample :
    Fs.isdir exW ((["f"] : FPath).dropLast) = true
    ∧ (Fs.openPath exW ["f"] ['w']).1 = .error .resourceLocked
    ∧ (Fs.file_readToEnd
        (Fs.openPath
          (Fs.file_close
            (Fs.file_write (Fs.openPath exW ["f"] ['w']).2 exW.nextHandle ['x']).2
            exW.nextHandle).2
          ["f"] ['r']).2
        (Fs.file_close
          (Fs.file_write (Fs.openPath exW ["f"] ['w']).2 exW.nextHandle ['x']).2
          exW.nextHandle).2.nextHandle).1 ≠ .ok ['x'] :=
  ⟨by decide, by decide, by decide⟩

/-- C4 (amended): for a nonempty path whose parent resolves to a
Directory, provided the leaf is either a ready (closed, unlocked) file
or absent from the parent's children mapping (with fresh arena ids),
opening in write mode, writing `b`, closing, then opening in read mode
and reading to end yields exactly `b`, every step succeeding. -/

theorem C4_write_close_read_roundtrip (s : FSState) (p : FPath) (b : Str)
    (hp : p ≠ [])
    (hcase :
      (∃ fid d, FileReady s p fid d)
      ∨ ((∃ pid pe cs, Fs.get_dir_entry s p.dropLast = some pid ∧ getNode s pid = some pe
           ∧ pe.kind = .dir ∧ pe.contents = some cs ∧ lookupA (lastName p) cs = none
           ∧ pid ≠ s.nextNode) ∧ getNode s s.nextNode = none)) :
    (Fs.openPath s p ['w']).1 = .ok (some s.nextHandle)
    ∧ (Fs.file_write (Fs.openPath s p ['w']).2 s.nextHandle b).1 = .ok ()
    ∧ (Fs.file_close (Fs.file_write (Fs.openPath s p ['w']).2 s.nextHandle b).2
        s.nextHandle).1 = .ok ()
    ∧ (Fs.openPath (Fs.file_close (Fs.file_write (Fs.openPath s p ['w']).2 s.nextHandle b).2
        s.nextHandle).2 p ['r']).1
      = .ok (some (Fs.file_close (Fs.file_write (Fs.openPath s p ['w']).2 s.nextHandle b).2
          s.nextHandle).2.nextHandle)
    ∧ (Fs.file_readToEnd
        (Fs.openPath (Fs.file_close (Fs.file_write (Fs.openPath s p ['w']).2 s.nextHandle b).2
          s.nextHandle).2 p ['r']).2
        (Fs.file_close (Fs.file_write (Fs.openPath s p ['w']).2 s.nextHandle b).2
          s.nextHandle).2.nextHandle).1 = .ok b := by
  have step1 : (Fs.openPath s p ['w']).1 = .ok (some s.nextHandle)
      ∧ ∃ fid prev, HandleOpen (Fs.openPath s p ['w']).2 p fid s.nextHandle ['w'] [] 0 prev := by
    cases hcase with
    | inl hex =>
      obtain ⟨fid, d, fr⟩ := hex
      obtain ⟨hok, prev, ho⟩ := fileReady_open_w s p fid d fr
      exact ⟨hok, fid, prev, ho⟩
    | inr hnew =>
      obtain ⟨⟨pid, pe, cs, hpar, hpe, hkind, hcs, habs, hpidne⟩, hfresh⟩ := hnew
      obtain ⟨hok, ho⟩ :=
        open_w_new_handleOpen s p pid pe cs hp hpar hpe hkind hcs habs hpidne hfresh
      exact ⟨hok, s.nextNode, [], ho⟩
  obtain ⟨hok1, fid, prev, ho1⟩ := step1
  obtain ⟨hok2, ho2'⟩ := handleOpen_write _ p fid s.nextHandle ['w'] [] prev b ho1
  have ho2 : HandleOpen (Fs.file_write (Fs.openPath s p ['w']).2 s.nextHandle b).2 p fid
      s.nextHandle ['w'] b b.length prev := ho2'
  obtain ⟨hok3, fr3⟩ := handleOpen_close _ p fid s.nextHandle ['w'] b b.length prev ho2
  obtain ⟨hok4, prev2, ho4⟩ := fileReady_open_r _ p fid (some b) fr3
  have hread := handleOpen_read _ p fid _ ['r'] b prev2 ho4
  exact ⟨hok1, hok2, hok3, hok4, hread⟩

theorem C4_witness :
    (Fs.file_readToEnd
        (Fs.openPath
          (Fs.file_close
            (Fs.file_write (Fs.openPath new_fs ["f"] ['w']).2 new_fs.nextHandle ['h', 'i']).2
            new_fs.nextHandle).2 ["f"] ['r']).2
        (Fs.file_close
          (Fs.file_write (Fs.openPath new_fs ["f"] ['w']).2 new_fs.nextHandle ['h', 'i']).2
          new_fs.nextHandle).2.nextHandle).1 = .ok ['h', 'i'] :=
  (C4_write_close_read_roundtrip new_fs ["f"] ['h', 'i'] (by decide)
    (Or.inr ⟨⟨0, ⟨.dir, "root", some [], [], none, 0, 0, 0, 0, []⟩, [],
      by decide, by decide, by decide, by decide, by decide, by decide⟩,
      by decide⟩)).2.2.2.2

/-! ### C5 -/

/-- C5: on a ready file whose committed content is `b1`, opening in
append mode seeds the buffer with `b1` and the cursor at its end, so
writing `b2`, closing, then opening in read mode and reading to end
yields exactly `b1 ++ b2`, every step succeeding. -/

theorem C5_append_roundtrip (s : FSState) (p : FPath) (fid : NodeId) (b1 b2 : Str)
    (fr : FileReady s p fid (some b1)) :
    (Fs.openPath s p ['a']).1 = .ok (some s.nextHandle)
    ∧ (Fs.file_write (Fs.openPath s p ['a']).2 s.nextHandle b2).1 = .ok ()
    ∧ (Fs.file_close (Fs.file_write (Fs.openPath s p ['a']).2 s.nextHandle b2).2
        s.nextHandle).1 = .ok ()
    ∧ (Fs.openPath (Fs.file_close (Fs.file_write (Fs.openPath s p ['a']).2 s.nextHandle b2).2
        s.nextHandle).2 p ['r']).1
      = .ok (some (Fs.file_close (Fs.file_write (Fs.openPath s p ['a']).2 s.nextHandle b2).2
          s.nextHandle).2.nextHandle)
    ∧ (Fs.file_readToEnd
        (Fs.openPath (Fs.file_close (Fs.file_write (Fs.openPath s p ['a']).2 s.nextHandle b2).2
          s.nextHandle).2 p ['r']).2
        (Fs.file_close (Fs.file_write (Fs.openPath s p ['a']).2 s.nextHandle b2).2
          s.nextHandle).2.nextHandle).1 = .ok (b1 ++ b2) := by
  obtain ⟨hok1, prev, ho1'⟩ := fileReady_open_a s p fid (some b1) fr
  have ho1 : HandleOpen (Fs.openPath s p ['a']).2 p fid s.nextHandle ['a'] b1 b1.length prev :=
    ho1'
  obtain ⟨hok2, ho2⟩ := handleOpen_write _ p fid s.nextHandle ['a'] b1 prev b2 ho1
  obtain ⟨hok3, fr3⟩ := handleOpen_close _ p fid s.nextHandle ['a'] (b1 ++ b2) (b1 ++ b2).length
    prev ho2
  obtain ⟨hok4, prev2, ho4⟩ := fileReady_open_r _ p fid (some (b1 ++ b2)) fr3
  have hread := handleOpen_read _ p fid _ ['r'] (b1 ++ b2) prev2 ho4
  exact ⟨hok1, hok2, hok3, hok4, hread⟩

theorem C5_witness :
    (Fs.file_readToEnd
        (Fs.openPath
          (Fs.file_close
            (Fs.file_write
              (Fs.openPath
                (Fs.file_close
                  (Fs.file_write (Fs.openPath new_fs ["f"] ['w']).2 0 ['h', 'i']).2 0).2
                ["f"] ['a']).2
              (Fs.file_close
                (Fs.file_write (Fs.openPath new_fs ["f"] ['w']).2 0 ['h', 'i']).2
                0).2.nextHandle ['y', 'o']).2
            (Fs.file_close
              (Fs.file_write (Fs.openPath new_fs ["f"] ['w']).2 0 ['h', 'i']).2
              0).2.nextHandle).2 ["f"] ['r']).2
        (Fs.file_close
          (Fs.file_write
            (Fs.openPath
              (Fs.file_close
                (Fs.file_write (Fs.openPath new_fs ["f"] ['w']).2 0 ['h', 'i']).2 0).2
              ["f"] ['a']).2
            (Fs.file_close
              (Fs.file_write (Fs.openPath new_fs ["f"] ['w']).2 0 ['h', 'i']).2
              0).2.nextHandle ['y', 'o']).2
          (Fs.file_close
            (Fs.file_write (Fs.openPath new_fs ["f"] ['w']).2 0 ['h', 'i']).2
            0).2.nextHandle).2.nextHandle).1 = .ok ['h', 'i', 'y', 'o'] :=
  (C5_append_roundtrip
    (Fs.file_close (Fs.file_write (Fs.openPath new_fs ["f"] ['w']).2 0 ['h', 'i']).2 0).2
    ["f"] 1 ['h', 'i'] ['y', 'o']
    ⟨by decide,
     ⟨0, ⟨.dir, "root", some [("f", 1)], [], none, 0, 0, 0, 0, []⟩, [("f", 1)],
      by decide, by decide, by decide, by decide, by decide⟩,
     ⟨⟨.file, "f", none, [], some ['h', 'i'], 0, 1, 3, 2, []⟩,
      by decide, by decide, by decide,
      fun g hg => absurd hg (List.not_mem_nil g)⟩⟩).2.2.2.2

/-! ### C2 machinery -/

theorem postClose_getHandle_self (s : FSState) (fid : NodeId) (h : HandleId) (v : Str) :
    getHandle (postClose s fid h v) h
      = (getHandle s h).map
          (fun m => { m with closed := true, mem_file := m.mem_file.closeIt }) := by
  unfold postClose
  rw [getHandle_modifyHandle_self, getHandle_modifyNode, getHandle_modifyNode,
      getHandle_modifyNode]

theorem postClose_getHandle_ne (s : FSState) (fid : NodeId) (h : HandleId) (v : Str)
    (g : HandleId) (hg : g ≠ h) : getHandle (postClose s fid h v) g = getHandle s g := by
  unfold postClose
  rw [getHandle_modifyHandle_ne _ _ _ _ hg, getHandle_modifyNode, getHandle_modifyNode,
      getHandle_modifyNode]

/-- The force-close loop of `_orphan_files`: when the node's open list
matches the snapshot, has no duplicates, carries one lock per handle,
and every listed handle is a live handle on the node's path, the loop
closes every handle, empties the open list and returns the lock count to
zero, leaving the rest of the tree untouched. -/

theorem orphanLoop_cons (s : FSState) (h : HandleId) (rest : List HandleId) (s1 : FSState)
    (hcl : Fs.file_close s h = (.ok (), s1)) :
    orphanLoop s (h :: rest) = orphanLoop s1 rest := by
  conv_lhs => unfold orphanLoop
  rw [hcl]

theorem orphanLoop_closes (hs : List HandleId) :
    ∀ (s : FSState) (p : FPath) (fid : NodeId) (e : DirEntry),
    p ≠ [] →
    Fs.get_dir_entry s p = some fid →
    getNode s fid = some e →
    e.open_files = hs →
    hs.Nodup →
    e.locks = (hs.length : Int) →
    (∀ h, h ∈ hs → ∃ mf : MemoryFile, getHandle s h = some mf ∧ mf.closed = false
       ∧ mf.mem_file.closed = false ∧ mf.path = p) →
    (orphanLoop s hs).1 = .ok ()
    ∧ (∃ e', getNode (orphanLoop s hs).2 fid = some e' ∧ e'.open_files = []
        ∧ e'.locks = 0 ∧ e'.kind = e.kind ∧ e'.contents = e.contents)
    ∧ (∀ h, h ∈ hs → ∃ mf : MemoryFile, getHandle (orphanLoop s hs).2 h = some mf
        ∧ mf.closed = true)
    ∧ (∀ g, g ∉ hs → getHandle (orphanLoop s hs).2 g = getHandle s g)
    ∧ (∀ j c, stepN (orphanLoop s hs).2 j c = stepN s j c)
    ∧ (∀ i, i ≠ fid → getNode (orphanLoop s hs).2 i = getNode s i)
    ∧ (orphanLoop s hs).2.root = s.root := by
  induction hs with
  | nil =>
    intro s p fid e hp hres he hof hnod hlk hhs
    refine ⟨rfl, ⟨e, he, hof, ?_, rfl, rfl⟩, ?_, ?_, ?_, ?_, rfl⟩
    · rw [hlk]
      rfl
    · intro h hh
      exact absurd hh (List.not_mem_nil h)
    · intro g hg
      rfl
    · intro j c
      rfl
    · intro i hi
      rfl
  | cons h rest ih =>
    intro s p fid e hp hres he hof hnod hlk hhs
    obtain ⟨mf, hh, hnc, hsio, hpath⟩ := hhs h (List.mem_cons_self h rest)
    have hmem : h ∈ e.open_files := by
      rw [hof]
      exact List.mem_cons_self h rest
    have hlkok : ¬ e.locks - 1 < 0 := by
      rw [hlk, List.length_cons]
      omega
    have hresf : Fs.get_dir_entry s mf.path = some fid := by
      rw [hpath]
      exact hres
    have hclose := file_close_spec s h mf fid e hh hnc hsio hresf he hmem hlkok
    have hcl : Fs.file_close s h = (.ok (), postClose s fid h mf.mem_file.chars) := hclose
    rw [orphanLoop_cons s h rest _ hcl]
    have hnoth : h ∉ rest := (List.nodup_cons.mp hnod).1
    have hres1 : Fs.get_dir_entry (postClose s fid h mf.mem_file.chars) p = some fid := by
      rw [get_dir_entry_congr s _ (postClose_root s fid h _) (postClose_stepN s fid h _)]
      exact hres
    have he1 := postClose_getNode_self s fid h mf.mem_file.chars e he
    have hof1 : ({ e with
        data := some mf.mem_file.chars
        open_files := e.open_files.erase h
        locks := e.locks - 1 } : DirEntry).open_files = rest := by
      show e.open_files.erase h = rest
      rw [hof]
      exact List.erase_cons_head h rest
    have hlk1 : ({ e with
        data := some mf.mem_file.chars
        open_files := e.open_files.erase h
        locks := e.locks - 1 } : DirEntry).locks = (rest.length : Int) := by
      show e.locks - 1 = (rest.length : Int)
      rw [hlk, List.length_cons]
      omega
    have hhs1 : ∀ g, g ∈ rest → ∃ mf' : MemoryFile,
        getHandle (postClose s fid h mf.mem_file.chars) g = some mf' ∧ mf'.closed = false
        ∧ mf'.mem_file.closed = false ∧ mf'.path = p := by
      intro g hg
      obtain ⟨mf', hg1, hg2, hg3, hg4⟩ := hhs g (List.mem_cons_of_mem h hg)
      refine ⟨mf', ?_, hg2, hg3, hg4⟩
      rw [postClose_getHandle_ne s fid h _ g (fun hgh => hnoth (hgh ▸ hg))]
      exact hg1
    obtain ⟨ihok, ⟨e', ihe', ihof', ihlk', ihkind', ihcont'⟩, ihclosed, ihpres, ihstep, ihnode,
      ihroot⟩ :=
      ih (postClose s fid h mf.mem_file.chars) p fid _ hp hres1 he1 hof1
        (List.Nodup.of_cons hnod) hlk1 hhs1
    refine ⟨ihok, ⟨e', ihe', ihof', ihlk', ihkind', ihcont'⟩, ?_, ?_, ?_, ?_, ?_⟩
    · intro g hg
      rcases List.mem_cons.mp hg with hgh | hgr
      · subst hgh
        refine ⟨{ mf with closed := true, mem_file := mf.mem_file.closeIt }, ?_, rfl⟩
        rw [ihpres g hnoth, postClose_getHandle_self, hh]
        rfl
      · exact ihclosed g hgr
    · intro g hg
      rw [ihpres g (fun hgr => hg (List.mem_cons_of_mem h hgr)),
          postClose_getHandle_ne s fid h _ g (fun hgh => hg (hgh ▸ List.mem_cons_self h rest))]
    · intro j c
      rw [ihstep j c]
      exact postClose_stepN s fid h _ j c
    · intro i hi
      rw [ihnode i hi]
      exact postClose_getNode_ne s fid h _ i hi
    · rw [ihroot]
      rfl

/-! ### C2 -/

/-- C2 is false as stated: at `exC2` the path `/f` resolves to a File
node with `lock_count` 1 > 0 and one open handle, yet `remove("/f")`
fails with an uncaught `ValueError` instead of succeeding — the earlier
failed rename repointed the handle's path, so the force-close commits
into the wrong node and `list.remove` does not find the handle. -/

theorem C2_counterexample :
    Fs.get_dir_entry exC2 ["f"] = some 1
    ∧ (getNode exC2 1).map (fun e => (e.kind, e.locks, e.open_files))
        = some (.file, 1, [0])
    ∧ (Fs.remove exC2 ["f"]).1 = .error .valueError :=
  ⟨by decide, by decide, by decide⟩

/-- C2 (amended): on a locked File node all of whose open handles are
live handles actually opened on that same path (no duplicates, one lock
per handle), `remove` succeeds: it force-closes every handle — each
close committing its buffer — and deletes the leaf name from the
parent's children mapping. -/

theorem C2_remove_locked_file (s : FSState) (p : FPath) (fid : NodeId) (e : DirEntry)
    (hp : p ≠ [])
    (hpv : ParentView s p fid)
    (he : getNode s fid = some e)
    (hkind : e.kind = .file)
    (hne : e.open_files ≠ [])
    (hnod : e.open_files.Nodup)
    (hlk : e.locks = (e.open_files.length : Int))
    (hhs : ∀ h, h ∈ e.open_files → ∃ mf : MemoryFile, getHandle s h = some mf
      ∧ mf.closed = false ∧ mf.mem_file.closed = false ∧ mf.path = p) :
    (Fs.remove s p).1 = .ok ()
    ∧ (∀ h, h ∈ e.open_files →
        ∃ mf : MemoryFile, getHandle (Fs.remove s p).2 h = some mf ∧ mf.closed = true)
    ∧ (∃ pid pe', Fs.get_dir_entry s p.dropLast = some pid
        ∧ getNode (Fs.remove s p).2 pid = some pe'
        ∧ ∃ cs', pe'.contents = some cs' ∧ lookupA (lastName p) cs' = none) := by
  obtain ⟨pid, pe, cs, hpar, hpe, hkinddir, hcs, hfid⟩ := hpv
  have hres : Fs.get_dir_entry s p = some fid := by
    rw [get_dir_entry_split s p hp, hpar, Option.some_bind]
    exact stepN_of_parts s pid _ fid pe cs hpe hcs hfid
  have hlked : e.islocked := by
    have hlen : 0 < e.open_files.length := List.length_pos.mpr hne
    unfold DirEntry.islocked
    rw [hlk]
    omega
  have hpidfid : pid ≠ fid := by
    intro hq
    rw [hq, he] at hpe
    injection hpe with heq
    have hpk : pe.kind = .file := heq ▸ hkind
    rw [hkinddir] at hpk
    exact NodeKind.noConfusion hpk
  obtain ⟨hok1, ⟨e', he', hof', hlk', hkind', hcont'⟩, hclosed, hpresh, hstep1, hnode1, hroot1⟩ :=
    orphanLoop_closes e.open_files s p fid e hp hres he rfl hnod hlk hhs
  have horph : (if e.islocked then Fs.orphan_files s fid
      else ((.ok (), s) : Except Err Unit × FSState))
      = (.ok (), (orphanLoop s e.open_files).2) := by
    rw [if_pos hlked]
    simp only [Fs.orphan_files, he]
    rw [← hok1]
  have hk2 : e'.kind = .file := by
    rw [hkind']
    exact hkind
  have hpar1 : Fs.get_dir_entry (orphanLoop s e.open_files).2 p.dropLast = some pid := by
    rw [get_dir_entry_congr s _ hroot1 hstep1]
    exact hpar
  have hpe1 : getNode (orphanLoop s e.open_files).2 pid = some pe := by
    rw [hnode1 pid hpidfid]
    exact hpe
  have hdel : delDict (lastName p) cs = .ok (delA (lastName p) cs) := by
    simp only [delDict, hfid]
  have hremove : Fs.remove s p
      = (.ok (), modifyNode (orphanLoop s e.open_files).2 pid (fun en =>
          match en.contents with
          | some cs2 => { en with contents := some (delA (lastName p) cs2) }
          | none => en)) := by
    simp only [Fs.remove, hres, he, horph, he', hk2, hpar1, hpe1, hcs, hdel]
  rw [hremove]
  refine ⟨rfl, ?_, pid, { pe with contents := some (delA (lastName p) cs) },
    hpar, ?_, delA (lastName p) cs, rfl, lookupA_delA_self _ _⟩
  · intro h hh
    obtain ⟨mf, hg, hcl⟩ := hclosed h hh
    exact ⟨mf, by rw [getHandle_modifyNode]; exact hg, hcl⟩
  · rw [getNode_modifyNode_self, hpe1, option_map_some]
    simp only [hcs]

theorem C2_witness :
    (Fs.remove exW ["f"]).1 = .ok ()
    ∧ (∀ h, h ∈ ((⟨.file, "f", none, [0], none, 1, 1, 1, 2, []⟩ : DirEntry)).open_files →
        ∃ mf : MemoryFile, getHandle (Fs.remove exW ["f"]).2 h = some mf ∧ mf.closed = true)
    ∧ (∃ pid pe', Fs.get_dir_entry exW ((["f"] : FPath)).dropLast = some pid
        ∧ getNode (Fs.remove exW ["f"]).2 pid = some pe'
        ∧ ∃ cs', pe'.contents = some cs' ∧ lookupA (lastName ["f"]) cs' = none) :=
  C2_remove_locked_file exW ["f"] 1 ⟨.file, "f", none, [0], none, 1, 1, 1, 2, []⟩
    (by decide)
    ⟨0, ⟨.dir, "root", some [("f", 1)], [], none, 0, 0, 0, 0, []⟩, [("f", 1)],
      by decide, by decide, by decide, by decide, by decide⟩
    (by decide) (by decide) (by decide) (by decide) (by decide)
    (fun h hh => by
      have h0 : h = 0 := List.mem_singleton.mp hh
      subst h0
      exact ⟨⟨false, ["f"], ['w'], ⟨[], 0, false⟩⟩, by decide, rfl, rfl, rfl⟩)

/-! ### Rename machinery -/

/-- Success of a handle flush: the buffer value is committed into the
node the handle's path currently resolves to. -/

theorem file_flush_spec (s : FSState) (h : HandleId) (mf : MemoryFile) (i : NodeId)
    (hh : getHandle s h = some mf)
    (hsio : mf.mem_file.closed = false)
    (hres : Fs.get_dir_entry s mf.path = some i) :
    Fs.file_flush s h
      = (.ok (), modifyNode s i (fun e => { e with data := some mf.mem_file.chars })) := by
  have hval : mf.mem_file.getvalue = .ok mf.mem_file.chars := by
    unfold Sio.getvalue
    rw [hsio]
    rfl
  simp only [Fs.file_flush, Fs.on_flush_memory_file, hh, hval, hres]

theorem renameFlushLoop_cons (s : FSState) (dst : FPath) (h : HandleId)
    (rest : List HandleId) (s1 : FSState)
    (hfl : Fs.file_flush s h = (.ok (), s1)) :
    renameFlushLoop s dst (h :: rest)
      = renameFlushLoop (modifyHandle s1 h (fun m => { m with path := dst })) dst rest := by
  conv_lhs => unfold renameFlushLoop
  rw [hfl]

theorem postFlush_root (s : FSState) (n : NodeId) (h : HandleId) (dst : FPath) (v : Str) :
    (postFlush s n h dst v).root = s.root := rfl

theorem postFlush_stepN (s : FSState) (n : NodeId) (h : HandleId) (dst : FPath) (v : Str)
    (j : NodeId) (c : String) : stepN (postFlush s n h dst v) j c = stepN s j c := by
  unfold postFlush
  rw [stepN_modifyHandle,
      stepN_modifyNode_keep _ n (fun e => { e with data := some v }) (fun e => rfl)]

theorem postFlush_getHandle_self (s : FSState) (n : NodeId) (h : HandleId) (dst : FPath)
    (v : Str) : getHandle (postFlush s n h dst v) h
      = (getHandle s h).map (fun m => { m with path := dst }) := by
  unfold postFlush
  rw [getHandle_modifyHandle_self, getHandle_modifyNode]

theorem postFlush_getHandle_ne (s : FSState) (n : NodeId) (h : HandleId) (dst : FPath)
    (v : Str) (g : HandleId) (hg : g ≠ h) :
    getHandle (postFlush s n h dst v) g = getHandle s g := by
  unfold postFlush
  rw [getHandle_modifyHandle_ne _ _ _ _ hg, getHandle_modifyNode]

theorem postFlush_getNode_self (s : FSState) (n : NodeId) (h : HandleId) (dst : FPath)
    (v : Str) (e : DirEntry) (he : getNode s n = some e) :
    getNode (postFlush s n h dst v) n = some { e with data := some v } := by
  unfold postFlush
  rw [getNode_modifyHandle, getNode_modifyNode_self, he]
  rfl

theorem postFlush_getNode_ne (s : FSState) (n : NodeId) (h : HandleId) (dst : FPath)
    (v : Str) (i : NodeId) (hi : i ≠ n) :
    getNode (postFlush s n h dst v) i = getNode s i := by
  unfold postFlush
  rw [getNode_modifyHandle, getNode_modifyNode_ne _ _ _ _ hi]

theorem renameFlushLoop_consP (s : FSState) (dst : FPath) (h : HandleId)
    (rest : List HandleId) (n : NodeId) (v : Str)
    (hfl : Fs.file_flush s h = (.ok (), modifyNode s n (fun e => { e with data := some v }))) :
    renameFlushLoop s dst (h :: rest) = renameFlushLoop (postFlush s n h dst v) dst rest := by
  unfold postFlush
  conv_lhs => unfold renameFlushLoop
  rw [hfl]

theorem getLast_some_mem {α : Type} :
    ∀ (l : List α) (a : α), l.getLast? = some a → a ∈ l := by
  intro l
  induction l with
  | nil =>
    intro a ha
    cases ha
  | cons x t ihh =>
    intro a ha
    cases t with
    | nil =>
      cases ha
      exact List.mem_singleton.mpr rfl
    | cons y u =>
      rw [List.getLast?_cons_cons] at ha
      exact List.mem_cons_of_mem x (ihh a ha)

/-- The flush-and-repoint loop of `rename`: on a node whose listed
handles are live, distinct and recorded at `src` (which resolves to the
node), the loop succeeds, repoints every listed handle to `dst`,
commits the last handle's buffer into the node's data, and leaves the
rest of the state untouched. -/

theorem renameFlushLoop_spec (hs : List HandleId) :
    ∀ (s : FSState) (src dst : FPath) (n : NodeId),
    Fs.get_dir_entry s src = some n →
    hs.Nodup →
    (∀ h, h ∈ hs → ∃ mf : MemoryFile, getHandle s h = some mf ∧ mf.path = src
       ∧ mf.mem_file.closed = false) →
    (renameFlushLoop s dst hs).1 = .ok ()
    ∧ (∀ h, h ∈ hs → ∃ mf' : MemoryFile,
        getHandle (renameFlushLoop s dst hs).2 h = some mf' ∧ mf'.path = dst)
    ∧ (∀ g, g ∉ hs → getHandle (renameFlushLoop s dst hs).2 g = getHandle s g)
    ∧ (∀ j c, stepN (renameFlushLoop s dst hs).2 j c = stepN s j c)
    ∧ (∀ i, i ≠ n → getNode (renameFlushLoop s dst hs).2 i = getNode s i)
    ∧ (∀ e, getNode s n = some e → ∃ e', getNode (renameFlushLoop s dst hs).2 n = some e'
        ∧ e'.kind = e.kind ∧ e'.contents = e.contents ∧ e'.open_files = e.open_files
        ∧ e'.locks = e.locks ∧ e'.xattrs = e.xattrs ∧ e'.name = e.name
        ∧ (hs = [] → e'.data = e.data)
        ∧ (∀ hl, hs.getLast? = some hl → ∃ mf : MemoryFile, getHandle s hl = some mf
            ∧ e'.data = some mf.mem_file.chars))
    ∧ (renameFlushLoop s dst hs).2.root = s.root := by
  induction hs with
  | nil =>
    intro s src dst n hres hnod hhs
    refine ⟨rfl, ?_, ?_, ?_, ?_, ?_, rfl⟩
    · intro h hh
      exact absurd hh (List.not_mem_nil h)
    · intro g hg
      rfl
    · intro j c
      rfl
    · intro i hi
      rfl
    · intro e he
      exact ⟨e, he, rfl, rfl, rfl, rfl, rfl, rfl, fun _ => rfl,
        fun hl hq => by cases hq⟩
  | cons h rest ih =>
    intro s src dst n hres hnod hhs
    obtain ⟨mf, hh, hpath, hsio⟩ := hhs h (List.mem_cons_self h rest)
    have hresf : Fs.get_dir_entry s mf.path = some n := by
      rw [hpath]
      exact hres
    have hfl := file_flush_spec s h mf n hh hsio hresf
    rw [renameFlushLoop_consP s dst h rest n mf.mem_file.chars hfl]
    have hnoth : h ∉ rest := (List.nodup_cons.mp hnod).1
    have hres1 : Fs.get_dir_entry (postFlush s n h dst mf.mem_file.chars) src = some n := by
      rw [get_dir_entry_congr s _ (postFlush_root s n h dst _)
          (postFlush_stepN s n h dst _)]
      exact hres
    have hhs1 : ∀ g, g ∈ rest → ∃ mf' : MemoryFile,
        getHandle (postFlush s n h dst mf.mem_file.chars) g = some mf' ∧ mf'.path = src
        ∧ mf'.mem_file.closed = false := by
      intro g hg
      obtain ⟨mf', hg1, hg2, hg3⟩ := hhs g (List.mem_cons_of_mem h hg)
      refine ⟨mf', ?_, hg2, hg3⟩
      rw [postFlush_getHandle_ne s n h dst _ g (fun hgh => hnoth (hgh ▸ hg))]
      exact hg1
    obtain ⟨ihok, ihdst, ihpres, ihstep, ihnode, ihself, ihroot⟩ :=
      ih (postFlush s n h dst mf.mem_file.chars) src dst n hres1
        (List.Nodup.of_cons hnod) hhs1
    refine ⟨ihok, ?_, ?_, ?_, ?_, ?_, ?_⟩
    · intro g hg
      rcases List.mem_cons.mp hg with hgh | hgr
      · subst hgh
        refine ⟨{ mf with path := dst }, ?_, rfl⟩
        rw [ihpres g hnoth, postFlush_getHandle_self, hh]
        rfl
      · exact ihdst g hgr
    · intro g hg
      rw [ihpres g (fun hgr => hg (List.mem_cons_of_mem h hgr)),
          postFlush_getHandle_ne s n h dst _ g
            (fun hgh => hg (hgh ▸ List.mem_cons_self h rest))]
    · intro j c
      rw [ihstep j c]
      exact postFlush_stepN s n h dst _ j c
    · intro i hi
      rw [ihnode i hi]
      exact postFlush_getNode_ne s n h dst _ i hi
    · intro e he
      have he1 := postFlush_getNode_self s n h dst mf.mem_file.chars e he
      obtain ⟨e', he', hk', hc', ho', hl', hx', hn', hnil', hlast'⟩ := ihself _ he1
      refine ⟨e', he', hk', hc', ho', hl', hx', hn',
        fun hq => absurd hq (List.cons_ne_nil h rest), ?_⟩
      intro hl hq
      cases rest with
      | nil =>
        cases hq
        refine ⟨mf, hh, ?_⟩
        rw [hnil' rfl]
      | cons a t =>
        rw [List.getLast?_cons_cons] at hq
        obtain ⟨mf2, hg2, hd2⟩ := hlast' hl hq
        have hlm : hl ∈ a :: t := getLast_some_mem (a :: t) hl hq
        refine ⟨mf2, ?_, hd2⟩
        rw [← postFlush_getHandle_ne s n h dst mf.mem_file.chars hl
            (fun hgh => hnoth (hgh ▸ hlm))]
        exact hg2
    · rw [ihroot]
      rfl

/-! ### C10 -/

set_option maxRecDepth 2000 in

/-- C10: when both `src` and `dst` resolve, `rename` fails with
destination-exists, but only after mutating state: every handle open on
`src` has been flushed — the last one's buffer is committed into the
`src` node's data — and every such handle's recorded path now reads
`dst`. -/

theorem C10_rename_existing_dst (s : FSState) (src dst : FPath) (n m : NodeId) (e : DirEntry)
    (hres : Fs.get_dir_entry s src = some n)
    (he : getNode s n = some e)
    (hdst : Fs.get_dir_entry s dst = some m)
    (hnod : e.open_files.Nodup)
    (hhs : ∀ h, h ∈ e.open_files → ∃ mf : MemoryFile, getHandle s h = some mf
      ∧ mf.path = src ∧ mf.mem_file.closed = false) :
    (Fs.rename s src dst).1 = .error .destinationExists
    ∧ (∀ h, h ∈ e.open_files → ∃ mf' : MemoryFile,
        getHandle (Fs.rename s src dst).2 h = some mf' ∧ mf'.path = dst)
    ∧ (∀ hl, e.open_files.getLast? = some hl → ∃ mf : MemoryFile,
        getHandle s hl = some mf ∧ ∃ e', getNode (Fs.rename s src dst).2 n = some e'
          ∧ e'.data = some mf.mem_file.chars) := by
  obtain ⟨lok, ldst, lpres, lstep, lnode, lself, lroot⟩ :=
    renameFlushLoop_spec e.open_files s src dst n hres hnod hhs
  have hdst1 : Fs.get_dir_entry (renameFlushLoop s dst e.open_files).2 dst = some m := by
    rw [get_dir_entry_congr s _ lroot lstep]
    exact hdst
  generalize hgen : (renameFlushLoop s dst e.open_files).2 = s1 at ldst lself hdst1
  have hpair : renameFlushLoop s dst e.open_files = (.ok (), s1) := by
    rw [← lok, ← hgen]
  have hrn : Fs.rename s src dst = (.error .destinationExists, s1) := by
    simp only [Fs.rename, hres, he, hpair, hdst1]
  rw [hrn]
  refine ⟨rfl, ldst, ?_⟩
  intro hl hq
  obtain ⟨e', he', hk', hc', ho', hlk', hx', hn', hnil', hlast'⟩ := lself e he
  obtain ⟨mf, hg, hd⟩ := hlast' hl hq
  exact ⟨mf, hg, e', he', hd⟩

theorem C10_witness :
    (Fs.rename exC10 ["f"] ["g"]).1 = .error .destinationExists
    ∧ (∀ h, h ∈ ((⟨.file, "f", none, [0], none, 1, 1, 3, 2, []⟩ : DirEntry)).open_files →
        ∃ mf' : MemoryFile,
          getHandle (Fs.rename exC10 ["f"] ["g"]).2 h = some mf' ∧ mf'.path = ["g"])
    ∧ (∀ hl, ((⟨.file, "f", none, [0], none, 1, 1, 3, 2, []⟩ : DirEntry)).open_files.getLast?
          = some hl →
        ∃ mf : MemoryFile, getHandle exC10 hl = some mf
          ∧ ∃ e', getNode (Fs.rename exC10 ["f"] ["g"]).2 1 = some e'
              ∧ e'.data = some mf.mem_file.chars) :=
  C10_rename_existing_dst exC10 ["f"] ["g"] 1 2 ⟨.file, "f", none, [0], none, 1, 1, 3, 2, []⟩
    (by decide) (by decide) (by decide) (by decide)
    (fun h hh => by
      have h0 : h = 0 := List.mem_singleton.mp hh
      subst h0
      exact ⟨⟨false, ["f"], ['w'], ⟨['z'], 1, false⟩⟩, by decide, rfl, rfl⟩)

theorem dropLast_lastName_eq (p : FPath) (hp : p ≠ []) : p.dropLast ++ [lastName p] = p := by
  have h2 : lastName p = p.getLast hp := by
    unfold lastName
    rw [List.getLast?_eq_getLast p hp]
    rfl
  rw [h2]
  exact List.dropLast_append_getLast hp

set_option maxRecDepth 4000 in

/-- The success path of `rename`: with `src` resolving, `dst` absent,
both parents resolving with children mappings, and no open handles on
the moved node, `rename` returns the four-stage modified state: link
the node under the destination name, rename it, merge the source
parent's xattrs into the destination parent, and unlink the source
name. -/

theorem rename_ok_spec (s : FSState) (src dst : FPath) (n sp dp : NodeId)
    (spe pde e : DirEntry) (scs dcs : List (String × NodeId))
    (hsrcne : src ≠ [])
    (hsp : Fs.get_dir_entry s src.dropLast = some sp)
    (hspe : getNode s sp = some spe)
    (hscs : spe.contents = some scs)
    (hchild : lookupA (lastName src) scs = some n)
    (he : getNode s n = some e)
    (hof : e.open_files = [])
    (hdstnone : Fs.get_dir_entry s dst = none)
    (hdp : Fs.get_dir_entry s dst.dropLast = some dp)
    (hpde : getNode s dp = some pde)
    (hdcs : pde.contents = some dcs)
    (hnsp : n ≠ sp) (hndp : n ≠ dp)
    (hnm : sp = dp → lastName src ≠ lastName dst) :
    Fs.rename s src dst
      = (.ok (), modifyNode
          (modifyNode
            (modifyNode
              (modifyNode s dp (fun en =>
                match en.contents with
                | some cs2 => { en with contents := some (setA (lastName dst) n cs2) }
                | none => en))
              n (fun en => { en with name := lastName dst }))
            dp (fun en => { en with xattrs := updateX en.xattrs spe.xattrs }))
          sp (fun en =>
            match en.contents with
            | some cs2 => { en with contents := some (delA (lastName src) cs2) }
            | none => en)) := by
  have hstepsrc : stepN s sp (lastName src) = some n :=
    stepN_of_parts s sp _ n spe scs hspe hscs hchild
  have hres : Fs.get_dir_entry s src = some n := by
    rw [get_dir_entry_split s src hsrcne, hsp, Option.some_bind]
    exact hstepsrc
  have hloopnil : renameFlushLoop s dst e.open_files = (.ok (), s) := by
    rw [hof]
    rfl
  have hstep2' : stepN (modifyNode s dp (fun en =>
      match en.contents with
      | some cs2 => { en with contents := some (setA (lastName dst) n cs2) }
      | none => en)) dp (lastName dst) = some n := by
    rw [stepN_modify_setA s dp n (lastName dst) pde dcs hpde hdcs]
    rw [if_pos ⟨rfl, rfl⟩]
  by_cases hspdp : sp = dp
  · subst hspdp
    have hpspe : pde = spe := by
      have hq := hpde
      rw [hspe] at hq
      injection hq with hq2
      exact hq2.symm
    subst hpspe
    have hdscs : dcs = scs := by
      have hq := hdcs
      rw [hscs] at hq
      injection hq with hq2
      exact hq2.symm
    subst hdscs
    have hspe4 : getNode
        (modifyNode
          (modifyNode
            (modifyNode s sp (fun en =>
              match en.contents with
              | some cs2 => { en with contents := some (setA (lastName dst) n cs2) }
              | none => en))
            n (fun en => { en with name := lastName dst }))
          sp (fun en => { en with xattrs := updateX en.xattrs pde.xattrs })) sp
        = some { pde with
            contents := some (setA (lastName dst) n dcs)
            xattrs := updateX pde.xattrs pde.xattrs } := by
      rw [getNode_modifyNode_self,
          getNode_modifyNode_ne _ _ _ _ (fun hq => hnsp hq.symm),
          getNode_modifyNode_self, hspe, option_map_some, option_map_some]
      simp only [hscs]
    have hlook4 : lookupA (lastName src) (setA (lastName dst) n dcs) = some n := by
      rw [lookupA_setA_ne _ _ _ _ (hnm rfl)]
      exact hchild
    have hdel : delDict (lastName src) (setA (lastName dst) n dcs)
        = .ok (delA (lastName src) (setA (lastName dst) n dcs)) := by
      simp only [delDict, hlook4]
    simp only [Fs.rename, hres, he, hloopnil, hdstnone, hsp, hspe, hdp, hpde, hscs, hchild,
      hstep2', hspe4, hdel]
  · have hspe4 : getNode
        (modifyNode
          (modifyNode
            (modifyNode s dp (fun en =>
              match en.contents with
              | some cs2 => { en with contents := some (setA (lastName dst) n cs2) }
              | none => en))
            n (fun en => { en with name := lastName dst }))
          dp (fun en => { en with xattrs := updateX en.xattrs spe.xattrs })) sp
        = some spe := by
      rw [getNode_modifyNode_ne _ _ _ _ hspdp,
          getNode_modifyNode_ne _ _ _ _ (fun hq => hnsp hq.symm),
          getNode_modifyNode_ne _ _ _ _ hspdp]
      exact hspe
    have hdel : delDict (lastName src) scs = .ok (delA (lastName src) scs) := by
      simp only [delDict, hchild]
    simp only [Fs.rename, hres, he, hloopnil, hdstnone, hsp, hspe, hdp, hpde, hscs, hchild,
      hdcs, hstep2', hspe4, hdel]

/-- Resolution steps after a successful `rename`: the source edge is
gone, the destination edge maps to the moved node, and every other edge
is unchanged. -/

theorem rename_final_stepN (s : FSState) (src dst : FPath) (n sp dp : NodeId)
    (spe pde : DirEntry) (scs dcs : List (String × NodeId))
    (hspe : getNode s sp = some spe)
    (hscs : spe.contents = some scs)
    (hpde : getNode s dp = some pde)
    (hdcs : pde.contents = some dcs)
    (hnsp : n ≠ sp) (hndp : n ≠ dp) :
    ∀ j c, stepN (modifyNode
        (modifyNode
          (modifyNode
            (modifyNode s dp (fun en =>
              match en.contents with
              | some cs2 => { en with contents := some (setA (lastName dst) n cs2) }
              | none => en))
            n (fun en => { en with name := lastName dst }))
          dp (fun en => { en with xattrs := updateX en.xattrs spe.xattrs }))
        sp (fun en =>
          match en.contents with
          | some cs2 => { en with contents := some (delA (lastName src) cs2) }
          | none => en)) j c
      = if j = sp ∧ c = lastName src then none
        else if j = dp ∧ c = lastName dst then some n
        else stepN s j c := by
  have hX : ∃ X cs4, getNode
      (modifyNode
        (modifyNode
          (modifyNode s dp (fun en =>
            match en.contents with
            | some cs2 => { en with contents := some (setA (lastName dst) n cs2) }
            | none => en))
          n (fun en => { en with name := lastName dst }))
        dp (fun en => { en with xattrs := updateX en.xattrs spe.xattrs })) sp = some X
      ∧ X.contents = some cs4 := by
    by_cases hspdp : sp = dp
    · rw [hspdp]
      rw [getNode_modifyNode_self,
          getNode_modifyNode_ne _ _ _ _ (fun hq => hndp hq.symm),
          getNode_modifyNode_self, hpde, option_map_some, option_map_some]
      simp only [hdcs]
      exact ⟨_, setA (lastName dst) n dcs, rfl, rfl⟩
    · rw [getNode_modifyNode_ne _ _ _ _ hspdp,
          getNode_modifyNode_ne _ _ _ _ (fun hq => hnsp hq.symm),
          getNode_modifyNode_ne _ _ _ _ hspdp, hspe]
      exact ⟨spe, scs, rfl, hscs⟩
  obtain ⟨X, cs4, hXg, hXc⟩ := hX
  have hdel := stepN_modify_delA _ sp (lastName src) X cs4 hXg hXc
  intro j c
  rw [hdel j c]
  by_cases h1 : j = sp ∧ c = lastName src
  · rw [if_pos h1, if_pos h1]
  · rw [if_neg h1, if_neg h1]
    rw [stepN_modifyNode_keep _ dp (fun en => { en with xattrs := updateX en.xattrs spe.xattrs })
          (fun e => rfl),
        stepN_modifyNode_keep _ n (fun en => { en with name := lastName dst }) (fun e => rfl)]
    exact stepN_modify_setA s dp n (lastName dst) pde dcs hpde hdcs j c

/-! ### C7 -/

/-- C7 is false as stated: renaming `/a` into its own subtree `/a/b`
satisfies the claim's premises (source resolves, destination does not)
and `rename` reports success, yet afterwards the destination does not
resolve at all (and neither does the source) — the node is orphaned, so
nothing is "preserved at dst". -/

theorem C7_counterexample :
    Fs.get_dir_entry exC7 ["a"] = some 1
    ∧ Fs.get_dir_entry exC7 ["a", "b"] = none
    ∧ (Fs.rename exC7 ["a"] ["a", "b"]).1 = .ok ()
    ∧ Fs.get_dir_entry (Fs.rename exC7 ["a"] ["a", "b"]).2 ["a", "b"] = none
    ∧ Fs.get_dir_entry (Fs.rename exC7 ["a"] ["a", "b"]).2 ["a"] = none :=
  ⟨by decide, by decide, by decide, by decide, by decide⟩

/-- C7 (amended): in a well-formed tree, when `src` resolves, `dst` does
not, `dst` is not inside `src`'s subtree, both parents resolve to nodes
with children mappings, and the moved node has no open handles, `rename`
succeeds; afterwards `src` no longer resolves, `dst` resolves to the
original node, and that node keeps its data and extended attributes with
its stored name updated to `dst`'s leaf name. -/

theorem C7_rename_moves_node (s : FSState) (src dst : FPath) (n sp dp : NodeId)
    (spe pde e : DirEntry) (scs dcs : List (String × NodeId))
    (huT : UniqueTree s)
    (hsrcne : src ≠ []) (hdstne : dst ≠ [])
    (hsp : Fs.get_dir_entry s src.dropLast = some sp)
    (hspe : getNode s sp = some spe)
    (hscs : spe.contents = some scs)
    (hchild : lookupA (lastName src) scs = some n)
    (he : getNode s n = some e)
    (hof : e.open_files = [])
    (hdstnone : Fs.get_dir_entry s dst = none)
    (hdp : Fs.get_dir_entry s dst.dropLast = some dp)
    (hpde : getNode s dp = some pde)
    (hdcs : pde.contents = some dcs)
    (hnotsub : ¬ pathLe src dst) :
    (Fs.rename s src dst).1 = .ok ()
    ∧ Fs.get_dir_entry (Fs.rename s src dst).2 dst = some n
    ∧ Fs.get_dir_entry (Fs.rename s src dst).2 src = none
    ∧ getNode (Fs.rename s src dst).2 n = some { e with name := lastName dst } := by
  have hstepsrc : stepN s sp (lastName src) = some n :=
    stepN_of_parts s sp _ n spe scs hspe hscs hchild
  have hres : Fs.get_dir_entry s src = some n := by
    rw [get_dir_entry_split s src hsrcne, hsp, Option.some_bind]
    exact hstepsrc
  have hstepdn : stepN s dp (lastName dst) = none := by
    have hq := hdstnone
    rw [get_dir_entry_split s dst hdstne, hdp, Option.some_bind] at hq
    exact hq
  have hnsp : n ≠ sp := by
    intro hq
    have h2 : Fs.get_dir_entry s src.dropLast = some n := by
      rw [hq]
      exact hsp
    have h3 : src = src.dropLast := resolve_unique s huT src src.dropLast n hres h2
    have h4 := congrArg List.length h3
    rw [List.length_dropLast] at h4
    have h5 : 0 < src.length := List.length_pos.mpr hsrcne
    omega
  have hndp : n ≠ dp := by
    intro hq
    have h2 : Fs.get_dir_entry s dst.dropLast = some n := by
      rw [hq]
      exact hdp
    have h3 : src = dst.dropLast := resolve_unique s huT src dst.dropLast n hres h2
    exact hnotsub ⟨[lastName dst], by rw [h3]; exact dropLast_lastName_eq dst hdstne⟩
  have hnm : sp = dp → lastName src ≠ lastName dst := by
    intro hq hname
    have h2 : stepN s dp (lastName dst) = some n := by
      rw [← hq, ← hname]
      exact hstepsrc
    rw [hstepdn] at h2
    exact Option.noConfusion h2
  have hrn : Fs.rename s src dst = (.ok (), renFinal s src dst n sp dp spe.xattrs) :=
    rename_ok_spec s src dst n sp dp spe pde e scs dcs hsrcne hsp hspe hscs hchild
      he hof hdstnone hdp hpde hdcs hnsp hndp hnm
  have hstepF : ∀ j c, stepN (renFinal s src dst n sp dp spe.xattrs) j c
      = if j = sp ∧ c = lastName src then none
        else if j = dp ∧ c = lastName dst then some n
        else stepN s j c :=
    rename_final_stepN s src dst n sp dp spe pde scs dcs hspe hscs hpde hdcs hnsp hndp
  have hsfun : ∀ i c w, stepN s i c = some w → ¬ (i = sp ∧ c = lastName src) →
      stepN (renFinal s src dst n sp dp spe.xattrs) i c = some w := by
    intro i c w hw hbad
    rw [hstepF i c, if_neg hbad]
    by_cases h2 : i = dp ∧ c = lastName dst
    · exfalso
      have h3 := hw
      rw [h2.1, h2.2, hstepdn] at h3
      exact Option.noConfusion h3
    · rw [if_neg h2]
      exact hw
  have hFdstdir := get_dir_entry_frame s (renFinal s src dst n sp dp spe.xattrs)
    (fun i c => i = sp ∧ c = lastName src) dst.dropLast rfl hsfun
    (by
      intro pre c u hle hresu
      rintro ⟨hu1, hc1⟩
      subst hu1 hc1
      have hpre : pre = src.dropLast := resolve_unique s huT pre src.dropLast u hresu hsp
      rw [hpre, dropLast_lastName_eq src hsrcne] at hle
      exact hnotsub (pathLe_trans _ _ _ hle (pathLe_dropLast dst)))
    dp hdp
  have hFsrcdir := get_dir_entry_frame s (renFinal s src dst n sp dp spe.xattrs)
    (fun i c => i = sp ∧ c = lastName src) src.dropLast rfl hsfun
    (by
      intro pre c u hle hresu
      rintro ⟨hu1, hc1⟩
      subst hu1 hc1
      have hpre : pre = src.dropLast := resolve_unique s huT pre src.dropLast u hresu hsp
      rw [hpre, dropLast_lastName_eq src hsrcne] at hle
      obtain ⟨t, ht⟩ := hle
      have h4 := congrArg List.length ht
      rw [List.length_append, List.length_dropLast] at h4
      have h5 : 0 < src.length := List.length_pos.mpr hsrcne
      omega)
    sp hsp
  rw [hrn]
  refine ⟨rfl, ?_, ?_, ?_⟩
  · show Fs.get_dir_entry (renFinal s src dst n sp dp spe.xattrs) dst = some n
    rw [get_dir_entry_split _ dst hdstne, hFdstdir, Option.some_bind, hstepF]
    rw [if_neg (by
      rintro ⟨ha, hb⟩
      exact hnm ha.symm hb.symm)]
    rw [if_pos ⟨rfl, rfl⟩]
  · show Fs.get_dir_entry (renFinal s src dst n sp dp spe.xattrs) src = none
    rw [get_dir_entry_split _ src hsrcne, hFsrcdir, Option.some_bind, hstepF]
    rw [if_pos ⟨rfl, rfl⟩]
  · show getNode (renFinal s src dst n sp dp spe.xattrs) n = some { e with name := lastName dst }
    unfold renFinal
    rw [getNode_modifyNode_ne _ _ _ _ hnsp,
        getNode_modifyNode_ne _ _ _ _ hndp,
        getNode_modifyNode_self,
        getNode_modifyNode_ne _ _ _ _ hndp, he]
    rfl

theorem C7_witness :
    (Fs.rename exC7W ["f"] ["d", "g"]).1 = .ok ()
    ∧ Fs.get_dir_entry (Fs.rename exC7W ["f"] ["d", "g"]).2 ["d", "g"] = some 1
    ∧ Fs.get_dir_entry (Fs.rename exC7W ["f"] ["d", "g"]).2 ["f"] = none
    ∧ getNode (Fs.rename exC7W ["f"] ["d", "g"]).2 1
        = some { (⟨.file, "f", none, [], some [], 0, 1, 1, 2, []⟩ : DirEntry) with
            name := lastName ["d", "g"] } :=
  C7_rename_moves_node exC7W ["f"] ["d", "g"] 1 0 2
    ⟨.dir, "root", some [("d", 2), ("f", 1)], [], none, 0, 0, 0, 0, []⟩
    ⟨.dir, "d", some [], [], none, 0, 3, 3, 3, []⟩
    ⟨.file, "f", none, [], some [], 0, 1, 1, 2, []⟩
    [("d", 2), ("f", 1)] []
    (by decide) (by decide) (by decide) (by decide) (by decide) (by decide) (by decide)
    (by decide) (by decide) (by decide) (by decide) (by decide) (by decide) (by decide)

/-! ### C8 -/

theorem lookupA_cons {α : Type} (k k' : String) (v : α) (l : List (String × α)) :
    lookupA k ((k', v) :: l) = if k = k' then some v else lookupA k l := rfl

theorem lookupA_none_of_keys {α : Type} (k : String) :
    ∀ (l : List (String × α)), k ∉ l.map Prod.fst → lookupA k l = none := by
  intro l
  induction l with
  | nil =>
    intro _
    rfl
  | cons ab t ih =>
    obtain ⟨a, b⟩ := ab
    intro hk
    rw [List.map_cons] at hk
    rw [lookupA_cons,
        if_neg (fun hq => hk (by rw [hq]; exact List.mem_cons_self a (t.map Prod.fst)))]
    exact ih (fun hq => hk (List.mem_cons_of_mem a hq))

/-- `dict.update`: a key present in the update source wins; otherwise
the original binding survives. -/

theorem lookupA_updateX (src : List (String × Str)) :
    ∀ (d : List (String × Str)) (k : String),
    (src.map Prod.fst).Nodup →
    lookupA k (updateX d src)
      = match lookupA k src with
        | some v => some v
        | none => lookupA k d := by
  induction src with
  | nil =>
    intro d k _
    rfl
  | cons ab t ih =>
    obtain ⟨a, b⟩ := ab
    intro d k hnd
    rw [List.map_cons] at hnd
    have hstep : updateX d ((a, b) :: t) = updateX (setA a b d) t := rfl
    rw [hstep, ih (setA a b d) k (List.Nodup.of_cons hnd)]
    by_cases hk : k = a
    · have hnt : lookupA k t = none := by
        apply lookupA_none_of_keys
        rw [hk]
        exact (List.nodup_cons.mp hnd).1
      simp only [hnt, lookupA_cons, if_pos hk]
      rw [hk]
      exact lookupA_setA_self a b d
    · simp only [lookupA_cons, if_neg hk, lookupA_setA_ne a k b d hk]

/-- The destination parent's entry after a successful `rename`: its
extended attributes are the `dict.update` merge of the source parent's
into its own. -/

theorem renFinal_getNode_dp (s : FSState) (src dst : FPath) (n sp dp : NodeId)
    (pde : DirEntry) (dcs : List (String × NodeId)) (sx : List (String × Str))
    (hpde : getNode s dp = some pde) (hdcs : pde.contents = some dcs)
    (hndp : n ≠ dp) :
    ∃ pde', getNode (renFinal s src dst n sp dp sx) dp = some pde'
      ∧ pde'.xattrs = updateX pde.xattrs sx := by
  unfold renFinal
  by_cases hspdp : sp = dp
  · rw [hspdp]
    rw [getNode_modifyNode_self, getNode_modifyNode_self,
        getNode_modifyNode_ne _ _ _ _ (fun hq => hndp hq.symm),
        getNode_modifyNode_self, hpde, option_map_some, option_map_some, option_map_some]
    simp only [hdcs]
    exact ⟨_, rfl, rfl⟩
  · rw [getNode_modifyNode_ne _ _ _ _ (fun hq => hspdp hq.symm),
        getNode_modifyNode_self,
        getNode_modifyNode_ne _ _ _ _ (fun hq => hndp hq.symm),
        getNode_modifyNode_self, hpde, option_map_some, option_map_some]
    simp only [hdcs]
    exact ⟨_, rfl, rfl⟩

/-- C8: on a successful `rename`, the source parent directory's
extended-attribute mapping is merged into the destination parent
directory's via `dict.update`: on key conflicts, the destination's
existing value is overwritten by the source's value, and all other
destination bindings survive. -/

theorem C8_rename_xattr_merge (s : FSState) (src dst : FPath) (n sp dp : NodeId)
    (spe pde e : DirEntry) (scs dcs : List (String × NodeId))
    (huT : UniqueTree s)
    (hsrcne : src ≠ []) (hdstne : dst ≠ [])
    (hsp : Fs.get_dir_entry s src.dropLast = some sp)
    (hspe : getNode s sp = some spe)
    (hscs : spe.contents = some scs)
    (hchild : lookupA (lastName src) scs = some n)
    (he : getNode s n = some e)
    (hof : e.open_files = [])
    (hdstnone : Fs.get_dir_entry s dst = none)
    (hdp : Fs.get_dir_entry s dst.dropLast = some dp)
    (hpde : getNode s dp = some pde)
    (hdcs : pde.contents = some dcs)
    (hnotsub : ¬ pathLe src dst)
    (hxnd : (spe.xattrs.map Prod.fst).Nodup) :
    (Fs.rename s src dst).1 = .ok ()
    ∧ ∃ pde', getNode (Fs.rename s src dst).2 dp = some pde'
        ∧ ∀ k, lookupA k pde'.xattrs
            = match lookupA k spe.xattrs with
              | some v => some v
              | none => lookupA k pde.xattrs := by
  have hstepsrc : stepN s sp (lastName src) = some n :=
    stepN_of_parts s sp _ n spe scs hspe hscs hchild
  have hres : Fs.get_dir_entry s src = some n := by
    rw [get_dir_entry_split s src hsrcne, hsp, Option.some_bind]
    exact hstepsrc
  have hstepdn : stepN s dp (lastName dst) = none := by
    have hq := hdstnone
    rw [get_dir_entry_split s dst hdstne, hdp, Option.some_bind] at hq
    exact hq
  have hnsp : n ≠ sp := by
    intro hq
    have h2 : Fs.get_dir_entry s src.dropLast = some n := by
      rw [hq]
      exact hsp
    have h3 : src = src.dropLast := resolve_unique s huT src src.dropLast n hres h2
    have h4 := congrArg List.length h3
    rw [List.length_dropLast] at h4
    have h5 : 0 < src.length := List.length_pos.mpr hsrcne
    omega
  have hndp : n ≠ dp := by
    intro hq
    have h2 : Fs.get_dir_entry s dst.dropLast = some n := by
      rw [hq]
      exact hdp
    have h3 : src = dst.dropLast := resolve_unique s huT src dst.dropLast n hres h2
    exact hnotsub ⟨[lastName dst], by rw [h3]; exact dropLast_lastName_eq dst hdstne⟩
  have hnm : sp = dp → lastName src ≠ lastName dst := by
    intro hq hname
    have h2 : stepN s dp (lastName dst) = some n := by
      rw [← hq, ← hname]
      exact hstepsrc
    rw [hstepdn] at h2
    exact Option.noConfusion h2
  have hrn : Fs.rename s src dst = (.ok (), renFinal s src dst n sp dp spe.xattrs) :=
    rename_ok_spec s src dst n sp dp spe pde e scs dcs hsrcne hsp hspe hscs hchild
      he hof hdstnone hdp hpde hdcs hnsp hndp hnm
  rw [hrn]
  refine ⟨rfl, ?_⟩
  show ∃ pde', getNode (renFinal s src dst n sp dp spe.xattrs) dp = some pde'
      ∧ ∀ k, lookupA k pde'.xattrs
          = match lookupA k spe.xattrs with
            | some v => some v
            | none => lookupA k pde.xattrs
  obtain ⟨pde', hpde', hx⟩ :=
    renFinal_getNode_dp s src dst n sp dp pde dcs spe.xattrs hpde hdcs hndp
  refine ⟨pde', hpde', fun k => ?_⟩
  rw [hx]
  exact lookupA_updateX spe.xattrs pde.xattrs k hxnd

theorem C8_witness :
    (Fs.rename exC8 ["p", "x"] ["q", "y"]).1 = .ok ()
    ∧ ∃ pde', getNode (Fs.rename exC8 ["p", "x"] ["q", "y"]).2 2 = some pde'
        ∧ ∀ k, lookupA k pde'.xattrs
            = match lookupA k
                ((⟨.dir, "p", some [("x", 3)], [], none, 0, 1, 1, 1,
                  [("k1", ['a'])]⟩ : DirEntry)).xattrs with
              | some v => some v
              | none => lookupA k
                  ((⟨.dir, "q", some [], [], none, 0, 2, 2, 2,
                    [("k2", ['c']), ("k1", ['b'])]⟩ : DirEntry)).xattrs :=
  C8_rename_xattr_merge exC8 ["p", "x"] ["q", "y"] 3 1 2
    ⟨.dir, "p", some [("x", 3)], [], none, 0, 1, 1, 1, [("k1", ['a'])]⟩
    ⟨.dir, "q", some [], [], none, 0, 2, 2, 2, [("k2", ['c']), ("k1", ['b'])]⟩
    ⟨.dir, "x", some [], [], none, 0, 3, 3, 3, []⟩
    [("x", 3)] []
    (by decide) (by decide) (by decide) (by decide) (by decide) (by decide) (by decide)
    (by decide) (by decide) (by decide) (by decide) (by decide) (by decide) (by decide)
    (by decide)

/-! ### C3: the lock-count invariant -/

theorem InvL_nodes_eq (s s' : FSState) (h : s'.nodes = s.nodes) (hinv : InvL s) : InvL s' := by
  intro i e he
  rw [getNode_nodes_eq s s' h] at he
  exact hinv i e he

theorem InvL_modifyNode_keep (s : FSState) (i : NodeId) (f : DirEntry → DirEntry)
    (hf : ∀ e, (f e).locks = e.locks ∧ (f e).open_files = e.open_files)
    (hinv : InvL s) : InvL (modifyNode s i f) := by
  intro j e' he'
  by_cases hj : j = i
  · subst hj
    rw [getNode_modifyNode_self] at he'
    cases hq : getNode s j with
    | none =>
      rw [hq] at he'
      exact Option.noConfusion he'
    | some e0 =>
      rw [hq, option_map_some] at he'
      injection he' with he2
      subst he2
      rw [(hf e0).1, (hf e0).2]
      exact hinv j e0 hq
  · rw [getNode_modifyNode_ne s i j f hj] at he'
    exact hinv j e' he'

theorem InvL_addNode (s : FSState) (e0 : DirEntry)
    (h0 : e0.locks = (e0.open_files.length : Int))
    (hinv : InvL s) : InvL (addNode s e0).2 := by
  intro j e' he'
  by_cases hj : j = s.nextNode
  · subst hj
    rw [getNode_addNode_self] at he'
    injection he' with he2
    subst he2
    exact h0
  · rw [getNode_addNode_ne s e0 j hj] at he'
    exact hinv j e' he'

theorem InvL_postOpen (s : FSState) (fid : NodeId) (mf : MemoryFile)
    (hinv : InvL s) : InvL (postOpen s fid mf) := by
  intro j e' he'
  by_cases hj : j = fid
  · subst hj
    cases hq : getNode s j with
    | none =>
      unfold postOpen at he'
      rw [getNode_modifyNode_self, getNode_addHandle, getNode_modifyNode_self,
          getNode_modifyNode_self, getNode_clockSet, hq] at he'
      exact Option.noConfusion he'
    | some e0 =>
      rw [postOpen_getNode_self s j mf e0 hq] at he'
      injection he' with he2
      subst he2
      show e0.locks + 1 = ((e0.open_files ++ [s.nextHandle]).length : Int)
      rw [List.length_append, List.length_singleton]
      have h0 := hinv j e0 hq
      omega
  · rw [postOpen_getNode_ne s fid mf j hj] at he'
    exact hinv j e' he'

theorem InvL_new_fs : InvL new_fs := by
  intro i e he
  by_cases hi : i = 0
  · subst hi
    have h2 : e = make_dir_entry .dir "root" 0 := by
      have h3 : getNode new_fs 0 = some (make_dir_entry .dir "root" 0) := by decide
      rw [h3] at he
      injection he with h4
      exact h4.symm
    rw [h2]
    rfl
  · exfalso
    have h3 : getNode new_fs i = none := by
      show findVal [(0, make_dir_entry .dir "root" 0)] i = none
      unfold findVal
      rw [List.find?_cons_of_neg _ (by simp; exact fun hq => hi hq.symm), List.find?_nil]
    rw [h3] at he
    exact Option.noConfusion he

theorem InvL_setxattr (s : FSState) (p : FPath) (k : String) (v : Str) (hinv : InvL s) :
    InvL (Fs.setxattr s p k v).2 := by
  unfold Fs.setxattr
  cases hq : Fs.get_dir_entry s p with
  | none => exact hinv
  | some i => exact InvL_modifyNode_keep s i _ (fun e => ⟨rfl, rfl⟩) hinv

theorem InvL_delxattr (s : FSState) (p : FPath) (k : String) (hinv : InvL s) :
    InvL (Fs.delxattr s p k).2 := by
  unfold Fs.delxattr
  cases hq : Fs.get_dir_entry s p with
  | none => exact hinv
  | some i => exact InvL_modifyNode_keep s i _ (fun e => ⟨rfl, rfl⟩) hinv

theorem InvL_settimes (s : FSState) (p : FPath) (a m : Option Nat) (hinv : InvL s) :
    InvL (Fs.settimes s p a m).2 := by
  simp only [Fs.settimes, tick_pair]
  cases hq : Fs.get_dir_entry { s with clock := s.clock + 1 } p with
  | none => exact InvL_nodes_eq s _ rfl hinv
  | some i =>
    exact InvL_modifyNode_keep _ i _ (fun e => ⟨rfl, rfl⟩) (InvL_nodes_eq s _ rfl hinv)

theorem InvL_on_flush (s : FSState) (p : FPath) (value : Str) (hinv : InvL s) :
    InvL (Fs.on_flush_memory_file s p value).2 := by
  unfold Fs.on_flush_memory_file
  cases hq : Fs.get_dir_entry s p with
  | none => exact hinv
  | some i => exact InvL_modifyNode_keep s i _ (fun e => ⟨rfl, rfl⟩) hinv

theorem InvL_on_modify (s : FSState) (p : FPath) (hinv : InvL s) :
    InvL (Fs.on_modify_memory_file s p).2 := by
  unfold Fs.on_modify_memory_file
  cases hq : Fs.get_dir_entry s p with
  | none => exact hinv
  | some i =>
    exact InvL_modifyNode_keep _ i _ (fun e => ⟨rfl, rfl⟩) (InvL_nodes_eq s _ rfl hinv)

theorem InvL_file_flush (s : FSState) (h : HandleId) (hinv : InvL s) :
    InvL (Fs.file_flush s h).2 := by
  unfold Fs.file_flush
  cases hq : getHandle s h with
  | none => exact hinv
  | some mf =>
    dsimp only
    cases hv : mf.mem_file.getvalue with
    | error e => exact hinv
    | ok v => exact InvL_on_flush s mf.path v hinv

theorem InvL_file_write (s : FSState) (h : HandleId) (data : Str) (hinv : InvL s) :
    InvL (Fs.file_write s h data).2 := by
  unfold Fs.file_write
  cases hq : getHandle s h with
  | none => exact hinv
  | some mf =>
    dsimp only
    have h2 : InvL (Fs.on_modify_memory_file s mf.path).2 := InvL_on_modify s mf.path hinv
    cases hm : Fs.on_modify_memory_file s mf.path with
    | mk r s1 =>
      rw [hm] at h2
      cases r with
      | error e => exact h2
      | ok u =>
        cases hw : mf.mem_file.write data with
        | error e => exact h2
        | ok sio2 => exact InvL_nodes_eq _ _ rfl h2

theorem InvL_file_readToEnd (s : FSState) (h : HandleId) (hinv : InvL s) :
    InvL (Fs.file_readToEnd s h).2 := by
  unfold Fs.file_readToEnd
  cases hq : getHandle s h with
  | none => exact hinv
  | some mf =>
    dsimp only
    cases hv : mf.mem_file.readToEnd with
    | error e => exact hinv
    | ok pr =>
      cases pr with
      | mk out sio2 => exact InvL_nodes_eq _ _ rfl hinv

theorem InvL_file_seek (s : FSState) (h : HandleId) (n : Nat) (hinv : InvL s) :
    InvL (Fs.file_seek s h n).2 := by
  unfold Fs.file_seek
  cases hq : getHandle s h with
  | none => exact hinv
  | some mf =>
    dsimp only
    cases hv : mf.mem_file.seekTo n with
    | error e => exact hinv
    | ok sio2 => exact InvL_nodes_eq _ _ rfl hinv

theorem InvL_file_truncate (s : FSState) (h : HandleId) (hinv : InvL s) :
    InvL (Fs.file_truncate s h).2 := by
  unfold Fs.file_truncate
  cases hq : getHandle s h with
  | none => exact hinv
  | some mf =>
    dsimp only
    cases hv : mf.mem_file.truncateHere with
    | error e => exact hinv
    | ok sio2 => exact InvL_nodes_eq _ _ rfl hinv

theorem InvL_unlock_after_erase (s : FSState) (p : FPath) (i : NodeId) (h : HandleId)
    (e : DirEntry)
    (hg : getNode s i = some e)
    (hres : Fs.get_dir_entry s p = some i)
    (hmem : h ∈ e.open_files)
    (hinv : InvL s) :
    InvL (Fs.unlock_dir_entry
      (modifyNode s i (fun e' => { e' with open_files := e'.open_files.erase h })) p).2 := by
  have hstep2 : ∀ j c, stepN
      (modifyNode s i (fun e' => { e' with open_files := e'.open_files.erase h })) j c
      = stepN s j c := by
    intro j c
    exact stepN_modifyNode_keep s i
      (fun e' => { e' with open_files := e'.open_files.erase h }) (fun e' => rfl) j c
  have hres2 : Fs.get_dir_entry
      (modifyNode s i (fun e' => { e' with open_files := e'.open_files.erase h })) p
      = some i := by
    rw [get_dir_entry_congr s
      (modifyNode s i (fun e' => { e' with open_files := e'.open_files.erase h })) rfl hstep2]
    exact hres
  have hinvS : InvL (modifyNode
      (modifyNode s i (fun e' => { e' with open_files := e'.open_files.erase h }))
      i (fun e2 => { e2 with locks := e2.locks - 1 })) := by
    intro j e' he'
    by_cases hj : j = i
    · subst hj
      rw [getNode_modifyNode_self, getNode_modifyNode_self, hg, option_map_some,
          option_map_some] at he'
      injection he' with he2
      subst he2
      show e.locks - 1 = ((e.open_files.erase h).length : Int)
      have hlen := List.length_erase_of_mem hmem
      have hpos : 0 < e.open_files.length := List.length_pos.mpr (List.ne_nil_of_mem hmem)
      have h0 := hinv j e hg
      omega
    · rw [getNode_modifyNode_ne _ _ _ _ hj, getNode_modifyNode_ne _ _ _ _ hj] at he'
      exact hinv j e' he'
  unfold Fs.unlock_dir_entry
  rw [hres2]
  dsimp only
  cases hg2 : getNode (modifyNode
      (modifyNode s i (fun e' => { e' with open_files := e'.open_files.erase h }))
      i (fun e2 => { e2 with locks := e2.locks - 1 })) i with
  | none => exact hinvS
  | some e2 =>
    dsimp only
    by_cases hlt : e2.locks < 0
    · rw [if_pos hlt]
      exact hinvS
    · rw [if_neg hlt]
      exact hinvS

theorem InvL_file_close (s : FSState) (h : HandleId) (hinv : InvL s) :
    InvL (Fs.file_close s h).2 := by
  unfold Fs.file_close
  cases hq : getHandle s h with
  | none => exact hinv
  | some mf =>
    dsimp only
    by_cases hc : mf.closed = true
    · rw [if_pos hc]
      exact hinv
    · rw [if_neg hc]
      cases hv : mf.mem_file.getvalue with
      | error e => exact hinv
      | ok v =>
        dsimp only
        have h2 : InvL (Fs.on_close_memory_file s h mf.path (some v)).2 := by
          unfold Fs.on_close_memory_file
          cases hr : Fs.get_dir_entry s mf.path with
          | none => exact hinv
          | some i =>
            dsimp only
            have hinv1 : InvL (modifyNode s i (fun e => { e with data := some v })) :=
              InvL_modifyNode_keep s i _ (fun e => ⟨rfl, rfl⟩) hinv
            have hres1 : Fs.get_dir_entry
                (modifyNode s i (fun e => { e with data := some v })) mf.path = some i := by
              rw [get_dir_entry_congr s
                (modifyNode s i (fun e => { e with data := some v })) rfl
                (fun j c => stepN_modifyNode_keep s i
                  (fun e => { e with data := some v }) (fun e => rfl) j c)]
              exact hr
            cases hg : getNode (modifyNode s i (fun e => { e with data := some v })) i with
            | none => exact hinv1
            | some e =>
              dsimp only
              by_cases hmem : h ∈ e.open_files
              · rw [if_pos hmem]
                exact InvL_unlock_after_erase _ mf.path i h e hg hres1 hmem hinv1
              · rw [if_neg hmem]
                exact hinv1
        cases hoc : Fs.on_close_memory_file s h mf.path (some v) with
        | mk r s1 =>
          rw [hoc] at h2
          cases r with
          | error e => exact h2
          | ok u => exact InvL_nodes_eq _ _ rfl h2

theorem InvL_makedirCreateLoop (l : List String) :
    ∀ (s : FSState) (cur : NodeId), InvL s → InvL (makedirCreateLoop s cur l).2 := by
  induction l with
  | nil =>
    intro s cur hinv
    exact hinv
  | cons c rest ih =>
    intro s cur hinv
    unfold makedirCreateLoop
    cases hq : getNode s cur with
    | none => exact hinv
    | some e =>
      dsimp only
      cases hcs : e.contents with
      | none => exact hinv
      | some cs =>
        dsimp only
        cases hl : lookupA c cs with
        | none =>
          refine ih _ _ ?_
          refine InvL_modifyNode_keep _ cur _
            (fun en => by cases en.contents <;> exact ⟨rfl, rfl⟩) ?_
          refine InvL_addNode _ _ (by simp [make_dir_entry]) ?_
          exact InvL_nodes_eq s _ rfl hinv
        | some child => exact ih _ _ hinv

theorem InvL_makedirLeaf (s : FSState) (pid : NodeId) (dname : String) (ar : Bool)
    (hinv : InvL s) : InvL (makedirLeaf s pid dname ar).2 := by
  unfold makedirLeaf
  cases hq : getNode s pid with
  | none => exact hinv
  | some pe =>
    dsimp only
    cases hcs : pe.contents with
    | none => exact hinv
    | some cs =>
      dsimp only
      cases hl : lookupA dname cs with
      | some did =>
        dsimp only
        cases hd : getNode s did with
        | none => exact hinv
        | some de =>
          dsimp only
          cases de.kind with
          | dir =>
            by_cases har : ar = true
            · rw [if_pos har]
              exact hinv
            · rw [if_neg har]
              exact hinv
          | file => exact hinv
      | none =>
        refine InvL_modifyNode_keep _ pid _
          (fun en => by cases en.contents <;> exact ⟨rfl, rfl⟩) ?_
        refine InvL_addNode _ _ (by simp [make_dir_entry]) ?_
        exact InvL_nodes_eq s _ rfl hinv

theorem InvL_makedir (s : FSState) (p : FPath) (r a : Bool) (hinv : InvL s) :
    InvL (Fs.makedir s p r a).2 := by
  unfold Fs.makedir
  by_cases hnil : p = []
  · rw [if_pos hnil]
    exact hinv
  · rw [if_neg hnil]
    by_cases hr : r = true
    · rw [if_pos hr]
      cases hpre : (match Fs.get_dir_entry s p.dropLast with
        | none => (.ok () : Except Err Unit)
        | some pid =>
          match getNode s pid with
          | none => .ok ()
          | some pe =>
            match pe.kind with
            | .file => .error .resourceInvalid
            | .dir =>
              if a then .ok ()
              else
                match pe.contents with
                | none => .error .typeError
                | some cs =>
                  match lookupA (lastName p) cs with
                  | some _ => .error .destinationExists
                  | none => .ok ()) with
      | error e => exact hinv
      | ok u =>
        dsimp only
        cases hchk : makedirCheckLoop s s.root p.dropLast.dropLast with
        | error e => exact hinv
        | ok u2 =>
          dsimp only
          have h2 : InvL (makedirCreateLoop s s.root p.dropLast).2 :=
            InvL_makedirCreateLoop p.dropLast s s.root hinv
          cases hcl : makedirCreateLoop s s.root p.dropLast with
          | mk rr s1 =>
            rw [hcl] at h2
            cases rr with
            | error e => exact h2
            | ok pid => exact InvL_makedirLeaf s1 pid (lastName p) a h2
    · rw [if_neg hr]
      cases hq : Fs.get_dir_entry s p.dropLast with
      | none => exact hinv
      | some pid => exact InvL_makedirLeaf s pid (lastName p) a hinv

theorem InvL_orphanLoop (hs : List HandleId) :
    ∀ (s : FSState), InvL s → InvL (orphanLoop s hs).2 := by
  induction hs with
  | nil =>
    intro s hinv
    exact hinv
  | cons h rest ih =>
    intro s hinv
    unfold orphanLoop
    have h2 : InvL (Fs.file_close s h).2 := InvL_file_close s h hinv
    cases hcl : Fs.file_close s h with
    | mk r s1 =>
      rw [hcl] at h2
      cases r with
      | error e => exact h2
      | ok u => exact ih s1 h2

theorem InvL_remove (s : FSState) (p : FPath) (hinv : InvL s) :
    InvL (Fs.remove s p).2 := by
  unfold Fs.remove
  cases hq : Fs.get_dir_entry s p with
  | none => exact hinv
  | some i =>
    dsimp only
    cases hg : getNode s i with
    | none => exact hinv
    | some e =>
      dsimp only
      have h2 : InvL (if e.islocked then Fs.orphan_files s i
          else ((.ok (), s) : Except Err Unit × FSState)).2 := by
        by_cases hl : e.islocked
        · rw [if_pos hl]
          unfold Fs.orphan_files
          rw [hg]
          exact InvL_orphanLoop e.open_files s hinv
        · rw [if_neg hl]
          exact hinv
      cases horph : (if e.islocked then Fs.orphan_files s i
          else ((.ok (), s) : Except Err Unit × FSState)) with
      | mk r s1 =>
        rw [horph] at h2
        cases r with
        | error er => exact h2
        | ok u =>
          dsimp only
          cases hg1 : getNode s1 i with
          | none => exact h2
          | some e1 =>
            dsimp only
            cases e1.kind with
            | dir => exact h2
            | file =>
              cases hpar : Fs.get_dir_entry s1 p.dropLast with
              | none => exact h2
              | some par =>
                dsimp only
                cases hpe : getNode s1 par with
                | none => exact h2
                | some pe =>
                  dsimp only
                  cases hcs : pe.contents with
                  | none => exact h2
                  | some cs =>
                    dsimp only
                    cases hdel : delDict (lastName p) cs with
                    | error er => exact h2
                    | ok u2 =>
                      exact InvL_modifyNode_keep _ par _
                        (fun en => by cases en.contents <;> exact ⟨rfl, rfl⟩) h2

theorem InvL_removedirLoopRev (l : List String) :
    ∀ (s : FSState), InvL s → InvL (removedirLoopRev s l).2 := by
  induction l with
  | nil =>
    intro s hinv
    exact hinv
  | cons dn restRev ih =>
    intro s hinv
    unfold removedirLoopRev
    dsimp only
    cases hq : Fs.get_dir_entry s restRev.reverse with
    | none => exact hinv
    | some pid =>
      dsimp only
      cases hg : getNode s pid with
      | none => exact hinv
      | some pe =>
        dsimp only
        cases hcs : pe.contents with
        | none => exact hinv
        | some cs =>
          dsimp only
          cases hdel : delDict dn cs with
          | error er => exact hinv
          | ok u =>
            refine ih _ ?_
            exact InvL_modifyNode_keep _ pid _
              (fun en => by cases en.contents <;> exact ⟨rfl, rfl⟩) hinv

theorem InvL_removedir (s : FSState) (p : FPath) (r f : Bool) (hinv : InvL s) :
    InvL (Fs.removedir s p r f).2 := by
  unfold Fs.removedir
  cases hq : Fs.get_dir_entry s p with
  | none => exact hinv
  | some i =>
    dsimp only
    cases hg : getNode s i with
    | none => exact hinv
    | some e =>
      dsimp only
      by_cases hl : e.islocked
      · rw [if_pos hl]
        exact hinv
      · rw [if_neg hl]
        cases e.kind with
        | file => exact hinv
        | dir =>
          by_cases hne : ((match e.contents with
              | some cs => !cs.isEmpty
              | none => false) && !f) = true
          · rw [if_pos hne]
            exact hinv
          · rw [if_neg hne]
            by_cases hrec : r = true
            · rw [if_pos hrec]
              exact InvL_removedirLoopRev p.reverse s hinv
            · rw [if_neg hrec]
              cases hpar : Fs.get_dir_entry s p.dropLast with
              | none => exact hinv
              | some par =>
                dsimp only
                cases hpe : getNode s par with
                | none => exact hinv
                | some pe =>
                  dsimp only
                  cases hcs : pe.contents with
                  | none => exact hinv
                  | some cs =>
                    dsimp only
                    cases hdel : delDict (lastName p) cs with
                    | error er => exact hinv
                    | ok u =>
                      exact InvL_modifyNode_keep _ par _
                        (fun en => by cases en.contents <;> exact ⟨rfl, rfl⟩) hinv

theorem InvL_renameFlushLoop (hs : List HandleId) :
    ∀ (s : FSState) (dst : FPath), InvL s → InvL (renameFlushLoop s dst hs).2 := by
  induction hs with
  | nil =>
    intro s dst hinv
    exact hinv
  | cons h rest ih =>
    intro s dst hinv
    unfold renameFlushLoop
    have h2 : InvL (Fs.file_flush s h).2 := InvL_file_flush s h hinv
    cases hfl : Fs.file_flush s h with
    | mk r s1 =>
      rw [hfl] at h2
      cases r with
      | error e => exact h2
      | ok u => exact ih _ dst (InvL_nodes_eq s1 _ rfl h2)

theorem InvL_rename (s : FSState) (src dst : FPath) (hinv : InvL s) :
    InvL (Fs.rename s src dst).2 := by
  unfold Fs.rename
  cases hq : Fs.get_dir_entry s src with
  | none => exact hinv
  | some srcId =>
    dsimp only
    cases hg : getNode s srcId with
    | none => exact hinv
    | some se =>
      dsimp only
      have h2 : InvL (renameFlushLoop s dst se.open_files).2 :=
        InvL_renameFlushLoop se.open_files s dst hinv
      cases hfl : renameFlushLoop s dst se.open_files with
      | mk r s1 =>
        rw [hfl] at h2
        cases r with
        | error e => exact h2
        | ok u =>
          dsimp only
          cases hd : Fs.get_dir_entry s1 dst with
          | some m => exact h2
          | none =>
            dsimp only
            cases hsp : Fs.get_dir_entry s1 src.dropLast with
            | none => exact h2
            | some spId =>
              dsimp only
              cases hspe : getNode s1 spId with
              | none => exact h2
              | some spe =>
                dsimp only
                cases hdp : Fs.get_dir_entry s1 dst.dropLast with
                | none => exact h2
                | some pdId =>
                  dsimp only
                  cases hpde : getNode s1 pdId with
                  | none => exact h2
                  | some pde =>
                    dsimp only
                    cases hscs : spe.contents with
                    | none => exact h2
                    | some scs =>
                      dsimp only
                      cases hch : lookupA (lastName src) scs with
                      | none => exact h2
                      | some childId =>
                        dsimp only
                        cases hdcs : pde.contents with
                        | none => exact h2
                        | some dcs =>
                          dsimp only
                          have h3 : InvL (modifyNode s1 pdId (fun en =>
                              match en.contents with
                              | some cs2 =>
                                { en with contents := some (setA (lastName dst) childId cs2) }
                              | none => en)) :=
                            InvL_modifyNode_keep s1 pdId _
                              (fun en => by cases en.contents <;> exact ⟨rfl, rfl⟩) h2
                          cases hst : stepN (modifyNode s1 pdId (fun en =>
                              match en.contents with
                              | some cs2 =>
                                { en with contents := some (setA (lastName dst) childId cs2) }
                              | none => en)) pdId (lastName dst) with
                          | none => exact h3
                          | some cid2 =>
                            dsimp only
                            have h4 : InvL (modifyNode
                                (modifyNode
                                  (modifyNode s1 pdId (fun en =>
                                    match en.contents with
                                    | some cs2 =>
                                      { en with
                                        contents := some (setA (lastName dst) childId cs2) }
                                    | none => en))
                                  cid2 (fun en => { en with name := lastName dst }))
                                pdId (fun en =>
                                  { en with xattrs := updateX en.xattrs spe.xattrs })) := by
                              refine InvL_modifyNode_keep _ pdId _ (fun en => ⟨rfl, rfl⟩) ?_
                              exact InvL_modifyNode_keep _ cid2 _ (fun en => ⟨rfl, rfl⟩) h3
                            cases hsp4 : getNode (modifyNode
                                (modifyNode
                                  (modifyNode s1 pdId (fun en =>
                                    match en.contents with
                                    | some cs2 =>
                                      { en with
                                        contents := some (setA (lastName dst) childId cs2) }
                                    | none => en))
                                  cid2 (fun en => { en with name := lastName dst }))
                                pdId (fun en =>
                                  { en with xattrs := updateX en.xattrs spe.xattrs })) spId with
                            | none => exact h4
                            | some spe4 =>
                              dsimp only
                              cases hscs4 : spe4.contents with
                              | none => exact h4
                              | some scs4 =>
                                dsimp only
                                cases hdel : delDict (lastName src) scs4 with
                                | error er => exact h4
                                | ok u2 =>
                                  exact InvL_modifyNode_keep _ spId _
                                    (fun en => by cases en.contents <;> exact ⟨rfl, rfl⟩) h4

theorem Fresh_getNode_lt (s : FSState) (i : NodeId) (e : DirEntry)
    (hfr : Fresh s) (h : getNode s i = some e) : i < s.nextNode :=
  hfr (i, e) (find_pair_mem s.nodes i e h)

theorem Fresh_getNode_next (s : FSState) (hfr : Fresh s) :
    getNode s s.nextNode = none := by
  cases hq : getNode s s.nextNode with
  | none => rfl
  | some e0 =>
    exact absurd rfl (Nat.ne_of_lt (Fresh_getNode_lt s s.nextNode e0 hfr hq))

theorem InvL_openWTail (s : FSState) (path : FPath) (mode : Str) (fid pid : NodeId)
    (pe : DirEntry) (cs : List (String × NodeId))
    (hp : path ≠ [])
    (hpar : Fs.get_dir_entry s path.dropLast = some pid)
    (hpe : getNode s pid = some pe)
    (hcs : pe.contents = some cs)
    (hfid : lookupA (lastName path) cs = some fid)
    (hinv : InvL s) : InvL (openWTail s path mode fid).2 := by
  unfold openWTail
  cases hfe : getNode s fid with
  | none => exact hinv
  | some fe =>
    dsimp only
    by_cases hlk : fe.locks > 0
    · rw [if_pos hlk]
      exact hinv
    · rw [if_neg hlk]
      have hres2 : Fs.get_dir_entry (modifyNode { s with clock := s.clock + 1 } fid
          (fun e => { e with accessed_time := s.clock })) path = some fid := by
        have hstep : stepN s pid (lastName path) = some fid :=
          stepN_of_parts s pid _ fid pe cs hpe hcs hfid
        have hres : Fs.get_dir_entry s path = some fid := by
          rw [get_dir_entry_split s path hp, hpar, Option.some_bind]
          exact hstep
        rw [get_dir_entry_congr s
          (modifyNode { s with clock := s.clock + 1 } fid
            (fun e => { e with accessed_time := s.clock })) rfl
          (fun j c => by
            rw [stepN_modifyNode_keep _ fid (fun e => { e with accessed_time := s.clock })
              (fun e => rfl)]
            exact stepN_clockSet s _ j c)]
        exact hres
      have hlock : Fs.lock_dir_entry (modifyNode { s with clock := s.clock + 1 } fid
          (fun e => { e with accessed_time := s.clock })) path
          = (.ok (), modifyNode (modifyNode { s with clock := s.clock + 1 } fid
              (fun e => { e with accessed_time := s.clock })) fid DirEntry.lockE) := by
        unfold Fs.lock_dir_entry
        rw [hres2]
      simp only [tick_pair, hlock]
      exact InvL_postOpen s fid _ hinv

theorem InvL_openPath (s : FSState) (p : FPath) (mode : Str) (hp : p ≠ [])
    (hfr : Fresh s) (hinv : InvL s) :
    InvL (Fs.openPath s p mode).2 := by
  unfold Fs.openPath
  dsimp only
  cases hpar : Fs.get_dir_entry s p.dropLast with
  | none => exact hinv
  | some pid =>
    dsimp only
    cases hpe : getNode s pid with
    | none => exact hinv
    | some pe =>
      dsimp only
      by_cases hkind : pe.kind = .dir
      case neg =>
        rw [if_neg hkind]
        exact hinv
      case pos =>
      rw [if_pos hkind]
      by_cases hra : (mode.contains 'r' || mode.contains 'a') = true
      · rw [if_pos hra]
        cases hcs : pe.contents with
        | none => exact hinv
        | some cs =>
          dsimp only
          cases hfid : lookupA (lastName p) cs with
          | none => exact hinv
          | some fid =>
            dsimp only
            cases hfe : getNode s fid with
            | none => exact hinv
            | some fe =>
              dsimp only
              by_cases hlka : (mode.contains 'a' = true ∧ fe.locks > 0)
              · rw [if_pos hlka]
                exact hinv
              · rw [if_neg hlka]
                have hres2 : Fs.get_dir_entry (modifyNode { s with clock := s.clock + 1 } fid
                    (fun e => { e with accessed_time := s.clock })) p = some fid := by
                  have hstep : stepN s pid (lastName p) = some fid :=
                    stepN_of_parts s pid _ fid pe cs hpe hcs hfid
                  have hres : Fs.get_dir_entry s p = some fid := by
                    rw [get_dir_entry_split s p hp, hpar, Option.some_bind]
                    exact hstep
                  rw [get_dir_entry_congr s
                    (modifyNode { s with clock := s.clock + 1 } fid
                      (fun e => { e with accessed_time := s.clock })) rfl
                    (fun j c => by
                      rw [stepN_modifyNode_keep _ fid
                        (fun e => { e with accessed_time := s.clock }) (fun e => rfl)]
                      exact stepN_clockSet s _ j c)]
                  exact hres
                have hlock : Fs.lock_dir_entry (modifyNode { s with clock := s.clock + 1 } fid
                    (fun e => { e with accessed_time := s.clock })) p
                    = (.ok (), modifyNode (modifyNode { s with clock := s.clock + 1 } fid
                        (fun e => { e with accessed_time := s.clock })) fid DirEntry.lockE) := by
                  unfold Fs.lock_dir_entry
                  rw [hres2]
                simp only [tick_pair, hlock]
                exact InvL_postOpen s fid _ hinv
      · rw [if_neg hra]
        by_cases hw : mode.contains 'w' = true
        · rw [if_pos hw]
          cases hcs : pe.contents with
          | none => exact hinv
          | some cs =>
            dsimp only
            cases hfid : lookupA (lastName p) cs with
            | some fid =>
              dsimp only
              exact InvL_openWTail s p mode fid pid pe cs hp hpar hpe hcs hfid hinv
            | none =>
              dsimp only
              simp only [tick_pair, addNode_pair]
              have hpidne : pid ≠ s.nextNode :=
                Nat.ne_of_lt (Fresh_getNode_lt s pid pe hfr hpe)
              have hfresh : getNode s s.nextNode = none := Fresh_getNode_next s hfr
              have hinv3 : InvL (wNewBase s p pid) := by
                refine InvL_modifyNode_keep _ pid _
                  (fun en => by cases en.contents <;> exact ⟨rfl, rfl⟩) ?_
                refine InvL_nodes_eq (addNode { s with clock := s.clock + 1 }
                  (make_dir_entry .file (lastName p) s.clock)).2 _ rfl ?_
                refine InvL_addNode _ _ (by simp [make_dir_entry]) ?_
                exact InvL_nodes_eq s _ rfl hinv
              have hgetS2pid : getNode
                  { s with
                    nodes := (s.nextNode, make_dir_entry .file (lastName p) s.clock) :: s.nodes
                    nextNode := s.nextNode + 1
                    clock := s.clock + 1 } pid = some pe := by
                unfold getNode
                show findVal ((s.nextNode, make_dir_entry .file (lastName p) s.clock)
                  :: s.nodes) pid = some pe
                rw [findVal_cons_ne _ _ _ _ hpidne]
                exact hpe
              have hstepS2 : ∀ j c w, stepN s j c = some w →
                  stepN { s with
                    nodes := (s.nextNode, make_dir_entry .file (lastName p) s.clock) :: s.nodes
                    nextNode := s.nextNode + 1
                    clock := s.clock + 1 } j c = some w := by
                intro j c w hw
                by_cases hj : j = s.nextNode
                · subst hj
                  exact absurd hw (by unfold stepN; rw [hfresh]; simp)
                · have hg : getNode { s with
                      nodes := (s.nextNode, make_dir_entry .file (lastName p) s.clock)
                        :: s.nodes
                      nextNode := s.nextNode + 1
                      clock := s.clock + 1 } j = getNode s j := by
                    unfold getNode
                    show findVal ((s.nextNode, make_dir_entry .file (lastName p) s.clock)
                      :: s.nodes) j = _
                    rw [findVal_cons_ne _ _ _ _ hj]
                  unfold stepN at hw ⊢
                  rw [hg]
                  exact hw
              have hstepS3 : ∀ j c, stepN (wNewBase s p pid) j c
                  = if j = pid ∧ c = lastName p then some s.nextNode
                    else stepN { s with
                      nodes := (s.nextNode, make_dir_entry .file (lastName p) s.clock)
                        :: s.nodes
                      nextNode := s.nextNode + 1
                      clock := s.clock + 1 } j c :=
                stepN_modify_setA _ pid s.nextNode (lastName p) pe cs hgetS2pid hcs
              have hmono : ∀ j c w, stepN s j c = some w →
                  stepN (wNewBase s p pid) j c = some w := by
                intro j c w hw
                rw [hstepS3 j c]
                by_cases hcase : j = pid ∧ c = lastName p
                · exact absurd hw (by
                    obtain ⟨hj1, hc1⟩ := hcase
                    subst hj1 hc1
                    unfold stepN
                    rw [hpe]
                    simp only [hcs]
                    rw [hfid]
                    simp)
                · rw [if_neg hcase]
                  exact hstepS2 j c w hw
              have hparM : Fs.get_dir_entry (wNewBase s p pid) p.dropLast = some pid :=
                get_dir_entry_mono s _ (by rfl) hmono p.dropLast pid hpar
              have hgetMpid : getNode (wNewBase s p pid) pid
                  = some { pe with contents := some (setA (lastName p) s.nextNode cs) } := by
                unfold wNewBase
                rw [getNode_modifyNode_self, hgetS2pid, option_map_some]
                simp only [hcs]
              show InvL (openWTail (wNewBase s p pid) p mode s.nextNode).2
              exact InvL_openWTail (wNewBase s p pid) p mode s.nextNode pid
                { pe with contents := some (setA (lastName p) s.nextNode cs) }
                (setA (lastName p) s.nextNode cs) hp hparM hgetMpid rfl
                (lookupA_setA_self _ _ _) hinv3
        · rw [if_neg hw]
          exact hinv

theorem Fresh_nodes_eq (s s' : FSState) (hn : s'.nodes = s.nodes)
    (hx : s'.nextNode = s.nextNode) (hfr : Fresh s) : Fresh s' := by
  intro pr hpr
  rw [hx]
  exact hfr pr (by rw [← hn]; exact hpr)

theorem Fresh_modifyNode (s : FSState) (i : NodeId) (f : DirEntry → DirEntry)
    (hfr : Fresh s) : Fresh (modifyNode s i f) := by
  intro pr hpr
  rw [modifyNode_nextNode]
  rw [modifyNode_nodes] at hpr
  obtain ⟨kv0, hkv0, heq⟩ := List.mem_map.mp hpr
  have h1 : pr.1 = kv0.1 := by
    by_cases hq : kv0.1 = i
    · rw [← heq, if_pos hq]
    · rw [← heq, if_neg hq]
  rw [h1]
  exact hfr kv0 hkv0

theorem Fresh_addNode (s : FSState) (e : DirEntry) (hfr : Fresh s) : Fresh (addNode s e).2 := by
  intro pr hpr
  show pr.1 < s.nextNode + 1
  rw [addNode_nodes] at hpr
  rcases List.mem_cons.mp hpr with h1 | h1
  · rw [h1]
    exact Nat.lt_succ_self _
  · exact Nat.lt_succ_of_lt (hfr pr h1)

theorem Fresh_lock (s : FSState) (p : FPath) (hfr : Fresh s) :
    Fresh (Fs.lock_dir_entry s p).2 := by
  unfold Fs.lock_dir_entry
  cases hq : Fs.get_dir_entry s p with
  | none => exact hfr
  | some i => exact Fresh_modifyNode s i _ hfr

theorem Fresh_unlock (s : FSState) (p : FPath) (hfr : Fresh s) :
    Fresh (Fs.unlock_dir_entry s p).2 := by
  unfold Fs.unlock_dir_entry
  cases hq : Fs.get_dir_entry s p with
  | none => exact hfr
  | some i =>
    dsimp only
    have h2 : Fresh (modifyNode s i (fun e => { e with locks := e.locks - 1 })) :=
      Fresh_modifyNode s i _ hfr
    cases hg : getNode (modifyNode s i (fun e => { e with locks := e.locks - 1 })) i with
    | none => exact h2
    | some e2 =>
      dsimp only
      by_cases hlt : e2.locks < 0
      · rw [if_pos hlt]
        exact h2
      · rw [if_neg hlt]
        exact h2

theorem Fresh_on_flush (s : FSState) (p : FPath) (v : Str) (hfr : Fresh s) :
    Fresh (Fs.on_flush_memory_file s p v).2 := by
  unfold Fs.on_flush_memory_file
  cases hq : Fs.get_dir_entry s p with
  | none => exact hfr
  | some i => exact Fresh_modifyNode s i _ hfr

theorem Fresh_on_modify (s : FSState) (p : FPath) (hfr : Fresh s) :
    Fresh (Fs.on_modify_memory_file s p).2 := by
  unfold Fs.on_modify_memory_file
  cases hq : Fs.get_dir_entry s p with
  | none => exact hfr
  | some i => exact Fresh_modifyNode _ i _ (Fresh_nodes_eq s _ rfl rfl hfr)

theorem Fresh_file_flush (s : FSState) (h : HandleId) (hfr : Fresh s) :
    Fresh (Fs.file_flush s h).2 := by
  unfold Fs.file_flush
  cases hq : getHandle s h with
  | none => exact hfr
  | some mf =>
    dsimp only
    cases hv : mf.mem_file.getvalue with
    | error e => exact hfr
    | ok v => exact Fresh_on_flush s mf.path v hfr

theorem Fresh_file_write (s : FSState) (h : HandleId) (data : Str) (hfr : Fresh s) :
    Fresh (Fs.file_write s h data).2 := by
  unfold Fs.file_write
  cases hq : getHandle s h with
  | none => exact hfr
  | some mf =>
    dsimp only
    have h2 : Fresh (Fs.on_modify_memory_file s mf.path).2 := Fresh_on_modify s mf.path hfr
    cases hm : Fs.on_modify_memory_file s mf.path with
    | mk r s1 =>
      rw [hm] at h2
      cases r with
      | error e => exact h2
      | ok u =>
        cases hw : mf.mem_file.write data with
        | error e => exact h2
        | ok sio2 => exact Fresh_nodes_eq _ _ rfl rfl h2

theorem Fresh_file_readToEnd (s : FSState) (h : HandleId) (hfr : Fresh s) :
    Fresh (Fs.file_readToEnd s h).2 := by
  unfold Fs.file_readToEnd
  cases hq : getHandle s h with
  | none => exact hfr
  | some mf =>
    dsimp only
    cases hv : mf.mem_file.readToEnd with
    | error e => exact hfr
    | ok pr =>
      cases pr with
      | mk out sio2 => exact Fresh_nodes_eq _ _ rfl rfl hfr

theorem Fresh_file_seek (s : FSState) (h : HandleId) (n : Nat) (hfr : Fresh s) :
    Fresh (Fs.file_seek s h n).2 := by
  unfold Fs.file_seek
  cases hq : getHandle s h with
  | none => exact hfr
  | some mf =>
    dsimp only
    cases hv : mf.mem_file.seekTo n with
    | error e => exact hfr
    | ok sio2 => exact Fresh_nodes_eq _ _ rfl rfl hfr

theorem Fresh_file_truncate (s : FSState) (h : HandleId) (hfr : Fresh s) :
    Fresh (Fs.file_truncate s h).2 := by
  unfold Fs.file_truncate
  cases hq : getHandle s h with
  | none => exact hfr
  | some mf =>
    dsimp only
    cases hv : mf.mem_file.truncateHere with
    | error e => exact hfr
    | ok sio2 => exact Fresh_nodes_eq _ _ rfl rfl hfr

theorem Fresh_file_close (s : FSState) (h : HandleId) (hfr : Fresh s) :
    Fresh (Fs.file_close s h).2 := by
  unfold Fs.file_close
  cases hq : getHandle s h with
  | none => exact hfr
  | some mf =>
    dsimp only
    by_cases hc : mf.closed = true
    · rw [if_pos hc]
      exact hfr
    · rw [if_neg hc]
      cases hv : mf.mem_file.getvalue with
      | error e => exact hfr
      | ok v =>
        dsimp only
        have h2 : Fresh (Fs.on_close_memory_file s h mf.path (some v)).2 := by
          unfold Fs.on_close_memory_file
          cases hr : Fs.get_dir_entry s mf.path with
          | none => exact hfr
          | some i =>
            dsimp only
            have h3 : Fresh (modifyNode s i (fun e => { e with data := some v })) :=
              Fresh_modifyNode s i _ hfr
            cases hg : getNode (modifyNode s i (fun e => { e with data := some v })) i with
            | none => exact h3
            | some e =>
              dsimp only
              by_cases hmem : h ∈ e.open_files
              · rw [if_pos hmem]
                exact Fresh_unlock _ mf.path (Fresh_modifyNode _ i _ h3)
              · rw [if_neg hmem]
                exact h3
        cases hoc : Fs.on_close_memory_file s h mf.path (some v) with
        | mk r s1 =>
          rw [hoc] at h2
          cases r with
          | error e => exact h2
          | ok u => exact Fresh_nodes_eq _ _ rfl rfl h2

theorem Fresh_orphanLoop (hs : List HandleId) :
    ∀ (s : FSState), Fresh s → Fresh (orphanLoop s hs).2 := by
  induction hs with
  | nil =>
    intro s hfr
    exact hfr
  | cons h rest ih =>
    intro s hfr
    unfold orphanLoop
    have h2 : Fresh (Fs.file_close s h).2 := Fresh_file_close s h hfr
    cases hcl : Fs.file_close s h with
    | mk r s1 =>
      rw [hcl] at h2
      cases r with
      | error e => exact h2
      | ok u => exact ih s1 h2

theorem Fresh_settimes (s : FSState) (p : FPath) (a m : Option Nat) (hfr : Fresh s) :
    Fresh (Fs.settimes s p a m).2 := by
  simp only [Fs.settimes, tick_pair]
  cases hq : Fs.get_dir_entry { s with clock := s.clock + 1 } p with
  | none => exact Fresh_nodes_eq s _ rfl rfl hfr
  | some i => exact Fresh_modifyNode _ i _ (Fresh_nodes_eq s _ rfl rfl hfr)

theorem Fresh_setxattr (s : FSState) (p : FPath) (k : String) (v : Str) (hfr : Fresh s) :
    Fresh (Fs.setxattr s p k v).2 := by
  unfold Fs.setxattr
  cases hq : Fs.get_dir_entry s p with
  | none => exact hfr
  | some i => exact Fresh_modifyNode s i _ hfr

theorem Fresh_delxattr (s : FSState) (p : FPath) (k : String) (hfr : Fresh s) :
    Fresh (Fs.delxattr s p k).2 := by
  unfold Fs.delxattr
  cases hq : Fs.get_dir_entry s p with
  | none => exact hfr
  | some i => exact Fresh_modifyNode s i _ hfr

theorem Fresh_makedirCreateLoop (l : List String) :
    ∀ (s : FSState) (cur : NodeId), Fresh s → Fresh (makedirCreateLoop s cur l).2 := by
  induction l with
  | nil =>
    intro s cur hfr
    exact hfr
  | cons c rest ih =>
    intro s cur hfr
    unfold makedirCreateLoop
    cases hq : getNode s cur with
    | none => exact hfr
    | some e =>
      dsimp only
      cases hcs : e.contents with
      | none => exact hfr
      | some cs =>
        dsimp only
        cases hl : lookupA c cs with
        | none =>
          refine ih _ _ ?_
          refine Fresh_modifyNode _ cur _ ?_
          exact Fresh_addNode _ _ (Fresh_nodes_eq s _ rfl rfl hfr)
        | some child => exact ih _ _ hfr

theorem Fresh_makedirLeaf (s : FSState) (pid : NodeId) (dname : String) (ar : Bool)
    (hfr : Fresh s) : Fresh (makedirLeaf s pid dname ar).2 := by
  unfold makedirLeaf
  cases hq : getNode s pid with
  | none => exact hfr
  | some pe =>
    dsimp only
    cases hcs : pe.contents with
    | none => exact hfr
    | some cs =>
      dsimp only
      cases hl : lookupA dname cs with
      | some did =>
        dsimp only
        cases hd : getNode s did with
        | none => exact hfr
        | some de =>
          dsimp only
          cases de.kind with
          | dir =>
            by_cases har : ar = true
            · rw [if_pos har]
              exact hfr
            · rw [if_neg har]
              exact hfr
          | file => exact hfr
      | none =>
        refine Fresh_modifyNode _ pid _ ?_
        exact Fresh_addNode _ _ (Fresh_nodes_eq s _ rfl rfl hfr)

theorem Fresh_makedir (s : FSState) (p : FPath) (r a : Bool) (hfr : Fresh s) :
    Fresh (Fs.makedir s p r a).2 := by
  unfold Fs.makedir
  by_cases hnil : p = []
  · rw [if_pos hnil]
    exact hfr
  · rw [if_neg hnil]
    by_cases hr : r = true
    · rw [if_pos hr]
      cases hpre : (match Fs.get_dir_entry s p.dropLast with
        | none => (.ok () : Except Err Unit)
        | some pid =>
          match getNode s pid with
          | none => .ok ()
          | some pe =>
            match pe.kind with
            | .file => .error .resourceInvalid
            | .dir =>
              if a then .ok ()
              else
                match pe.contents with
                | none => .error .typeError
                | some cs =>
                  match lookupA (lastName p) cs with
                  | some _ => .error .destinationExists
                  | none => .ok ()) with
      | error e => exact hfr
      | ok u =>
        dsimp only
        cases hchk : makedirCheckLoop s s.root p.dropLast.dropLast with
        | error e => exact hfr
        | ok u2 =>
          dsimp only
          have h2 : Fresh (makedirCreateLoop s s.root p.dropLast).2 :=
            Fresh_makedirCreateLoop p.dropLast s s.root hfr
          cases hcl : makedirCreateLoop s s.root p.dropLast with
          | mk rr s1 =>
            rw [hcl] at h2
            cases rr with
            | error e => exact h2
            | ok pid => exact Fresh_makedirLeaf s1 pid (lastName p) a h2
    · rw [if_neg hr]
      cases hq : Fs.get_dir_entry s p.dropLast with
      | none => exact hfr
      | some pid => exact Fresh_makedirLeaf s pid (lastName p) a hfr

theorem Fresh_remove (s : FSState) (p : FPath) (hfr : Fresh s) :
    Fresh (Fs.remove s p).2 := by
  unfold Fs.remove
  cases hq : Fs.get_dir_entry s p with
  | none => exact hfr
  | some i =>
    dsimp only
    cases hg : getNode s i with
    | none => exact hfr
    | some e =>
      dsimp only
      have h2 : Fresh (if e.islocked then Fs.orphan_files s i
          else ((.ok (), s) : Except Err Unit × FSState)).2 := by
        by_cases hl : e.islocked
        · rw [if_pos hl]
          unfold Fs.orphan_files
          rw [hg]
          exact Fresh_orphanLoop e.open_files s hfr
        · rw [if_neg hl]
          exact hfr
      cases horph : (if e.islocked then Fs.orphan_files s i
          else ((.ok (), s) : Except Err Unit × FSState)) with
      | mk r s1 =>
        rw [horph] at h2
        cases r with
        | error er => exact h2
        | ok u =>
          dsimp only
          cases hg1 : getNode s1 i with
          | none => exact h2
          | some e1 =>
            dsimp only
            cases e1.kind with
            | dir => exact h2
            | file =>
              cases hpar : Fs.get_dir_entry s1 p.dropLast with
              | none => exact h2
              | some par =>
                dsimp only
                cases hpe : getNode s1 par with
                | none => exact h2
                | some pe =>
                  dsimp only
                  cases hcs : pe.contents with
                  | none => exact h2
                  | some cs =>
                    dsimp only
                    cases hdel : delDict (lastName p) cs with
                    | error er => exact h2
                    | ok u2 => exact Fresh_modifyNode _ par _ h2

theorem Fresh_removedirLoopRev (l : List String) :
    ∀ (s : FSState), Fresh s → Fresh (removedirLoopRev s l).2 := by
  induction l with
  | nil =>
    intro s hfr
    exact hfr
  | cons dn restRev ih =>
    intro s hfr
    unfold removedirLoopRev
    dsimp only
    cases hq : Fs.get_dir_entry s restRev.reverse with
    | none => exact hfr
    | some pid =>
      dsimp only
      cases hg : getNode s pid with
      | none => exact hfr
      | some pe =>
        dsimp only
        cases hcs : pe.contents with
        | none => exact hfr
        | some cs =>
          dsimp only
          cases hdel : delDict dn cs with
          | error er => exact hfr
          | ok u => exact ih _ (Fresh_modifyNode _ pid _ hfr)

theorem Fresh_removedir (s : FSState) (p : FPath) (r f : Bool) (hfr : Fresh s) :
    Fresh (Fs.removedir s p r f).2 := by
  unfold Fs.removedir
  cases hq : Fs.get_dir_entry s p with
  | none => exact hfr
  | some i =>
    dsimp only
    cases hg : getNode s i with
    | none => exact hfr
    | some e =>
      dsimp only
      by_cases hl : e.islocked
      · rw [if_pos hl]
        exact hfr
      · rw [if_neg hl]
        cases e.kind with
        | file => exact hfr
        | dir =>
          by_cases hne : ((match e.contents with
              | some cs => !cs.isEmpty
              | none => false) && !f) = true
          · rw [if_pos hne]
            exact hfr
          · rw [if_neg hne]
            by_cases hrec : r = true
            · rw [if_pos hrec]
              exact Fresh_removedirLoopRev p.reverse s hfr
            · rw [if_neg hrec]
              cases hpar : Fs.get_dir_entry s p.dropLast with
              | none => exact hfr
              | some par =>
                dsimp only
                cases hpe : getNode s par with
                | none => exact hfr
                | some pe =>
                  dsimp only
                  cases hcs : pe.contents with
                  | none => exact hfr
                  | some cs =>
                    dsimp only
                    cases hdel : delDict (lastName p) cs with
                    | error er => exact hfr
                    | ok u => exact Fresh_modifyNode _ par _ hfr

theorem Fresh_renameFlushLoop (hs : List HandleId) :
    ∀ (s : FSState) (dst : FPath), Fresh s → Fresh (renameFlushLoop s dst hs).2 := by
  induction hs with
  | nil =>
    intro s dst hfr
    exact hfr
  | cons h rest ih =>
    intro s dst hfr
    unfold renameFlushLoop
    have h2 : Fresh (Fs.file_flush s h).2 := Fresh_file_flush s h hfr
    cases hfl : Fs.file_flush s h with
    | mk r s1 =>
      rw [hfl] at h2
      cases r with
      | error e => exact h2
      | ok u => exact ih _ dst (Fresh_nodes_eq s1 _ rfl rfl h2)

theorem Fresh_rename (s : FSState) (src dst : FPath) (hfr : Fresh s) :
    Fresh (Fs.rename s src dst).2 := by
  unfold Fs.rename
  cases hq : Fs.get_dir_entry s src with
  | none => exact hfr
  | some srcId =>
    dsimp only
    cases hg : getNode s srcId with
    | none => exact hfr
    | some se =>
      dsimp only
      have h2 : Fresh (renameFlushLoop s dst se.open_files).2 :=
        Fresh_renameFlushLoop se.open_files s dst hfr
      cases hfl : renameFlushLoop s dst se.open_files with
      | mk r s1 =>
        rw [hfl] at h2
        cases r with
        | error e => exact h2
        | ok u =>
          dsimp only
          cases hd : Fs.get_dir_entry s1 dst with
          | some m => exact h2
          | none =>
            dsimp only
            cases hsp : Fs.get_dir_entry s1 src.dropLast with
            | none => exact h2
            | some spId =>
              dsimp only
              cases hspe : getNode s1 spId with
              | none => exact h2
              | some spe =>
                dsimp only
                cases hdp : Fs.get_dir_entry s1 dst.dropLast with
                | none => exact h2
                | some pdId =>
                  dsimp only
                  cases hpde : getNode s1 pdId with
                  | none => exact h2
                  | some pde =>
                    dsimp only
                    cases hscs : spe.contents with
                    | none => exact h2
                    | some scs =>
                      dsimp only
                      cases hch : lookupA (lastName src) scs with
                      | none => exact h2
                      | some childId =>
                        dsimp only
                        cases hdcs : pde.contents with
                        | none => exact h2
                        | some dcs =>
                          dsimp only
                          have h3 : Fresh (modifyNode s1 pdId (fun en =>
                              match en.contents with
                              | some cs2 =>
                                { en with contents := some (setA (lastName dst) childId cs2) }
                              | none => en)) :=
                            Fresh_modifyNode s1 pdId _ h2
                          cases hst : stepN (modifyNode s1 pdId (fun en =>
                              match en.contents with
                              | some cs2 =>
                                { en with contents := some (setA (lastName dst) childId cs2) }
                              | none => en)) pdId (lastName dst) with
                          | none => exact h3
                          | some cid2 =>
                            dsimp only
                            have h4 := Fresh_modifyNode _ pdId
                              (fun en => { en with xattrs := updateX en.xattrs spe.xattrs })
                              (Fresh_modifyNode _ cid2
                                (fun en => { en with name := lastName dst }) h3)
                            cases hsp4 : getNode (modifyNode
                                (modifyNode
                                  (modifyNode s1 pdId (fun en =>
                                    match en.contents with
                                    | some cs2 =>
                                      { en with
                                        contents := some (setA (lastName dst) childId cs2) }
                                    | none => en))
                                  cid2 (fun en => { en with name := lastName dst }))
                                pdId (fun en =>
                                  { en with xattrs := updateX en.xattrs spe.xattrs })) spId with
                            | none => exact h4
                            | some spe4 =>
                              dsimp only
                              cases hscs4 : spe4.contents with
                              | none => exact h4
                              | some scs4 =>
                                dsimp only
                                cases hdel : delDict (lastName src) scs4 with
                                | error er => exact h4
                                | ok u2 => exact Fresh_modifyNode _ spId _ h4

theorem Fresh_openWTail (s : FSState) (path : FPath) (mode : Str) (fid : NodeId)
    (hfr : Fresh s) : Fresh (openWTail s path mode fid).2 := by
  unfold openWTail
  cases hfe : getNode s fid with
  | none => exact hfr
  | some fe =>
    dsimp only
    by_cases hlk : fe.locks > 0
    · rw [if_pos hlk]
      exact hfr
    · rw [if_neg hlk]
      simp only [tick_pair]
      have h2 : Fresh (Fs.lock_dir_entry (modifyNode { s with clock := s.clock + 1 } fid
          (fun e => { e with accessed_time := s.clock })) path).2 :=
        Fresh_lock _ path (Fresh_modifyNode _ fid _ (Fresh_nodes_eq s _ rfl rfl hfr))
      cases hlo : Fs.lock_dir_entry (modifyNode { s with clock := s.clock + 1 } fid
          (fun e => { e with accessed_time := s.clock })) path with
      | mk r s3 =>
        rw [hlo] at h2
        cases r with
        | error e => exact h2
        | ok u => exact Fresh_modifyNode _ fid _ (Fresh_nodes_eq s3 _ rfl rfl h2)

theorem Fresh_openPath (s : FSState) (p : FPath) (mode : Str) (hfr : Fresh s) :
    Fresh (Fs.openPath s p mode).2 := by
  unfold Fs.openPath
  dsimp only
  cases hpar : Fs.get_dir_entry s p.dropLast with
  | none => exact hfr
  | some pid =>
    dsimp only
    cases hpe : getNode s pid with
    | none => exact hfr
    | some pe =>
      dsimp only
      by_cases hkind : pe.kind = .dir
      case neg =>
        rw [if_neg hkind]
        exact hfr
      case pos =>
      rw [if_pos hkind]
      by_cases hra : (mode.contains 'r' || mode.contains 'a') = true
      · rw [if_pos hra]
        cases hcs : pe.contents with
        | none => exact hfr
        | some cs =>
          dsimp only
          cases hfid : lookupA (lastName p) cs with
          | none => exact hfr
          | some fid =>
            dsimp only
            cases hfe : getNode s fid with
            | none => exact hfr
            | some fe =>
              dsimp only
              by_cases hlka : (mode.contains 'a' = true ∧ fe.locks > 0)
              · rw [if_pos hlka]
                exact hfr
              · rw [if_neg hlka]
                simp only [tick_pair]
                have h2 : Fresh (Fs.lock_dir_entry
                    (modifyNode { s with clock := s.clock + 1 } fid
                      (fun e => { e with accessed_time := s.clock })) p).2 :=
                  Fresh_lock _ p (Fresh_modifyNode _ fid _ (Fresh_nodes_eq s _ rfl rfl hfr))
                cases hlo : Fs.lock_dir_entry
                    (modifyNode { s with clock := s.clock + 1 } fid
                      (fun e => { e with accessed_time := s.clock })) p with
                | mk r s3 =>
                  rw [hlo] at h2
                  cases r with
                  | error e => exact h2
                  | ok u => exact Fresh_modifyNode _ fid _ (Fresh_nodes_eq s3 _ rfl rfl h2)
      · rw [if_neg hra]
        by_cases hw : mode.contains 'w' = true
        · rw [if_pos hw]
          cases hcs : pe.contents with
          | none => exact hfr
          | some cs =>
            dsimp only
            cases hfid : lookupA (lastName p) cs with
            | some fid =>
              dsimp only
              exact Fresh_openWTail s p mode fid hfr
            | none =>
              dsimp only
              simp only [tick_pair, addNode_pair]
              show Fresh (openWTail (wNewBase s p pid) p mode s.nextNode).2
              refine Fresh_openWTail _ p mode s.nextNode ?_
              refine Fresh_modifyNode _ pid _ ?_
              exact Fresh_addNode _ _ (Fresh_nodes_eq s _ rfl rfl hfr)
        · rw [if_neg hw]
          exact hfr

theorem Fresh_new_fs : Fresh new_fs := by
  intro pr hpr
  have h1 : pr = (0, make_dir_entry .dir "root" 0) := List.mem_singleton.mp hpr
  rw [h1]
  decide

/-- Along any run that never opens the degenerate empty path, every
arena node carries one lock per open handle, and all arena ids stay
below the fresh-id counter. -/

theorem ReachNE_invariants (s : FSState) (hr : ReachNE s) : InvL s ∧ Fresh s := by
  induction hr with
  | init => exact ⟨InvL_new_fs, Fresh_new_fs⟩
  | mopen s p mode hp hprev ih =>
    exact ⟨InvL_openPath s p mode hp ih.2 ih.1, Fresh_openPath s p mode ih.2⟩
  | mmakedir s p r a hprev ih =>
    exact ⟨InvL_makedir s p r a ih.1, Fresh_makedir s p r a ih.2⟩
  | mremove s p hprev ih =>
    exact ⟨InvL_remove s p ih.1, Fresh_remove s p ih.2⟩
  | mremovedir s p r f hprev ih =>
    exact ⟨InvL_removedir s p r f ih.1, Fresh_removedir s p r f ih.2⟩
  | mrename s src dst hprev ih =>
    exact ⟨InvL_rename s src dst ih.1, Fresh_rename s src dst ih.2⟩
  | msettimes s p a m hprev ih =>
    exact ⟨InvL_settimes s p a m ih.1, Fresh_settimes s p a m ih.2⟩
  | msetxattr s p k v hprev ih =>
    exact ⟨InvL_setxattr s p k v ih.1, Fresh_setxattr s p k v ih.2⟩
  | mdelxattr s p k hprev ih =>
    exact ⟨InvL_delxattr s p k ih.1, Fresh_delxattr s p k ih.2⟩
  | mwrite s h data hprev ih =>
    exact ⟨InvL_file_write s h data ih.1, Fresh_file_write s h data ih.2⟩
  | mflush s h hprev ih =>
    exact ⟨InvL_file_flush s h ih.1, Fresh_file_flush s h ih.2⟩
  | mclose s h hprev ih =>
    exact ⟨InvL_file_close s h ih.1, Fresh_file_close s h ih.2⟩
  | mread s h hprev ih =>
    exact ⟨InvL_file_readToEnd s h ih.1, Fresh_file_readToEnd s h ih.2⟩
  | mseek s h n hprev ih =>
    exact ⟨InvL_file_seek s h n ih.1, Fresh_file_seek s h n ih.2⟩
  | mtruncate s h hprev ih =>
    exact ⟨InvL_file_truncate s h ih.1, Fresh_file_truncate s h ih.2⟩

/-- C3 is false as stated: the state after `open("/", "w")` on a fresh
filesystem is reachable, and in it the path `[""]` resolves from the
root to a File node whose `lock_count` is 0 while its open-handle list
has one entry — `open` on the empty path locks the root directory but
registers the handle on the file it creates under the empty name. -/

theorem C3_counterexample :
    Reach (Fs.openPath new_fs [] ['w']).2
    ∧ Fs.get_dir_entry (Fs.openPath new_fs [] ['w']).2 [""] = some 1
    ∧ (getNode (Fs.openPath new_fs [] ['w']).2 1).map
        (fun e => (e.kind, e.locks, (e.open_files.length : Int))) = some (.file, 0, 1) :=
  ⟨Reach.mopen new_fs [] ['w'] Reach.init, by decide, by decide⟩

/-- C3 (amended): in every state reachable from a fresh filesystem by
public operations and handle closes in which `open` is never invoked on
the degenerate empty path, every node reachable from the root — File or
Directory — has `lock_count` equal to the size of its open-handle list,
and `lock_count` is never negative. -/

theorem C3_lock_count_invariant (s : FSState) (hr : ReachNE s) (p : FPath) (i : NodeId)
    (e : DirEntry)
    (hres : Fs.get_dir_entry s p = some i)
    (he : getNode s i = some e) :
    e.locks = (e.open_files.length : Int) ∧ 0 ≤ e.locks := by
  have h1 := (ReachNE_invariants s hr).1 i e he
  refine ⟨h1, ?_⟩
  rw [h1]
  exact Int.natCast_nonneg _

theorem C3_witness :
    ((⟨.file, "f", none, [0], none, 1, 1, 1, 2, []⟩ : DirEntry)).locks
      = (((⟨.file, "f", none, [0], none, 1, 1, 1, 2, []⟩ : DirEntry)).open_files.length : Int)
    ∧ 0 ≤ ((⟨.file, "f", none, [0], none, 1, 1, 1, 2, []⟩ : DirEntry)).locks :=
  C3_lock_count_invariant (Fs.openPath new_fs ["f"] ['w']).2
    (ReachNE.mopen new_fs ["f"] ['w'] (by decide) ReachNE.init)
    ["f"] 1 ⟨.file, "f", none, [0], none, 1, 1, 1, 2, []⟩ (by decide) (by decide)
